import Mathlib

/-!
# Modbus TCP server component (`src/modbus_tcp/modbus_tcp.cpp`)

A shallow embedding of `ModbusTCPComponent`: the four data banks, the frame
reassembly loop `handle_incoming_packet_`, the eight function-code handlers and
the two response senders.

Conventions of the embedding.

* `uint8_t` and `uint16_t` values are natural numbers; every place where the
  C++ code narrows a value (an assignment to a `uint16_t`, a `push_back` into a
  `std::vector<uint8_t>`) carries an explicit `% 65536` or `% 256`.
* A `std::vector<uint8_t>` is a `List Nat`.
* The banks are C arrays of `MAX_* = 64` cells.  They are functions from the
  index to the cell value; every access checks the index against the capacity
  and reports `Fault.bank_index` when the C++ access would leave the array.
* `operator[]` on a vector outside its size is undefined behaviour in C++; the
  embedding stops there with `Fault.request_index` or `Fault.response_index`
  and keeps the state reached so far.
* A connection (`WiFiClient`) is the list of bytes written to it so far.  The
  handlers send their error frames on a temporary `WiFiClient()`; the frames
  written there are kept in the `stray` log.
-/

namespace modbus_tcp

/-! ## Constants and small helpers -/

def MAX_COILS : Nat := 64
def MAX_DISCRETE_INPUTS : Nat := 64
def MAX_HOLDING_REGS : Nat := 64
def MAX_INPUT_REGS : Nat := 64

/-- The macro `MAKEWORD(high, low)`: `(((uint16_t)(high) << 8) | (low))`, computed in `int`. -/
def MAKEWORD (high low : Nat) : Nat := ((high % 65536) <<< 8) ||| low

/-- Places where the C++ code can index outside an array or a vector. -/
inductive Fault where
  | buffer_index
  | request_index
  | response_index
  | bank_index
  deriving DecidableEq, Repr

/-- The method `std::vector<uint8_t>::push_back`, with the narrowing to `uint8_t`. -/
def push_back (v : List Nat) (x : Nat) : List Nat := v ++ [x % 256]

/-- Checked `v[i]` on a vector: the element, or the fault `f` with the state `st` reached. -/
def vec_at {σ : Type} (st : σ) (v : List Nat) (i : Nat) (f : Fault) : Except (Fault × σ) Nat :=
  match v[i]? with
  | some x => Except.ok x
  | none => Except.error (f, st)

/-- The loop `for (i = 0; i < n; i++) body`, threading the loop state. -/
def for_loop {ε σ : Type} (body : Nat → σ → Except ε σ) : Nat → σ → Except ε σ
  | 0, init => Except.ok init
  | k + 1, init =>
    match for_loop body k init with
    | Except.ok st => body k st
    | Except.error e => Except.error e

/-! ## State -/

/-- The data members of `ModbusTCPComponent` that the request path uses. -/
structure ModbusTCPComponent where
  unit_id_ : Nat
  coil_values_ : Nat → Bool
  discrete_input_values_ : Nat → Bool
  holding_registers_ : Nat → Nat
  input_registers_ : Nat → Nat

/-- The struct `ClientBuffer`: `client` is the byte stream written to the connection. -/
structure ClientBuffer where
  client : List Nat
  buffer : List Nat

/-- What a handler leaves behind: the component, the response vector, and the
frames it wrote on temporary `WiFiClient()` objects. -/
structure Handled where
  comp : ModbusTCPComponent
  response : List Nat
  stray : List (List Nat)

/-- The component together with the connection being served and the log of
frames written on temporary clients. -/
structure Server where
  comp : ModbusTCPComponent
  cb : ClientBuffer
  stray : List (List Nat)

/-! ## Sending -/

/-- The method `send_response_`: `client.write(response.data(), response.size())`. -/
def send_response_ (client : List Nat) (response : List Nat) : List Nat :=
  client ++ response

/-- The method `send_error_response_`: builds the 9-byte exception frame and sends it on `client`. -/
def send_error_response_ (comp : ModbusTCPComponent) (client : List Nat)
    (transaction_id function error_code : Nat) : List Nat :=
  let response : List Nat := []
  let response := push_back response ((transaction_id >>> 8) &&& 0xFF)
  let response := push_back response (transaction_id &&& 0xFF)
  let response := push_back response 0x00
  let response := push_back response 0x00
  let response := push_back response 0x00
  let response := push_back response 0x03
  let response := push_back response comp.unit_id_
  let response := push_back response (function ||| 0x80)
  let response := push_back response error_code
  send_response_ client response

/-- The error exit shared by all handlers: `response.clear()`, then
`send_error_response_(WiFiClient(), 0, function, code)` on a temporary client. -/
def reject (comp : ModbusTCPComponent) (function code : Nat) : Handled :=
  { comp := comp, response := [], stray := [send_error_response_ comp [] 0 function code] }

/-! ## Read handlers -/

/-- The inner loop of the bit readers: eight rounds over `(current_bit, val)`. -/
def pack_byte (comp : ModbusTCPComponent) (bank : Nat → Bool) (cap start_addr quantity : Nat)
    (current_bit : Nat) : Except (Fault × ModbusTCPComponent) (Nat × Nat) :=
  for_loop (fun i (st : Nat × Nat) =>
    if st.1 < quantity then
      if start_addr + st.1 < cap then
        let coil := bank (start_addr + st.1)
        Except.ok ((st.1 + 1) % 65536, (st.2 ||| ((if coil then 1 else 0) <<< i)) % 256)
      else Except.error (Fault.bank_index, comp)
    else Except.ok st) 8 (current_bit, 0)

/-- The outer loop of the bit readers: `byte_count` rounds over `(current_bit, response)`. -/
def pack_bits (comp : ModbusTCPComponent) (bank : Nat → Bool) (cap start_addr quantity : Nat)
    (byte_count : Nat) (response : List Nat) :
    Except (Fault × ModbusTCPComponent) (Nat × List Nat) :=
  for_loop (fun _ (st : Nat × List Nat) =>
    match pack_byte comp bank cap start_addr quantity st.1 with
    | Except.ok (current_bit, val) => Except.ok (current_bit, push_back st.2 val)
    | Except.error e => Except.error e) byte_count (0, response)

/-- Function 0x01, Read Coils. -/
def handle_read_coils_ (comp : ModbusTCPComponent) (function : Nat)
    (request response : List Nat) : Except (Fault × ModbusTCPComponent) Handled :=
  if request.length < 4 then Except.ok (reject comp function 0x03)
  else do
    let r0 ← vec_at comp request 0 Fault.request_index
    let r1 ← vec_at comp request 1 Fault.request_index
    let r2 ← vec_at comp request 2 Fault.request_index
    let r3 ← vec_at comp request 3 Fault.request_index
    let start_addr := MAKEWORD r0 r1 % 65536
    let quantity := MAKEWORD r2 r3 % 65536
    if start_addr + quantity > MAX_COILS ∨ quantity < 1 ∨ quantity > 2000 then
      Except.ok (reject comp function 0x02)
    else
      let byte_count := ((quantity + 7) / 8) % 256
      let response := push_back response byte_count
      match pack_bits comp comp.coil_values_ MAX_COILS start_addr quantity byte_count response with
      | Except.ok (_, response) => Except.ok { comp := comp, response := response, stray := [] }
      | Except.error e => Except.error e

/-- Function 0x02, Read Discrete Inputs. -/
def handle_read_discrete_inputs_ (comp : ModbusTCPComponent) (function : Nat)
    (request response : List Nat) : Except (Fault × ModbusTCPComponent) Handled :=
  if request.length < 4 then Except.ok (reject comp function 0x03)
  else do
    let r0 ← vec_at comp request 0 Fault.request_index
    let r1 ← vec_at comp request 1 Fault.request_index
    let r2 ← vec_at comp request 2 Fault.request_index
    let r3 ← vec_at comp request 3 Fault.request_index
    let start_addr := MAKEWORD r0 r1 % 65536
    let quantity := MAKEWORD r2 r3 % 65536
    if start_addr + quantity > MAX_DISCRETE_INPUTS ∨ quantity < 1 ∨ quantity > 2000 then
      Except.ok (reject comp function 0x02)
    else
      let byte_count := ((quantity + 7) / 8) % 256
      let response := push_back response byte_count
      match pack_bits comp comp.discrete_input_values_ MAX_DISCRETE_INPUTS start_addr quantity
          byte_count response with
      | Except.ok (_, response) => Except.ok { comp := comp, response := response, stray := [] }
      | Except.error e => Except.error e

/-- The loop of the register readers: `quantity` rounds, two bytes pushed per register. -/
def push_registers (comp : ModbusTCPComponent) (bank : Nat → Nat) (cap start_addr quantity : Nat)
    (response : List Nat) : Except (Fault × ModbusTCPComponent) (List Nat) :=
  for_loop (fun i (response : List Nat) =>
    if start_addr + i < cap then
      let val := bank (start_addr + i)
      let response := push_back response ((val >>> 8) &&& 0xFF)
      Except.ok (push_back response (val &&& 0xFF))
    else Except.error (Fault.bank_index, comp)) quantity response

/-- Function 0x03, Read Holding Registers. -/
def handle_read_holding_registers_ (comp : ModbusTCPComponent) (function : Nat)
    (request response : List Nat) : Except (Fault × ModbusTCPComponent) Handled :=
  if request.length < 4 then Except.ok (reject comp function 0x03)
  else do
    let r0 ← vec_at comp request 0 Fault.request_index
    let r1 ← vec_at comp request 1 Fault.request_index
    let r2 ← vec_at comp request 2 Fault.request_index
    let r3 ← vec_at comp request 3 Fault.request_index
    let start_addr := MAKEWORD r0 r1 % 65536
    let quantity := MAKEWORD r2 r3 % 65536
    if start_addr + quantity > MAX_HOLDING_REGS ∨ quantity < 1 ∨ quantity > 125 then
      Except.ok (reject comp function 0x02)
    else
      let byte_count := (quantity * 2) % 256
      let response := push_back response byte_count
      match push_registers comp comp.holding_registers_ MAX_HOLDING_REGS start_addr quantity
          response with
      | Except.ok response => Except.ok { comp := comp, response := response, stray := [] }
      | Except.error e => Except.error e

/-- Function 0x04, Read Input Registers. -/
def handle_read_input_registers_ (comp : ModbusTCPComponent) (function : Nat)
    (request response : List Nat) : Except (Fault × ModbusTCPComponent) Handled :=
  if request.length < 4 then Except.ok (reject comp function 0x03)
  else do
    let r0 ← vec_at comp request 0 Fault.request_index
    let r1 ← vec_at comp request 1 Fault.request_index
    let r2 ← vec_at comp request 2 Fault.request_index
    let r3 ← vec_at comp request 3 Fault.request_index
    let start_addr := MAKEWORD r0 r1 % 65536
    let quantity := MAKEWORD r2 r3 % 65536
    if start_addr + quantity > MAX_INPUT_REGS ∨ quantity < 1 ∨ quantity > 125 then
      Except.ok (reject comp function 0x02)
    else
      let byte_count := (quantity * 2) % 256
      let response := push_back response byte_count
      match push_registers comp comp.input_registers_ MAX_INPUT_REGS start_addr quantity
          response with
      | Except.ok response => Except.ok { comp := comp, response := response, stray := [] }
      | Except.error e => Except.error e

/-! ## Write handlers -/

/-- The assignment `bank[i] = v` as an update of the bank function. -/
def store {α : Type} (bank : Nat → α) (i : Nat) (v : α) : Nat → α :=
  fun j => if j = i then v else bank j

/-- Function 0x05, Write Single Coil. -/
def handle_write_single_coil_ (comp : ModbusTCPComponent) (function : Nat)
    (request response : List Nat) : Except (Fault × ModbusTCPComponent) Handled :=
  if request.length < 4 then Except.ok (reject comp function 0x03)
  else do
    let r0 ← vec_at comp request 0 Fault.request_index
    let r1 ← vec_at comp request 1 Fault.request_index
    let r2 ← vec_at comp request 2 Fault.request_index
    let r3 ← vec_at comp request 3 Fault.request_index
    let addr := MAKEWORD r0 r1 % 65536
    let value := MAKEWORD r2 r3 % 65536
    if addr ≥ MAX_COILS then Except.ok (reject comp function 0x02)
    else
      let new_val := decide (value = 0xFF00)
      if addr < MAX_COILS then
        let comp := { comp with coil_values_ := store comp.coil_values_ addr new_val }
        Except.ok { comp := comp, response := response ++ request.take 4, stray := [] }
      else Except.error (Fault.bank_index, comp)

/-- Function 0x06, Write Single Register. -/
def handle_write_single_register_ (comp : ModbusTCPComponent) (function : Nat)
    (request response : List Nat) : Except (Fault × ModbusTCPComponent) Handled :=
  if request.length < 4 then Except.ok (reject comp function 0x03)
  else do
    let r0 ← vec_at comp request 0 Fault.request_index
    let r1 ← vec_at comp request 1 Fault.request_index
    let r2 ← vec_at comp request 2 Fault.request_index
    let r3 ← vec_at comp request 3 Fault.request_index
    let addr := MAKEWORD r0 r1 % 65536
    let value := MAKEWORD r2 r3 % 65536
    if addr ≥ MAX_HOLDING_REGS then Except.ok (reject comp function 0x02)
    else
      if addr < MAX_HOLDING_REGS then
        let comp := { comp with holding_registers_ := store comp.holding_registers_ addr value }
        Except.ok { comp := comp, response := response ++ request.take 4, stray := [] }
      else Except.error (Fault.bank_index, comp)

/-- The loop of Write Multiple Coils: one coil assigned per round. -/
def write_coils (request : List Nat) (start_addr quantity : Nat) (comp : ModbusTCPComponent) :
    Except (Fault × ModbusTCPComponent) ModbusTCPComponent :=
  for_loop (fun i (comp : ModbusTCPComponent) => do
    let b ← vec_at comp request (5 + i / 8) Fault.request_index
    let val := decide ((b &&& (1 <<< (i % 8))) ≠ 0)
    if start_addr + i < MAX_COILS then
      Except.ok { comp with coil_values_ := store comp.coil_values_ (start_addr + i) val }
    else Except.error (Fault.bank_index, comp)) quantity comp

/-- Function 0x0F, Write Multiple Coils. -/
def handle_write_multiple_coils_ (comp : ModbusTCPComponent) (function : Nat)
    (request response : List Nat) : Except (Fault × ModbusTCPComponent) Handled :=
  if request.length < 5 then Except.ok (reject comp function 0x03)
  else do
    let r0 ← vec_at comp request 0 Fault.request_index
    let r1 ← vec_at comp request 1 Fault.request_index
    let r2 ← vec_at comp request 2 Fault.request_index
    let r3 ← vec_at comp request 3 Fault.request_index
    let byte_count ← vec_at comp request 4 Fault.request_index
    let start_addr := MAKEWORD r0 r1 % 65536
    let quantity := MAKEWORD r2 r3 % 65536
    if start_addr + quantity > MAX_COILS ∨ quantity < 1 ∨ byte_count < (quantity + 7) / 8 then
      Except.ok (reject comp function 0x02)
    else do
      let comp ← write_coils request start_addr quantity comp
      let response := push_back response r0
      let response := push_back response r1
      let response := push_back response r2
      let response := push_back response r3
      Except.ok { comp := comp, response := response, stray := [] }

/-- The loop of Write Multiple Registers: one register assigned per round. -/
def write_registers (request : List Nat) (start_addr quantity : Nat) (comp : ModbusTCPComponent) :
    Except (Fault × ModbusTCPComponent) ModbusTCPComponent :=
  for_loop (fun i (comp : ModbusTCPComponent) => do
    let hi ← vec_at comp request (5 + i * 2) Fault.request_index
    let lo ← vec_at comp request (5 + i * 2 + 1) Fault.request_index
    if start_addr + i < MAX_HOLDING_REGS then
      Except.ok { comp with
        holding_registers_ := store comp.holding_registers_ (start_addr + i) (MAKEWORD hi lo % 65536) }
    else Except.error (Fault.bank_index, comp)) quantity comp

/-- Function 0x10, Write Multiple Registers. -/
def handle_write_multiple_registers_ (comp : ModbusTCPComponent) (function : Nat)
    (request response : List Nat) : Except (Fault × ModbusTCPComponent) Handled :=
  if request.length < 5 then Except.ok (reject comp function 0x03)
  else do
    let r0 ← vec_at comp request 0 Fault.request_index
    let r1 ← vec_at comp request 1 Fault.request_index
    let r2 ← vec_at comp request 2 Fault.request_index
    let r3 ← vec_at comp request 3 Fault.request_index
    let byte_count ← vec_at comp request 4 Fault.request_index
    let start_addr := MAKEWORD r0 r1 % 65536
    let quantity := MAKEWORD r2 r3 % 65536
    if start_addr + quantity > MAX_HOLDING_REGS ∨ quantity < 1 ∨ byte_count ≠ quantity * 2 then
      Except.ok (reject comp function 0x02)
    else do
      let comp ← write_registers request start_addr quantity comp
      let response := push_back response r0
      let response := push_back response r1
      let response := push_back response r2
      let response := push_back response r3
      Except.ok { comp := comp, response := response, stray := [] }

/-! ## The reassembly loop -/

/-- How one round of the `while` loop ends: `continue` / fall through, or `return` / loop exit. -/
inductive Flow where
  | again
  | done
  deriving DecidableEq, Repr

/-- The `switch (function)` over the eight handlers; `none` is the `default:` branch. -/
def dispatch (comp : ModbusTCPComponent) (function : Nat) (pdu_data response : List Nat) :
    Option (Except (Fault × ModbusTCPComponent) Handled) :=
  if function = 0x01 then some (handle_read_coils_ comp function pdu_data response)
  else if function = 0x02 then some (handle_read_discrete_inputs_ comp function pdu_data response)
  else if function = 0x03 then some (handle_read_holding_registers_ comp function pdu_data response)
  else if function = 0x04 then some (handle_read_input_registers_ comp function pdu_data response)
  else if function = 0x05 then some (handle_write_single_coil_ comp function pdu_data response)
  else if function = 0x06 then some (handle_write_single_register_ comp function pdu_data response)
  else if function = 0x0F then some (handle_write_multiple_coils_ comp function pdu_data response)
  else if function = 0x10 then some (handle_write_multiple_registers_ comp function pdu_data response)
  else none

/-- The tail of a loop round after the handler returned: patch the length field
(`response[4]`, `response[5]`) and send the response on the requesting connection. -/
def finish_response (s : Server) (response : List Nat) : Except (Fault × Server) (Flow × Server) :=
  let resp_len := (response.length + (65536 - 6)) % 65536
  if 4 < response.length then
    let response := response.set 4 ((resp_len >>> 8) % 256)
    if 5 < response.length then
      let response := response.set 5 ((resp_len &&& 0xFF) % 256)
      Except.ok (Flow.again,
        { s with cb := { s.cb with client := send_response_ s.cb.client response } })
    else Except.error (Fault.response_index, s)
  else Except.error (Fault.response_index, s)

/-- One round of the `while` loop of `handle_incoming_packet_`, loop test included. -/
def handle_incoming_packet_body (s : Server) : Except (Fault × Server) (Flow × Server) :=
  if s.cb.buffer.length ≥ 8 then do
    let b0 ← vec_at s s.cb.buffer 0 Fault.buffer_index
    let b1 ← vec_at s s.cb.buffer 1 Fault.buffer_index
    let b2 ← vec_at s s.cb.buffer 2 Fault.buffer_index
    let b3 ← vec_at s s.cb.buffer 3 Fault.buffer_index
    let b4 ← vec_at s s.cb.buffer 4 Fault.buffer_index
    let b5 ← vec_at s s.cb.buffer 5 Fault.buffer_index
    let transaction_id := MAKEWORD b0 b1 % 65536
    let _protocol_id := MAKEWORD b2 b3 % 65536
    let length := MAKEWORD b4 b5 % 65536
    if s.cb.buffer.length < 6 + length then Except.ok (Flow.done, s)
    else
      let request := s.cb.buffer.take (6 + length)
      let s := { s with cb := { s.cb with buffer := s.cb.buffer.drop (6 + length) } }
      if length < 2 then Except.ok (Flow.again, s)
      else do
        let unit_id ← vec_at s request 6 Fault.request_index
        let function ← vec_at s request 7 Fault.request_index
        if unit_id ≠ s.comp.unit_id_ then Except.ok (Flow.again, s)
        else do
          let q0 ← vec_at s request 0 Fault.request_index
          let q1 ← vec_at s request 1 Fault.request_index
          let q2 ← vec_at s request 2 Fault.request_index
          let q3 ← vec_at s request 3 Fault.request_index
          let response : List Nat := []
          let response := push_back response q0
          let response := push_back response q1
          let response := push_back response q2
          let response := push_back response q3
          let response := push_back response 0x00
          let response := push_back response 0x00
          let response := push_back response unit_id
          let response := push_back response function
          let pdu_data := request.drop 8
          match dispatch s.comp function pdu_data response with
          | none =>
            Except.ok (Flow.again, { s with cb := { s.cb with
              client := send_error_response_ s.comp s.cb.client transaction_id function 0x01 } })
          | some (Except.error (f, comp)) => Except.error (f, { s with comp := comp })
          | some (Except.ok h) =>
            finish_response { s with comp := h.comp, stray := s.stray ++ h.stray } h.response
  else Except.ok (Flow.done, s)

/-- How a call of `handle_incoming_packet_` ended. -/
inductive Status where
  | returned
  | faulted (f : Fault)
  | out_of_fuel
  deriving DecidableEq, Repr

/-- The `while` loop, bounded by `fuel` rounds. -/
def handle_incoming_packet_loop : Nat → Server → Status × Server
  | 0, s => (Status.out_of_fuel, s)
  | fuel + 1, s =>
    match handle_incoming_packet_body s with
    | Except.ok (Flow.again, s) => handle_incoming_packet_loop fuel s
    | Except.ok (Flow.done, s) => (Status.returned, s)
    | Except.error (f, s) => (Status.faulted f, s)

/-- The method `handle_incoming_packet_`.  Every round that does not return removes at
least six bytes from the buffer, so `buffer.size() + 1` rounds always suffice. -/
def handle_incoming_packet_ (s : Server) : Status × Server :=
  handle_incoming_packet_loop (s.cb.buffer.length + 1) s

/-- The read loop of `process_client_data_` for one connected client: every byte that
`cb.client.read()` returns is pushed on the buffer and `handle_incoming_packet_` runs. -/
def process_client_data_ (s : Server) : List Nat → Status × Server
  | [] => (Status.returned, s)
  | byte :: available =>
    match handle_incoming_packet_
        { s with cb := { s.cb with buffer := push_back s.cb.buffer byte } } with
    | (Status.returned, s) => process_client_data_ s available
    | (Status.faulted f, s) => (Status.faulted f, s)
    | (Status.out_of_fuel, s) => (Status.out_of_fuel, s)

/-! ## Modbus TCP client transport
(`src/Modbus-Middleware/external_components/modbus_tcp/modbus_tcp.cpp`) -/

/-- The largest `size_t` of the 32-bit targets of the component (ESP32, ESP8266). -/
def SIZE_MAX : Nat := 4294967295

/-- The class `modbus::ModbusFrame` as far as the transport uses it. -/
structure ModbusFrame where
  transaction_id_ : Nat
  address_ : Nat
  data_ : List Nat
  deriving DecidableEq, Repr

/-- Modelled from the spec: `ModbusFrame::get_data_length()` is declared in
`esphome/components/modbus/modbus.h`, which is not among the sources; it is the `len(pdu)`
of the length field `1 + len(pdu)`. -/
def ModbusFrame.get_data_length (frame : ModbusFrame) : Nat := frame.data_.length

/-- The data members of `ModbusTCP` that `send`, `loop` and `process_incoming_data_` use.
`connected` is `client_.connected()`, `client_` the byte stream written to the socket and
`received` the frames handed to `on_data`, in order. -/
structure ModbusTCP where
  connected : Bool
  client_ : List Nat
  unit_id_ : Nat
  incoming_buffer_ : List Nat
  transaction_id_counter_ : Nat
  received : List ModbusFrame
  deriving DecidableEq, Repr

/-- The method `get_new_transaction_id_`: the returned id and the component afterwards. -/
def get_new_transaction_id_ (self : ModbusTCP) : Nat × ModbusTCP :=
  let counter := (self.transaction_id_counter_ + 1) % 65536
  let counter := if counter = 0 then 1 else counter
  (counter, { self with transaction_id_counter_ := counter })

/-- The method `send`: the component afterwards and the frame with its new transaction id. -/
def send (self : ModbusTCP) (frame : ModbusFrame) : ModbusTCP × ModbusFrame :=
  if ¬ self.connected then (self, frame)
  else
    let r := get_new_transaction_id_ self
    let transaction_id := r.1
    let self := r.2
    let frame := { frame with transaction_id_ := transaction_id }
    let length := (1 + frame.get_data_length) % 65536
    let mbap : List Nat := []
    let mbap := push_back mbap (transaction_id >>> 8)
    let mbap := push_back mbap (transaction_id &&& 0xFF)
    let mbap := push_back mbap 0x00
    let mbap := push_back mbap 0x00
    let mbap := push_back mbap (length >>> 8)
    let mbap := push_back mbap (length &&& 0xFF)
    let mbap := push_back mbap self.unit_id_
    let mbap := frame.data_.foldl push_back mbap
    ({ self with client_ := self.client_ ++ mbap }, frame)

/-- One round of the `while` loop of `process_incoming_data_`, loop test included.
`size_t pdu_len = length_field - 1` wraps to `SIZE_MAX` for a length field of 0, and the
end iterator `begin() + 7 + pdu_len` is address arithmetic modulo `SIZE_MAX + 1`: the
range handed to the vector constructor is valid when it does not end before it starts
and ends inside the buffer; otherwise the round stops with `Fault.buffer_index`. -/
def process_incoming_data_body (self : ModbusTCP) :
    Except (Fault × ModbusTCP) (Flow × ModbusTCP) :=
  if self.incoming_buffer_.length ≥ 8 then do
    let b0 ← vec_at self self.incoming_buffer_ 0 Fault.buffer_index
    let b1 ← vec_at self self.incoming_buffer_ 1 Fault.buffer_index
    let b2 ← vec_at self self.incoming_buffer_ 2 Fault.buffer_index
    let b3 ← vec_at self self.incoming_buffer_ 3 Fault.buffer_index
    let b4 ← vec_at self self.incoming_buffer_ 4 Fault.buffer_index
    let b5 ← vec_at self self.incoming_buffer_ 5 Fault.buffer_index
    let transaction_id := ((b0 <<< 8) ||| b1) % 65536
    let protocol_id := ((b2 <<< 8) ||| b3) % 65536
    let length_field := ((b4 <<< 8) ||| b5) % 65536
    if protocol_id ≠ 0 then
      Except.ok (Flow.again, { self with incoming_buffer_ := self.incoming_buffer_.drop 1 })
    else
      let adu_len := 6 + length_field
      if self.incoming_buffer_.length < adu_len then Except.ok (Flow.done, self)
      else do
        let unit_id ← vec_at self self.incoming_buffer_ 6 Fault.buffer_index
        let pdu_len := (length_field + SIZE_MAX) % (SIZE_MAX + 1)
        let last := (7 + pdu_len) % (SIZE_MAX + 1)
        if 7 ≤ last ∧ last ≤ self.incoming_buffer_.length then
          let pdu := (self.incoming_buffer_.drop 7).take (last - 7)
          let rx_frame : ModbusFrame :=
            { transaction_id_ := transaction_id, address_ := unit_id, data_ := pdu }
          Except.ok (Flow.again,
            { self with incoming_buffer_ := self.incoming_buffer_.drop adu_len
                        received := self.received ++ [rx_frame] })
        else Except.error (Fault.buffer_index, self)
  else Except.ok (Flow.done, self)

/-- The `while` loop of `process_incoming_data_`, bounded by `fuel` rounds. -/
def process_incoming_data_loop : Nat → ModbusTCP → Status × ModbusTCP
  | 0, self => (Status.out_of_fuel, self)
  | fuel + 1, self =>
    match process_incoming_data_body self with
    | Except.ok (Flow.again, self) => process_incoming_data_loop fuel self
    | Except.ok (Flow.done, self) => (Status.returned, self)
    | Except.error (f, self) => (Status.faulted f, self)

/-- The method `process_incoming_data_`.  Every round that does not return removes at
least one byte from the buffer, so `incoming_buffer_.size() + 1` rounds always suffice. -/
def process_incoming_data_ (self : ModbusTCP) : Status × ModbusTCP :=
  process_incoming_data_loop (self.incoming_buffer_.length + 1) self

/-- The `while (client_.available())` loop of `loop()` on a connected client: every byte
that `client_.read()` returns is pushed on the buffer and `process_incoming_data_` runs. -/
def loop_connected (self : ModbusTCP) : List Nat → Status × ModbusTCP
  | [] => (Status.returned, self)
  | byte :: available =>
    match process_incoming_data_
        { self with incoming_buffer_ := push_back self.incoming_buffer_ byte } with
    | (Status.returned, self) => loop_connected self available
    | (Status.faulted f, self) => (Status.faulted f, self)
    | (Status.out_of_fuel, self) => (Status.out_of_fuel, self)

/-! ## Auxiliary definitions for the statements -/

/-- The holding bank after the first `n` rounds of the Write Multiple Registers loop. -/
def written_registers (bank : Nat → Nat) (data : List Nat) (start n : Nat) : Nat → Nat :=
  fun j => if start ≤ j ∧ j < start + n then
      256 * data.getD (2 * (j - start)) 0 + data.getD (2 * (j - start) + 1) 0
    else bank j

/-- Big-endian encoding of a list of 16-bit values, two bytes per value. -/
def be_bytes (values : List Nat) : List Nat :=
  values.flatMap (fun v => [v / 256, v % 256])

/-- The coil bank after the first `n` rounds of the Write Multiple Coils loop. -/
def written_coils (bank : Nat → Bool) (data : List Nat) (start n : Nat) : Nat → Bool :=
  fun j => if start ≤ j ∧ j < start + n then
      (data.getD ((j - start) / 8) 0).testBit ((j - start) % 8)
    else bank j

/-- The members of the component that no request handler assigns: the unit id and the
two read-only banks. -/
def same_read_only (a b : ModbusTCPComponent) : Prop :=
  a.unit_id_ = b.unit_id_ ∧ a.discrete_input_values_ = b.discrete_input_values_ ∧
    a.input_registers_ = b.input_registers_

/-- What every handler outcome satisfies: the read-only members are as before, and the
only fault a handler can stop on is a read outside the request vector. -/
def handler_safe (comp : ModbusTCPComponent)
    (r : Except (Fault × ModbusTCPComponent) Handled) : Prop :=
  match r with
  | Except.ok h => same_read_only h.comp comp
  | Except.error (f, c) => f = Fault.request_index ∧ same_read_only c comp

/-- What a loop round that does not return leaves behind: the read-only members are as
before and the buffer lost its first `n ≥ 6` bytes and nothing else. -/
def step_ok (s t : Server) : Prop :=
  same_read_only t.comp s.comp ∧
    ∃ n, 6 ≤ n ∧ n ≤ s.cb.buffer.length ∧ t.cb.buffer = s.cb.buffer.drop n

/-- The component after `n` calls of `get_new_transaction_id_`. -/
def after_ids : Nat → ModbusTCP → ModbusTCP
  | 0, self => self
  | n + 1, self => (get_new_transaction_id_ (after_ids n self)).2

/-- The receive buffer with the bytes `e` appended. -/
def extend (self : ModbusTCP) (e : List Nat) : ModbusTCP :=
  { self with incoming_buffer_ := self.incoming_buffer_ ++ e }

/-- The wire bytes of a well-formed ADU carrying `frame`: transaction id, protocol id
`00 00`, length `1 + len(pdu)`, unit id, PDU (the layout of the interface table). -/
def adu_bytes (frame : ModbusFrame) : List Nat :=
  [frame.transaction_id_ / 256, frame.transaction_id_ % 256, 0x00, 0x00,
   (1 + frame.data_.length) / 256, (1 + frame.data_.length) % 256, frame.address_] ++ frame.data_

/-- A frame whose fields fit the wire format: 16-bit transaction id, 8-bit unit id, a PDU
of at least one byte (the function code) that the 16-bit length field can count. -/
def well_formed (frame : ModbusFrame) : Prop :=
  frame.transaction_id_ < 65536 ∧ frame.address_ < 256 ∧ (∀ b ∈ frame.data_, b < 256) ∧
    1 ≤ frame.data_.length ∧ 1 + frame.data_.length < 65536

instance (frame : ModbusFrame) : Decidable (well_formed frame) := by
  unfold well_formed
  infer_instance

/-- Two outcomes of the receive path agree: same status, same frames delivered, and the
same component whenever the second one completed. -/
def agree (a b : Status × ModbusTCP) : Prop :=
  a.1 = b.1 ∧ a.2.received = b.2.received ∧ (b.1 = Status.returned → a.2 = b.2)

/-- The server state with the protocol-id field (bytes 2 and 3) of the buffer set to
0x0000. -/
def clear_protocol_id (s : Server) : Server :=
  { s with cb := { s.cb with buffer := (s.cb.buffer.set 2 0).set 3 0 } }

/-- How a handler uses the response prefix it is given: it clears it (error exit), or
appends bytes to it, or stops before it returns; nothing else depends on the prefix. -/
def prefix_uniform (f : List Nat → Except (Fault × ModbusTCPComponent) Handled) : Prop :=
  (∃ h : Handled, h.response = [] ∧ ∀ pre, f pre = Except.ok h) ∨
  (∃ (comp : ModbusTCPComponent) (ext : List Nat) (stray : List (List Nat)),
    ∀ pre, f pre = Except.ok { comp := comp, response := pre ++ ext, stray := stray }) ∨
  (∃ e, ∀ pre, f pre = Except.error e)

/-- The number of iterations of the `while` loop that a call of `handle_incoming_packet_`
bounded by `fuel` rounds enters: a round counts when the loop test `buffer.size() >= 8`
passed. -/
def handle_incoming_packet_rounds : Nat → Server → Nat
  | 0, _ => 0
  | fuel + 1, s =>
    if s.cb.buffer.length ≥ 8 then
      match handle_incoming_packet_body s with
      | Except.ok (Flow.again, t) => 1 + handle_incoming_packet_rounds fuel t
      | _ => 1
    else 0

/-- The number of iterations of the `while` loop that a call of `process_incoming_data_`
bounded by `fuel` rounds enters: a round counts when the loop test
`incoming_buffer_.size() >= 8` passed. -/
def process_incoming_data_rounds : Nat → ModbusTCP → Nat
  | 0, _ => 0
  | fuel + 1, self =>
    if self.incoming_buffer_.length ≥ 8 then
      match process_incoming_data_body self with
      | Except.ok (Flow.again, t) => 1 + process_incoming_data_rounds fuel t
      | _ => 1
    else 0

/-! ## Test fixtures -/

/-- A component with unit id 1, holding registers `[10, 20, 0, ...]`, coil 0 set. -/
def demo_comp : ModbusTCPComponent :=
  { unit_id_ := 1
    coil_values_ := fun i => decide (i = 0)
    discrete_input_values_ := fun _ => false
    holding_registers_ := fun i => if i = 0 then 10 else if i = 1 then 20 else 0
    input_registers_ := fun _ => 0 }

/-- A server state around `demo_comp` with the given receive buffer. -/
def demo_server (buffer : List Nat) : Server :=
  { comp := demo_comp, cb := { client := [], buffer := buffer }, stray := [] }

/-- A connected client transport with unit id 1, nothing sent or received yet, the given
receive buffer and transaction counter. -/
def demo_client (buffer : List Nat) (counter : Nat) : ModbusTCP :=
  { connected := true, client_ := [], unit_id_ := 1, incoming_buffer_ := buffer,
    transaction_id_counter_ := counter, received := [] }

/-! ## Arithmetic of bytes and words -/

theorem hi_byte (v : Nat) : (v >>> 8) &&& 0xFF = v / 256 % 256 := by
  rw [show (0xFF : Nat) = 2 ^ 8 - 1 from rfl, Nat.and_pow_two_sub_one_eq_mod,
    Nat.shiftRight_eq_div_pow]

theorem lo_byte (v : Nat) : v &&& 0xFF = v % 256 := by
  rw [show (0xFF : Nat) = 2 ^ 8 - 1 from rfl, Nat.and_pow_two_sub_one_eq_mod]

theorem MAKEWORD_bytes (h l : Nat) (hh : h < 256) (hl : l < 256) :
    MAKEWORD h l % 65536 = h * 256 + l := by
  unfold MAKEWORD
  have e : (h % 65536) <<< 8 ||| l = 2 ^ 8 * h + l := by
    rw [Nat.mod_eq_of_lt (by omega), Nat.shiftLeft_eq, Nat.mul_comm]
    exact (Nat.mul_add_lt_is_or (by simpa using hl) h).symm
  rw [e]
  omega

theorem MAKEWORD_split (n : Nat) (hn : n < 65536) :
    MAKEWORD (n / 256) (n % 256) % 65536 = n := by
  rw [MAKEWORD_bytes _ _ (by omega) (by omega)]
  omega

/-! ## The loop on a buffer that starts with a complete frame -/

theorem take_frame (q0 q1 q2 q3 l1 l0 u fn : Nat) (payload rest : List Nat) :
    List.take (6 + (payload.length + 2)) (q0 :: q1 :: q2 :: q3 :: l1 :: l0 :: u :: fn :: (payload ++ rest))
      = q0 :: q1 :: q2 :: q3 :: l1 :: l0 :: u :: fn :: payload := by
  have e : 6 + (payload.length + 2) = payload.length + 1 + 1 + 1 + 1 + 1 + 1 + 1 + 1 := by omega
  rw [e]
  simp only [List.take_succ_cons, List.take_left]

theorem drop_frame (q0 q1 q2 q3 l1 l0 u fn : Nat) (payload rest : List Nat) :
    List.drop (6 + (payload.length + 2)) (q0 :: q1 :: q2 :: q3 :: l1 :: l0 :: u :: fn :: (payload ++ rest))
      = rest := by
  have e : 6 + (payload.length + 2) = payload.length + 1 + 1 + 1 + 1 + 1 + 1 + 1 + 1 := by omega
  rw [e]
  simp only [List.drop_succ_cons, List.drop_left]

/-- One loop round on a buffer that starts with a complete frame addressed to this unit. -/
theorem body_dispatch (s : Server) (q0 q1 q2 q3 l1 l0 u fn : Nat) (payload rest : List Nat)
    (hbuf : s.cb.buffer = q0 :: q1 :: q2 :: q3 :: l1 :: l0 :: u :: fn :: (payload ++ rest))
    (hlen : MAKEWORD l1 l0 % 65536 = payload.length + 2)
    (hu : u = s.comp.unit_id_) :
    handle_incoming_packet_body s =
      match dispatch s.comp fn payload
          [q0 % 256, q1 % 256, q2 % 256, q3 % 256, 0, 0, u % 256, fn % 256] with
      | none =>
        Except.ok (Flow.again,
          { comp := s.comp
            cb := { client := send_error_response_ s.comp s.cb.client (MAKEWORD q0 q1 % 65536) fn 0x01
                    buffer := rest }
            stray := s.stray })
      | some (Except.error (f, comp)) =>
        Except.error (f, { comp := comp, cb := { client := s.cb.client, buffer := rest },
                           stray := s.stray })
      | some (Except.ok h) =>
        finish_response { comp := h.comp, cb := { client := s.cb.client, buffer := rest },
                          stray := s.stray ++ h.stray } h.response := by
  unfold handle_incoming_packet_body
  have h8 : s.cb.buffer.length ≥ 8 := by rw [hbuf]; simp only [List.length_cons]; omega
  have hfit : ¬ (s.cb.buffer.length < 6 + (payload.length + 2)) := by
    rw [hbuf]; simp only [List.length_cons, List.length_append]; omega
  have h2 : ¬ (payload.length + 2 < 2) := by omega
  simp only [h8, if_true, bind, Except.bind, vec_at]
  simp only [hbuf, List.getElem?_cons_zero, List.getElem?_cons_succ, hlen]
  rw [← hbuf]
  simp only [hfit, if_false, h2]
  rw [hbuf, take_frame, drop_frame]
  simp only [List.getElem?_cons_zero, List.getElem?_cons_succ, hu, ne_eq, not_true_eq_false,
    if_false, push_back, List.nil_append, List.cons_append, List.drop_succ_cons, List.drop_zero]

theorem body_short (s : Server) (h : s.cb.buffer.length < 8) :
    handle_incoming_packet_body s = Except.ok (Flow.done, s) := by
  unfold handle_incoming_packet_body
  have h8 : ¬ (s.cb.buffer.length ≥ 8) := by omega
  simp only [h8, if_false]

theorem loop_single (fuel : Nat) (s t : Server)
    (h : handle_incoming_packet_body s = Except.ok (Flow.again, t))
    (ht : t.cb.buffer.length < 8) :
    handle_incoming_packet_loop (fuel + 2) s = (Status.returned, t) := by
  rw [handle_incoming_packet_loop, h]
  simp only
  rw [handle_incoming_packet_loop, body_short t ht]

theorem loop_fault (fuel : Nat) (s t : Server) (f : Fault)
    (h : handle_incoming_packet_body s = Except.error (f, t)) :
    handle_incoming_packet_loop (fuel + 1) s = (Status.faulted f, t) := by
  rw [handle_incoming_packet_loop, h]

/-! ## The `switch` on the function code -/

theorem dispatch_0x01 (comp : ModbusTCPComponent) (pdu_data response : List Nat) :
    dispatch comp 0x01 pdu_data response = some (handle_read_coils_ comp 0x01 pdu_data response) :=
  rfl

theorem dispatch_0x02 (comp : ModbusTCPComponent) (pdu_data response : List Nat) :
    dispatch comp 0x02 pdu_data response =
      some (handle_read_discrete_inputs_ comp 0x02 pdu_data response) :=
  rfl

theorem dispatch_0x03 (comp : ModbusTCPComponent) (pdu_data response : List Nat) :
    dispatch comp 0x03 pdu_data response =
      some (handle_read_holding_registers_ comp 0x03 pdu_data response) :=
  rfl

theorem dispatch_0x04 (comp : ModbusTCPComponent) (pdu_data response : List Nat) :
    dispatch comp 0x04 pdu_data response =
      some (handle_read_input_registers_ comp 0x04 pdu_data response) :=
  rfl

theorem dispatch_0x05 (comp : ModbusTCPComponent) (pdu_data response : List Nat) :
    dispatch comp 0x05 pdu_data response =
      some (handle_write_single_coil_ comp 0x05 pdu_data response) :=
  rfl

theorem dispatch_0x06 (comp : ModbusTCPComponent) (pdu_data response : List Nat) :
    dispatch comp 0x06 pdu_data response =
      some (handle_write_single_register_ comp 0x06 pdu_data response) :=
  rfl

theorem dispatch_0x0F (comp : ModbusTCPComponent) (pdu_data response : List Nat) :
    dispatch comp 0x0F pdu_data response =
      some (handle_write_multiple_coils_ comp 0x0F pdu_data response) :=
  rfl

theorem dispatch_0x10 (comp : ModbusTCPComponent) (pdu_data response : List Nat) :
    dispatch comp 0x10 pdu_data response =
      some (handle_write_multiple_registers_ comp 0x10 pdu_data response) :=
  rfl

theorem dispatch_default (comp : ModbusTCPComponent) (function : Nat) (pdu_data response : List Nat)
    (h : function ∉ [0x01, 0x02, 0x03, 0x04, 0x05, 0x06, 0x0F, 0x10]) :
    dispatch comp function pdu_data response = none := by
  simp only [List.mem_cons, List.mem_singleton, List.not_mem_nil, or_false, not_or] at h
  obtain ⟨h1, h2, h3, h4, h5, h6, h7, h8⟩ := h
  simp only [dispatch, h1, h2, h3, h4, h5, h6, h7, h8, if_false]

/-! ## Register reads -/
theorem push_registers_ok (comp : ModbusTCPComponent) (bank : Nat → Nat) (cap start_addr : Nat)
    (response : List Nat) (quantity : Nat) (h : start_addr + quantity ≤ cap) :
    push_registers comp bank cap start_addr quantity response =
      Except.ok (response ++ (List.range quantity).flatMap
        (fun i => [bank (start_addr + i) / 256 % 256, bank (start_addr + i) % 256])) := by
  unfold push_registers
  induction quantity with
  | zero => simp [for_loop]
  | succ k ih =>
    have hk : start_addr + k < cap := by omega
    rw [for_loop, ih (by omega)]
    simp only [hk, if_true, push_back, lo_byte, List.range_succ, List.flatMap_append,
      Nat.mod_mod, Nat.shiftRight_eq_div_pow]
    simp

theorem handle_read_holding_registers_ok (comp : ModbusTCPComponent) (function : Nat)
    (rest response : List Nat) (start quantity : Nat) (hq : 1 ≤ quantity)
    (hr : start + quantity ≤ 64) :
    handle_read_holding_registers_ comp function
        (start / 256 :: start % 256 :: quantity / 256 :: quantity % 256 :: rest) response =
      Except.ok { comp := comp
                  response := response ++ [2 * quantity] ++ (List.range quantity).flatMap
                    (fun i => [comp.holding_registers_ (start + i) / 256 % 256,
                               comp.holding_registers_ (start + i) % 256])
                  stray := [] } := by
  unfold handle_read_holding_registers_
  have h1 := MAKEWORD_split start (by omega)
  have h2 := MAKEWORD_split quantity (by omega)
  have hlen : ¬ (rest.length + 1 + 1 + 1 + 1 < 4) := by omega
  have hchk : ¬ (start + quantity > MAX_HOLDING_REGS ∨ quantity < 1 ∨ quantity > 125) := by
    unfold MAX_HOLDING_REGS; omega
  have hbc : quantity * 2 % 256 = 2 * quantity := by omega
  simp only [bind, Except.bind, vec_at, List.length_cons]
  simp only [List.getElem?_cons_zero, List.getElem?_cons_succ]
  simp only [hlen, if_false, h1, h2]
  simp only [hchk, if_false]
  simp only [hbc]
  rw [push_registers_ok _ _ _ _ _ _ (by unfold MAX_HOLDING_REGS; omega)]
  simp only [push_back]
  have e : 2 * quantity % 256 = 2 * quantity := by omega
  rw [e]

theorem length_flatMap_pair (f g : Nat → Nat) (n : Nat) :
    ((List.range n).flatMap (fun i => [f i, g i])).length = 2 * n := by
  induction n with
  | zero => rfl
  | succ k ih =>
    rw [List.range_succ, List.flatMap_append, List.length_append, ih]
    simp only [List.flatMap_cons, List.flatMap_nil, List.append_nil, List.length_cons,
      List.length_nil]
    omega

theorem finish_response_ok (s : Server) (a0 a1 a2 a3 a4 a5 : Nat) (tail : List Nat) :
    finish_response s (a0 :: a1 :: a2 :: a3 :: a4 :: a5 :: tail) =
      Except.ok (Flow.again,
        { comp := s.comp
          cb := { client := s.cb.client ++
                    a0 :: a1 :: a2 :: a3 :: (tail.length % 65536 / 256) :: (tail.length % 256) :: tail
                  buffer := s.cb.buffer }
          stray := s.stray }) := by
  unfold finish_response
  have h4 : 4 < tail.length + 1 + 1 + 1 + 1 + 1 + 1 := by omega
  have h5 : 5 < tail.length + 1 + 1 + 1 + 1 + 1 + 1 := by omega
  have e2 : (tail.length + 1 + 1 + 1 + 1 + 1 + 1 + (65536 - 6)) % 65536 / 2 ^ 8 % 256
      = tail.length % 65536 / 256 := by omega
  have e3 : (tail.length + 1 + 1 + 1 + 1 + 1 + 1 + (65536 - 6)) % 65536 % 256 % 256
      = tail.length % 256 := by omega
  simp only [List.set_cons_succ, List.set_cons_zero, List.length_cons,
    lo_byte, Nat.shiftRight_eq_div_pow, send_response_, h4, h5, if_true, e2, e3]

/-- C1. A Read Holding Registers request (function 0x03) for this unit with
`1 ≤ quantity` and `start + quantity ≤ 64`, alone in the buffer with length field 6:
`handle_incoming_packet_` returns, empties the buffer, leaves the banks alone and appends
to the requesting connection exactly the transaction id, `00 00`, the big-endian length
`3 + 2 * quantity`, the unit id, `0x03`, the byte count `2 * quantity`, and then every
register `holding_registers_[start + i]`, `i < quantity`, high byte first. -/
theorem read_holding_registers_response (comp : ModbusTCPComponent) (client : List Nat)
    (stray : List (List Nat)) (tid start quantity : Nat)
    (hu : comp.unit_id_ < 256) (hq : 1 ≤ quantity) (hr : start + quantity ≤ 64) :
    handle_incoming_packet_
        { comp := comp
          cb := { client := client
                  buffer := [tid / 256 % 256, tid % 256, 0x00, 0x00, 0x00, 0x06, comp.unit_id_, 0x03,
                             start / 256, start % 256, quantity / 256, quantity % 256] }
          stray := stray } =
      (Status.returned,
        { comp := comp
          cb := { client := client ++
                    ([tid / 256 % 256, tid % 256, 0x00, 0x00,
                      (3 + 2 * quantity) / 256, (3 + 2 * quantity) % 256,
                      comp.unit_id_, 0x03, 2 * quantity] ++
                     (List.range quantity).flatMap (fun i =>
                       [comp.holding_registers_ (start + i) / 256 % 256,
                        comp.holding_registers_ (start + i) % 256]))
                  buffer := [] }
          stray := stray }) := by
  unfold handle_incoming_packet_
  apply loop_single
  · rw [body_dispatch _ (tid / 256 % 256) (tid % 256) 0 0 0 6 comp.unit_id_ 3
      [start / 256, start % 256, quantity / 256, quantity % 256] [] rfl rfl rfl]
    simp only [dispatch_0x03, handle_read_holding_registers_ok comp 3 [] _ start quantity hq hr,
      List.cons_append, List.nil_append, finish_response_ok]
    have hl := length_flatMap_pair (fun i => comp.holding_registers_ (start + i) / 256 % 256)
      (fun i => comp.holding_registers_ (start + i) % 256) quantity
    simp only [List.length_append, List.length_cons, List.length_nil, hl, List.append_nil,
      Nat.mod_mod, Nat.mod_eq_of_lt hu]
    have e1 : (2 * quantity + 1 + 1 + 1) % 65536 / 256 = (3 + 2 * quantity) / 256 := by omega
    have e2 : (2 * quantity + 1 + 1 + 1) % 256 = (3 + 2 * quantity) % 256 := by omega
    simp only [e1, e2]
  · simp

/-- Witness of C1: the scenario of the specification. -/
theorem read_holding_registers_response_witness :
    handle_incoming_packet_ (demo_server [0x00, 0x01, 0x00, 0x00, 0x00, 0x06, 0x01, 0x03, 0x00, 0x00, 0x00, 0x02]) =
      (Status.returned,
        { comp := demo_comp
          cb := { client := [0x00, 0x01, 0x00, 0x00, 0x00, 0x07, 0x01, 0x03, 0x04, 0x00, 0x0A, 0x00, 0x14]
                  buffer := [] }
          stray := [] }) :=
  read_holding_registers_response demo_comp [] [] 1 0 2 (by decide) (by decide) (by decide)

theorem getElem?_skip5 (a b c d e : Nat) (data : List Nat) (k : Nat) :
    (a :: b :: c :: d :: e :: data)[5 + k]? = data[k]? := by
  rw [Nat.add_comm]
  simp only [List.getElem?_cons_succ]

theorem write_registers_ok (comp : ModbusTCPComponent) (a b c d e : Nat) (data : List Nat)
    (start : Nat) (hbytes : ∀ x ∈ data, x < 256) (n : Nat)
    (hr : start + n ≤ 64) (hlen : 2 * n ≤ data.length) :
    write_registers (a :: b :: c :: d :: e :: data) start n comp =
      Except.ok { comp with
        holding_registers_ := written_registers comp.holding_registers_ data start n } := by
  unfold write_registers
  induction n with
  | zero =>
    simp only [for_loop, written_registers]
    have z : written_registers comp.holding_registers_ data start 0 = comp.holding_registers_ := by
      funext j
      have c : ¬ (start ≤ j ∧ j < start + 0) := by omega
      simp only [written_registers, c, if_false]
    rw [z]
  | succ k ih =>
    rw [for_loop, ih (by omega) (by omega)]
    have h1 : 2 * k < data.length := by omega
    have h2 : 2 * k + 1 < data.length := by omega
    have g1 : (a :: b :: c :: d :: e :: data)[5 + k * 2]? = some (data[2 * k]) := by
      rw [getElem?_skip5, Nat.mul_comm, List.getElem?_eq_getElem h1]
    have g2 : (a :: b :: c :: d :: e :: data)[5 + k * 2 + 1]? = some (data[2 * k + 1]) := by
      rw [Nat.add_assoc, getElem?_skip5, Nat.mul_comm, List.getElem?_eq_getElem h2]
    have hk : start + k < MAX_HOLDING_REGS := by unfold MAX_HOLDING_REGS; omega
    simp only [bind, Except.bind, vec_at, g1, g2, hk, if_true]
    rw [MAKEWORD_bytes _ _ (hbytes _ (List.getElem_mem h1)) (hbytes _ (List.getElem_mem h2))]
    congr 2
    funext j
    unfold store written_registers
    by_cases hj : j = start + k
    · subst hj
      have e1 : start + k - start = k := by omega
      have c1 : start ≤ start + k ∧ start + k < start + (k + 1) := by omega
      simp only [if_true, c1, and_self, e1, List.getD_eq_getElem?_getD, List.getElem?_eq_getElem h1,
        List.getElem?_eq_getElem h2, Option.getD_some]
      omega
    · have c1 : (start ≤ j ∧ j < start + (k + 1)) ↔ (start ≤ j ∧ j < start + k) := by omega
      simp only [hj, if_false, c1]

theorem handle_write_multiple_registers_ok (comp : ModbusTCPComponent) (function : Nat)
    (response data : List Nat) (start quantity : Nat)
    (hq : 1 ≤ quantity) (hr : start + quantity ≤ 64) (hlen : 2 * quantity ≤ data.length)
    (hbytes : ∀ x ∈ data, x < 256) :
    handle_write_multiple_registers_ comp function
        (start / 256 :: start % 256 :: quantity / 256 :: quantity % 256 :: (2 * quantity) :: data)
        response =
      Except.ok { comp := { comp with holding_registers_ :=
                              written_registers comp.holding_registers_ data start quantity }
                  response := response ++ [start / 256, start % 256, quantity / 256, quantity % 256]
                  stray := [] } := by
  unfold handle_write_multiple_registers_
  have h1 := MAKEWORD_split start (by omega)
  have h2 := MAKEWORD_split quantity (by omega)
  have hl : ¬ (data.length + 1 + 1 + 1 + 1 + 1 < 5) := by omega
  have hchk : ¬ (start + quantity > MAX_HOLDING_REGS ∨ quantity < 1 ∨
      2 * quantity ≠ quantity * 2) := by
    unfold MAX_HOLDING_REGS; omega
  simp only [bind, Except.bind, vec_at, List.length_cons, hl, if_false,
    List.getElem?_cons_zero, List.getElem?_cons_succ, h1, h2, hchk,
    write_registers_ok comp _ _ _ _ _ data start hbytes quantity hr hlen, push_back]
  have b1 : start / 256 % 256 = start / 256 := by omega
  have b2 : quantity / 256 % 256 = quantity / 256 := by omega
  simp only [b1, b2, Nat.mod_mod, List.append_assoc, List.cons_append, List.nil_append]

/-- C2. Write Multiple Registers (function 0x10) on a payload
`start(2), quantity(2), byte_count, data...` with `1 ≤ quantity`, `start + quantity ≤ 64`,
`byte_count = 2 * quantity` and at least `byte_count` data bytes: the handler succeeds,
`holding_registers_[start + i]` becomes `256 * data[2i] + data[2i+1]` for every
`i < quantity`, every other holding register and every other bank is unchanged, and the
handler appends to the response exactly the four bytes `start(2), quantity(2)`. -/
theorem write_multiple_registers_effect (comp : ModbusTCPComponent) (function : Nat)
    (response data : List Nat) (start quantity : Nat)
    (hq : 1 ≤ quantity) (hr : start + quantity ≤ 64) (hlen : 2 * quantity ≤ data.length)
    (hbytes : ∀ x ∈ data, x < 256) :
    ∃ after : ModbusTCPComponent,
      handle_write_multiple_registers_ comp function
          (start / 256 :: start % 256 :: quantity / 256 :: quantity % 256 :: (2 * quantity) :: data)
          response =
        Except.ok { comp := after
                    response := response ++ [start / 256, start % 256, quantity / 256, quantity % 256]
                    stray := [] } ∧
      (∀ i, i < quantity →
        after.holding_registers_ (start + i) = 256 * data.getD (2 * i) 0 + data.getD (2 * i + 1) 0) ∧
      (∀ j, (j < start ∨ start + quantity ≤ j) →
        after.holding_registers_ j = comp.holding_registers_ j) ∧
      after.coil_values_ = comp.coil_values_ ∧
      after.discrete_input_values_ = comp.discrete_input_values_ ∧
      after.input_registers_ = comp.input_registers_ ∧
      after.unit_id_ = comp.unit_id_ := by
  refine ⟨_, handle_write_multiple_registers_ok comp function response data start quantity
    hq hr hlen hbytes, ?_, ?_, rfl, rfl, rfl, rfl⟩
  · intro i hi
    have c : start ≤ start + i ∧ start + i < start + quantity := by omega
    have e : start + i - start = i := by omega
    simp only [written_registers, c, and_self, if_true, e]
  · intro j hj
    have c : ¬ (start ≤ j ∧ j < start + quantity) := by omega
    simp only [written_registers, c, if_false]

/-- Witness of C2: the scenario of the specification. -/
theorem write_multiple_registers_effect_witness :
    ∃ after : ModbusTCPComponent,
      handle_write_multiple_registers_ demo_comp 0x10
          [0x00, 0x00, 0x00, 0x02, 0x04, 0x00, 0x0A, 0x00, 0x14] [] =
        Except.ok { comp := after, response := [0x00, 0x00, 0x00, 0x02], stray := [] } ∧
      after.holding_registers_ 0 = 10 ∧ after.holding_registers_ 1 = 20 := by
  obtain ⟨after, h, hw, _⟩ := write_multiple_registers_effect demo_comp 0x10 []
    [0x00, 0x0A, 0x00, 0x14] 0 2 (by decide) (by decide) (by decide) (by decide)
  exact ⟨after, h, hw 0 (by decide), hw 1 (by decide)⟩

/-- C3, the code at three Read Coils requests with an invalid range (quantity 0,
quantity 2001, start 60 + quantity 10), unit 1, transaction 1: nothing is written to the
requesting connection; the exception frame is built with transaction id 0 and written on
a temporary client, and the loop then patches `response[4]` of the cleared, empty
response vector. -/
theorem read_coils_invalid_range_reply :
    ((handle_incoming_packet_ (demo_server [0x00, 0x01, 0x00, 0x00, 0x00, 0x06, 0x01, 0x01, 0x00, 0x00, 0x00, 0x00])).1
        = Status.faulted Fault.response_index ∧
      (handle_incoming_packet_ (demo_server [0x00, 0x01, 0x00, 0x00, 0x00, 0x06, 0x01, 0x01, 0x00, 0x00, 0x00, 0x00])).2.cb.client
        = [] ∧
      (handle_incoming_packet_ (demo_server [0x00, 0x01, 0x00, 0x00, 0x00, 0x06, 0x01, 0x01, 0x00, 0x00, 0x00, 0x00])).2.stray
        = [[0x00, 0x00, 0x00, 0x00, 0x00, 0x03, 0x01, 0x81, 0x02]]) ∧
    ((handle_incoming_packet_ (demo_server [0x00, 0x01, 0x00, 0x00, 0x00, 0x06, 0x01, 0x01, 0x00, 0x00, 0x07, 0xD1])).1
        = Status.faulted Fault.response_index ∧
      (handle_incoming_packet_ (demo_server [0x00, 0x01, 0x00, 0x00, 0x00, 0x06, 0x01, 0x01, 0x00, 0x00, 0x07, 0xD1])).2.cb.client
        = []) ∧
    ((handle_incoming_packet_ (demo_server [0x00, 0x01, 0x00, 0x00, 0x00, 0x06, 0x01, 0x01, 0x00, 0x3C, 0x00, 0x0A])).1
        = Status.faulted Fault.response_index ∧
      (handle_incoming_packet_ (demo_server [0x00, 0x01, 0x00, 0x00, 0x00, 0x06, 0x01, 0x01, 0x00, 0x3C, 0x00, 0x0A])).2.cb.client
        = []) := by
  decide

/-- C4 fails on the code: Write Single Coil at address 0 with value 0x1234, coil 0
set beforehand.  The coil changes (to OFF) and the reply is the success echo with
function byte 0x05, not the exception frame `.. 85 02`. -/
theorem write_single_coil_0x1234_accepted :
    (handle_incoming_packet_ (demo_server
        [0x00, 0x01, 0x00, 0x00, 0x00, 0x06, 0x01, 0x05, 0x00, 0x00, 0x12, 0x34])).2.comp.coil_values_ 0
      ≠ demo_comp.coil_values_ 0 ∧
    (handle_incoming_packet_ (demo_server
        [0x00, 0x01, 0x00, 0x00, 0x00, 0x06, 0x01, 0x05, 0x00, 0x00, 0x12, 0x34])).2.cb.client
      = [0x00, 0x01, 0x00, 0x00, 0x00, 0x06, 0x01, 0x05, 0x00, 0x00, 0x12, 0x34] := by
  decide

theorem handle_write_single_coil_ok (comp : ModbusTCPComponent) (function : Nat)
    (rest response : List Nat) (addr value : Nat) (ha : addr < 64) (hv : value < 65536) :
    handle_write_single_coil_ comp function
        (addr / 256 :: addr % 256 :: value / 256 :: value % 256 :: rest) response =
      Except.ok { comp := { comp with
                    coil_values_ := store comp.coil_values_ addr (decide (value = 0xFF00)) }
                  response := response ++ [addr / 256, addr % 256, value / 256, value % 256]
                  stray := [] } := by
  unfold handle_write_single_coil_
  have h1 := MAKEWORD_split addr (by omega)
  have h2 := MAKEWORD_split value hv
  have hl : ¬ (rest.length + 1 + 1 + 1 + 1 < 4) := by omega
  have hchk : ¬ (addr ≥ MAX_COILS) := by unfold MAX_COILS; omega
  have hin : addr < MAX_COILS := by unfold MAX_COILS; omega
  simp only [bind, Except.bind, vec_at, List.length_cons, hl, if_false,
    List.getElem?_cons_zero, List.getElem?_cons_succ, h1, h2, hchk, hin, if_true,
    List.take_succ_cons, List.take_zero]

/-- C4 as the code has it: a Write Single Coil request (function 0x05) for this unit
with `address < 64` and a 16-bit value that is neither 0xFF00 nor 0x0000 switches the
coil at `address` OFF, leaves every other coil and every other bank unchanged, and is
answered on the requesting connection with the echo of the request (function byte 0x05). -/
theorem write_single_coil_other_value (comp : ModbusTCPComponent) (client : List Nat)
    (stray : List (List Nat)) (tid addr value : Nat)
    (hu : comp.unit_id_ < 256) (ha : addr < 64) (hv : value < 65536)
    (hon : value ≠ 0xFF00) (_hoff : value ≠ 0x0000) :
    handle_incoming_packet_
        { comp := comp
          cb := { client := client
                  buffer := [tid / 256 % 256, tid % 256, 0x00, 0x00, 0x00, 0x06, comp.unit_id_, 0x05,
                             addr / 256, addr % 256, value / 256, value % 256] }
          stray := stray } =
      (Status.returned,
        { comp := { comp with coil_values_ := store comp.coil_values_ addr false }
          cb := { client := client ++
                    [tid / 256 % 256, tid % 256, 0x00, 0x00, 0x00, 0x06, comp.unit_id_, 0x05,
                     addr / 256, addr % 256, value / 256, value % 256]
                  buffer := [] }
          stray := stray }) := by
  unfold handle_incoming_packet_
  apply loop_single
  · rw [body_dispatch _ (tid / 256 % 256) (tid % 256) 0 0 0 6 comp.unit_id_ 5
      [addr / 256, addr % 256, value / 256, value % 256] [] rfl rfl rfl]
    have hdec : decide (value = 0xFF00) = false := by simp only [hon, decide_False]
    simp only [dispatch_0x05, handle_write_single_coil_ok comp 5 [] _ addr value ha hv, hdec,
      List.cons_append, List.nil_append, finish_response_ok, List.length_cons, List.length_nil,
      List.append_nil, Nat.mod_mod, Nat.mod_eq_of_lt hu]
  · simp

/-- Witness of C4 as amended: value 0x1234 written to coil 0. -/
theorem write_single_coil_other_value_witness :
    handle_incoming_packet_ (demo_server
        [0x00, 0x01, 0x00, 0x00, 0x00, 0x06, 0x01, 0x05, 0x00, 0x00, 0x12, 0x34]) =
      (Status.returned,
        { comp := { demo_comp with coil_values_ := store demo_comp.coil_values_ 0 false }
          cb := { client := [0x00, 0x01, 0x00, 0x00, 0x00, 0x06, 0x01, 0x05, 0x00, 0x00, 0x12, 0x34]
                  buffer := [] }
          stray := [] }) :=
  write_single_coil_other_value demo_comp [] [] 1 0 0x1234 (by decide) (by decide) (by decide)
    (by decide) (by decide)

theorem error_frame (comp : ModbusTCPComponent) (client : List Nat) (tid fn code : Nat)
    (hu : comp.unit_id_ < 256) (hfn : fn < 256) (hc : code < 256) :
    send_error_response_ comp client (MAKEWORD (tid / 256 % 256) (tid % 256) % 65536) fn code =
      client ++ [tid / 256 % 256, tid % 256, 0x00, 0x00, 0x00, 0x03, comp.unit_id_, fn ||| 0x80, code] := by
  have hor : fn ||| 0x80 < 256 := Nat.or_lt_two_pow (n := 8) hfn (by decide)
  have ht : MAKEWORD (tid / 256 % 256) (tid % 256) % 65536 = tid % 65536 := by
    rw [MAKEWORD_bytes _ _ (by omega) (by omega)]; omega
  have e1 : tid % 65536 / 2 ^ 8 % 256 % 256 = tid / 256 % 256 := by omega
  have e2 : tid % 65536 % 256 % 256 = tid % 256 := by omega
  simp only [send_error_response_, send_response_, push_back, ht, lo_byte,
    Nat.shiftRight_eq_div_pow, e1, e2, Nat.mod_eq_of_lt hu, Nat.mod_eq_of_lt hor,
    Nat.mod_eq_of_lt hc, List.nil_append, List.cons_append, List.append_assoc, Nat.zero_mod]

/-- C5. A frame for this unit with declared length `≥ 2` (any protocol id bytes, any
payload) whose function code is a byte outside `{01, 02, 03, 04, 05, 06, 0F, 10}`, alone
in the buffer: `handle_incoming_packet_` returns, appends to the requesting connection
exactly the transaction id, `00 00`, `00 03`, the unit id, `function | 0x80`, `01`, and
leaves the four banks unchanged. -/
theorem illegal_function_reply (comp : ModbusTCPComponent) (client : List Nat)
    (stray : List (List Nat)) (tid p1 p0 fn : Nat) (payload : List Nat)
    (hu : comp.unit_id_ < 256) (hfn : fn < 256)
    (hnot : fn ∉ [0x01, 0x02, 0x03, 0x04, 0x05, 0x06, 0x0F, 0x10])
    (hp : payload.length + 2 < 65536) :
    handle_incoming_packet_
        { comp := comp
          cb := { client := client
                  buffer := tid / 256 % 256 :: tid % 256 :: p1 :: p0 ::
                    (payload.length + 2) / 256 :: (payload.length + 2) % 256 ::
                    comp.unit_id_ :: fn :: payload }
          stray := stray } =
      (Status.returned,
        { comp := comp
          cb := { client := client ++
                    [tid / 256 % 256, tid % 256, 0x00, 0x00, 0x00, 0x03, comp.unit_id_, fn ||| 0x80, 0x01]
                  buffer := [] }
          stray := stray }) := by
  unfold handle_incoming_packet_
  apply loop_single
  · rw [body_dispatch _ (tid / 256 % 256) (tid % 256) p1 p0 ((payload.length + 2) / 256)
      ((payload.length + 2) % 256) comp.unit_id_ fn payload []
      (by simp only [List.append_nil]) (MAKEWORD_split _ hp) rfl]
    simp only [dispatch_default comp fn payload _ hnot,
      error_frame comp client tid fn 1 hu hfn (by decide)]
  · simp

/-- Witness of C5: function 0x2B, transaction 7, unit 1. -/
theorem illegal_function_reply_witness :
    handle_incoming_packet_ (demo_server
        [0x00, 0x07, 0x00, 0x00, 0x00, 0x04, 0x01, 0x2B, 0x0E, 0x01]) =
      (Status.returned,
        { comp := demo_comp
          cb := { client := [0x00, 0x07, 0x00, 0x00, 0x00, 0x03, 0x01, 0xAB, 0x01], buffer := [] }
          stray := [] }) :=
  illegal_function_reply demo_comp [] [] 7 0 0 0x2B [0x0E, 0x01] (by decide) (by decide)
    (by decide) (by decide)

/-- One loop round on a buffer that starts with a complete frame for another unit. -/
theorem body_mismatch (s : Server) (q0 q1 q2 q3 l1 l0 u fn : Nat) (payload rest : List Nat)
    (hbuf : s.cb.buffer = q0 :: q1 :: q2 :: q3 :: l1 :: l0 :: u :: fn :: (payload ++ rest))
    (hlen : MAKEWORD l1 l0 % 65536 = payload.length + 2)
    (hu : u ≠ s.comp.unit_id_) :
    handle_incoming_packet_body s =
      Except.ok (Flow.again,
        { comp := s.comp, cb := { client := s.cb.client, buffer := rest }, stray := s.stray }) := by
  unfold handle_incoming_packet_body
  have h8 : s.cb.buffer.length ≥ 8 := by rw [hbuf]; simp only [List.length_cons]; omega
  have hfit : ¬ (s.cb.buffer.length < 6 + (payload.length + 2)) := by
    rw [hbuf]; simp only [List.length_cons, List.length_append]; omega
  have h2 : ¬ (payload.length + 2 < 2) := by omega
  simp only [h8, if_true, bind, Except.bind, vec_at]
  simp only [hbuf, List.getElem?_cons_zero, List.getElem?_cons_succ, hlen]
  rw [← hbuf]
  simp only [hfit, if_false, h2]
  rw [hbuf, take_frame, drop_frame]
  simp only [List.getElem?_cons_zero, List.getElem?_cons_succ, hu, ne_eq, not_false_eq_true,
    if_true]

/-- C6. A buffer that starts with a complete request frame (header, unit id, function
code, payload) whose unit id byte differs from the configured one: the loop round removes
exactly the frame (the `6 + length` bytes) and nothing else, writes nothing on any
client and leaves the four banks unchanged; when fewer than 8 bytes follow the frame,
`handle_incoming_packet_` as a whole returns in that state. -/
theorem unit_id_mismatch_silent (s : Server) (q0 q1 q2 q3 u fn : Nat) (payload rest : List Nat)
    (hbuf : s.cb.buffer = q0 :: q1 :: q2 :: q3 ::
      (payload.length + 2) / 256 :: (payload.length + 2) % 256 :: u :: fn :: (payload ++ rest))
    (hp : payload.length + 2 < 65536)
    (hu : u ≠ s.comp.unit_id_) :
    handle_incoming_packet_body s =
        Except.ok (Flow.again,
          { comp := s.comp, cb := { client := s.cb.client, buffer := rest }, stray := s.stray }) ∧
    (rest.length < 8 →
      handle_incoming_packet_ s =
        (Status.returned,
          { comp := s.comp, cb := { client := s.cb.client, buffer := rest }, stray := s.stray })) := by
  have hb := body_mismatch s q0 q1 q2 q3 _ _ u fn payload rest hbuf (MAKEWORD_split _ hp) hu
  refine ⟨hb, fun hrest => ?_⟩
  unfold handle_incoming_packet_
  have hl : s.cb.buffer.length + 1 = (payload.length + rest.length + 7) + 2 := by
    rw [hbuf]; simp only [List.length_cons, List.length_append]
  rw [hl]
  exact loop_single _ s _ hb hrest

/-- Witness of C6: request for unit 2, configured unit 1. -/
theorem unit_id_mismatch_silent_witness :
    handle_incoming_packet_body (demo_server
        [0x00, 0x01, 0x00, 0x00, 0x00, 0x06, 0x02, 0x03, 0x00, 0x00, 0x00, 0x02]) =
        Except.ok (Flow.again, demo_server []) ∧
    handle_incoming_packet_ (demo_server
        [0x00, 0x01, 0x00, 0x00, 0x00, 0x06, 0x02, 0x03, 0x00, 0x00, 0x00, 0x02]) =
        (Status.returned, demo_server []) :=
  ⟨(unit_id_mismatch_silent (demo_server
      [0x00, 0x01, 0x00, 0x00, 0x00, 0x06, 0x02, 0x03, 0x00, 0x00, 0x00, 0x02])
      0x00 0x01 0x00 0x00 0x02 0x03 [0x00, 0x00, 0x00, 0x02] [] rfl (by decide) (by decide)).1,
   (unit_id_mismatch_silent (demo_server
      [0x00, 0x01, 0x00, 0x00, 0x00, 0x06, 0x02, 0x03, 0x00, 0x00, 0x00, 0x02])
      0x00 0x01 0x00 0x00 0x02 0x03 [0x00, 0x00, 0x00, 0x02] [] rfl (by decide) (by decide)).2
      (by decide)⟩

/-- C10. Write Single Coil (function 0x05) with `address < 64` and value 0xFF00 or
0x0000: the handler succeeds, `coil_values_[address]` is true for 0xFF00 and false for
0x0000, every other coil and every other bank is unchanged, and the handler appends to
the response exactly the first four bytes of the request payload. -/
theorem write_single_coil_success (comp : ModbusTCPComponent) (function : Nat)
    (rest response : List Nat) (addr value : Nat) (ha : addr < 64)
    (hv : value = 0xFF00 ∨ value = 0x0000) :
    ∃ after : ModbusTCPComponent,
      handle_write_single_coil_ comp function
          (addr / 256 :: addr % 256 :: value / 256 :: value % 256 :: rest) response =
        Except.ok { comp := after
                    response := response ++ [addr / 256, addr % 256, value / 256, value % 256]
                    stray := [] } ∧
      (value = 0xFF00 → after.coil_values_ addr = true) ∧
      (value = 0x0000 → after.coil_values_ addr = false) ∧
      (∀ j, j ≠ addr → after.coil_values_ j = comp.coil_values_ j) ∧
      after.discrete_input_values_ = comp.discrete_input_values_ ∧
      after.holding_registers_ = comp.holding_registers_ ∧
      after.input_registers_ = comp.input_registers_ ∧
      after.unit_id_ = comp.unit_id_ := by
  have hv16 : value < 65536 := by omega
  refine ⟨_, handle_write_single_coil_ok comp function rest response addr value ha hv16,
    ?_, ?_, ?_, rfl, rfl, rfl, rfl⟩
  · intro h
    simp only [store, h, if_true, decide_True]
  · intro h
    subst h
    simp only [store, if_true]
    rfl
  · intro j hj
    simp only [store, hj, if_false]

/-- Witness of C10: coil 3 switched ON, coil 0 untouched. -/
theorem write_single_coil_success_witness :
    ∃ after : ModbusTCPComponent,
      handle_write_single_coil_ demo_comp 0x05 [0x00, 0x03, 0xFF, 0x00] [] =
        Except.ok { comp := after, response := [0x00, 0x03, 0xFF, 0x00], stray := [] } ∧
      after.coil_values_ 3 = true ∧ after.coil_values_ 0 = true := by
  obtain ⟨after, h, hon, _, hother, _⟩ :=
    write_single_coil_success demo_comp 0x05 [] [] 3 0xFF00 (by decide) (by decide)
  exact ⟨after, h, hon rfl, by rw [hother 0 (by decide)]; rfl⟩

theorem be_bytes_length (values : List Nat) : (be_bytes values).length = 2 * values.length := by
  induction values with
  | nil => rfl
  | cons x xs ih =>
    simp only [be_bytes, List.flatMap_cons, List.length_append, List.length_cons,
      List.length_nil] at ih ⊢
    omega

theorem be_bytes_lt (values : List Nat) (hv : ∀ v ∈ values, v < 65536) :
    ∀ x ∈ be_bytes values, x < 256 := by
  intro x hx
  simp only [be_bytes, List.mem_flatMap, List.mem_cons, List.mem_singleton, List.not_mem_nil,
    or_false] at hx
  obtain ⟨v, hvm, h | h⟩ := hx
  · have := hv v hvm; omega
  · omega

theorem be_bytes_getD (values : List Nat) (i : Nat) (hi : i < values.length) :
    (be_bytes values).getD (2 * i) 0 = values.getD i 0 / 256 ∧
    (be_bytes values).getD (2 * i + 1) 0 = values.getD i 0 % 256 := by
  induction values generalizing i with
  | nil => simp at hi
  | cons x xs ih =>
    cases i with
    | zero => simp [be_bytes]
    | succ k =>
      have hk : k < xs.length := by simpa using hi
      have e1 : 2 * (k + 1) = 2 * k + 1 + 1 := by omega
      have := ih k hk
      rw [e1]
      simpa [be_bytes] using this

theorem flatMap_range_getD (l : List Nat) (h : Nat → List Nat) :
    (List.range l.length).flatMap (fun i => h (l.getD i 0)) = l.flatMap h := by
  induction l with
  | nil => rfl
  | cons x xs ih =>
    rw [List.length_cons, List.range_succ_eq_map, List.flatMap_cons, List.flatMap_map,
      List.flatMap_cons, ← ih]
    rfl

/-- C7. Register round trip: for `1 ≤ quantity`, `start + quantity ≤ 64` and any
`quantity` 16-bit values, Write Multiple Registers (0x10) carrying the values big-endian
with `byte_count = 2 * quantity` succeeds, and Read Holding Registers (0x03) for the same
`(start, quantity)` on the resulting component appends the byte count `2 * quantity`
followed by exactly those values, big-endian, in order. -/
theorem register_round_trip (comp : ModbusTCPComponent) (fw fr : Nat)
    (response_w response_r : List Nat) (start quantity : Nat) (values : List Nat)
    (hq : 1 ≤ quantity) (hr : start + quantity ≤ 64) (hlen : values.length = quantity)
    (hv : ∀ v ∈ values, v < 65536) :
    ∃ written : Handled,
      handle_write_multiple_registers_ comp fw
          (start / 256 :: start % 256 :: quantity / 256 :: quantity % 256 :: (2 * quantity) ::
            be_bytes values) response_w = Except.ok written ∧
      handle_read_holding_registers_ written.comp fr
          [start / 256, start % 256, quantity / 256, quantity % 256] response_r =
        Except.ok { comp := written.comp
                    response := response_r ++ [2 * quantity] ++ be_bytes values
                    stray := [] } := by
  have hdl : 2 * quantity ≤ (be_bytes values).length := by rw [be_bytes_length]; omega
  refine ⟨_, handle_write_multiple_registers_ok comp fw response_w (be_bytes values) start quantity
    hq hr hdl (be_bytes_lt values hv), ?_⟩
  rw [handle_read_holding_registers_ok _ fr [] response_r start quantity hq hr]
  congr 2
  have key : ∀ i ∈ List.range quantity,
      [written_registers comp.holding_registers_ (be_bytes values) start quantity (start + i)
          / 256 % 256,
       written_registers comp.holding_registers_ (be_bytes values) start quantity (start + i)
          % 256] = (fun v => [v / 256, v % 256]) (values.getD i 0) := by
    intro i hi
    have hiq : i < quantity := List.mem_range.mp hi
    have c : start ≤ start + i ∧ start + i < start + quantity := by omega
    have e : start + i - start = i := by omega
    obtain ⟨g1, g2⟩ := be_bytes_getD values i (by omega)
    have hw : written_registers comp.holding_registers_ (be_bytes values) start quantity
        (start + i) = values.getD i 0 := by
      simp only [written_registers, c, and_self, if_true, e, g1, g2]
      omega
    have hlt : values.getD i 0 < 65536 := by
      have hil : i < values.length := by omega
      rw [List.getD_eq_getElem _ _ hil]
      exact hv _ (List.getElem_mem hil)
    rw [hw]
    have : values.getD i 0 / 256 % 256 = values.getD i 0 / 256 := by omega
    simp only [this]
  rw [List.flatMap_congr key, ← hlen, flatMap_range_getD values (fun v => [v / 256, v % 256])]
  rfl

/-- Witness of C7: the values 0x1234, 0xABCD written to and read from registers 5 and 6. -/
theorem register_round_trip_witness :
    ∃ written : Handled,
      handle_write_multiple_registers_ demo_comp 0x10
          [0x00, 0x05, 0x00, 0x02, 0x04, 0x12, 0x34, 0xAB, 0xCD] [] = Except.ok written ∧
      handle_read_holding_registers_ written.comp 0x03 [0x00, 0x05, 0x00, 0x02] [] =
        Except.ok { comp := written.comp, response := [0x04, 0x12, 0x34, 0xAB, 0xCD], stray := [] } :=
  register_round_trip demo_comp 0x10 0x03 [] [] 5 2 [0x1234, 0xABCD] (by decide) (by decide)
    (by decide) (by decide)

theorem bit_testBit (b : Bool) (k j : Nat) :
    (((if b then 1 else 0) : Nat) <<< k).testBit j = (decide (j = k) && b) := by
  rw [Nat.testBit_shiftLeft]
  by_cases hjk : j = k
  · subst hjk
    cases b <;> simp
  · by_cases hge : j ≥ k
    · have hpos : j - k ≠ 0 := by omega
      obtain ⟨m, hm⟩ := Nat.exists_eq_succ_of_ne_zero hpos
      cases b <;> simp [hjk, hge, hm, Nat.testBit_succ]
    · simp [hjk, hge]

theorem bit_shift_lt (b : Bool) (k : Nat) : ((if b then 1 else 0) : Nat) <<< k < 2 ^ (k + 1) := by
  rw [Nat.shiftLeft_eq, Nat.pow_succ]
  have hp : 0 < 2 ^ k := Nat.pos_pow_of_pos k (by decide)
  cases b
  · simp only [Bool.false_eq_true, if_false, Nat.zero_mul]; omega
  · simp only [if_true, Nat.one_mul]; omega

theorem pack_byte_rounds (comp : ModbusTCPComponent) (bank : Nat → Bool)
    (cap start quantity c : Nat) (hcap : start + quantity ≤ cap) (hq : quantity < 65536)
    (hc : c ≤ quantity) (n : Nat) (hn : n ≤ 8) :
    ∃ val : Nat,
      for_loop (fun i (st : Nat × Nat) =>
        if st.1 < quantity then
          if start + st.1 < cap then
            let coil := bank (start + st.1)
            Except.ok ((st.1 + 1) % 65536, (st.2 ||| ((if coil then 1 else 0) <<< i)) % 256)
          else Except.error (Fault.bank_index, comp)
        else Except.ok st) n (c, 0) = Except.ok (min (c + n) quantity, val) ∧
      val < 2 ^ n ∧
      ∀ j, val.testBit j = (decide (j < n) && decide (c + j < quantity) && bank (start + c + j)) := by
  induction n with
  | zero =>
    refine ⟨0, ?_, by decide, ?_⟩
    · simp only [for_loop, Nat.add_zero, Nat.min_eq_left hc]
    · intro j
      simp
  | succ k ih =>
    obtain ⟨val, hloop, hlt, hbits⟩ := ih (by omega)
    rw [for_loop, hloop]
    by_cases hk : c + k < quantity
    · have m1 : min (c + k) quantity = c + k := Nat.min_eq_left (by omega)
      have m2 : min (c + (k + 1)) quantity = c + (k + 1) := Nat.min_eq_left (by omega)
      have hin : start + (c + k) < cap := by omega
      have hw : (c + k + 1) % 65536 = c + (k + 1) := by omega
      have hlt2 : val ||| ((if bank (start + (c + k)) then 1 else 0) <<< k) < 2 ^ (k + 1) :=
        Nat.or_lt_two_pow (Nat.lt_trans hlt (Nat.pow_lt_pow_right (by decide) (by omega)))
          (bit_shift_lt _ k)
      have h256 : val ||| ((if bank (start + (c + k)) then 1 else 0) <<< k) < 256 :=
        Nat.lt_of_lt_of_le hlt2 (Nat.pow_le_pow_right (by decide) (by omega) : 2 ^ (k + 1) ≤ 2 ^ 8)
      refine ⟨val ||| ((if bank (start + (c + k)) then 1 else 0) <<< k), ?_, hlt2, ?_⟩
      · simp only [m1, m2, hk, if_true, hin, hw, Nat.mod_eq_of_lt h256]
      · intro j
        rw [Nat.testBit_or, hbits j, bit_testBit]
        by_cases hjk : j = k
        · subst hjk
          simp [hk, Nat.add_assoc]
        · by_cases hjl : j < k
          · have : j < k + 1 := by omega
            simp [hjk, hjl, this]
          · have : ¬ j < k + 1 := by omega
            simp [hjk, hjl, this]
    · have m1 : min (c + k) quantity = quantity := Nat.min_eq_right (by omega)
      have m2 : min (c + (k + 1)) quantity = quantity := Nat.min_eq_right (by omega)
      have hnot : ¬ (quantity < quantity) := by omega
      refine ⟨val, ?_, Nat.lt_trans hlt (Nat.pow_lt_pow_right (by decide) (by omega)), ?_⟩
      · simp only [m1, m2, hnot, if_false]
      · intro j
        rw [hbits j]
        by_cases hjl : j < k
        · have : j < k + 1 := by omega
          simp [hjl, this]
        · have hcj : ¬ (c + j < quantity) := by omega
          simp [hjl, hcj]

theorem pack_byte_ok (comp : ModbusTCPComponent) (bank : Nat → Bool)
    (cap start quantity c : Nat) (hcap : start + quantity ≤ cap) (hq : quantity < 65536)
    (hc : c ≤ quantity) :
    ∃ val : Nat,
      pack_byte comp bank cap start quantity c = Except.ok (min (c + 8) quantity, val) ∧
      val < 256 ∧
      ∀ j, val.testBit j = (decide (j < 8) && decide (c + j < quantity) && bank (start + c + j)) :=
  pack_byte_rounds comp bank cap start quantity c hcap hq hc 8 (Nat.le_refl 8)

theorem pack_bits_rounds (comp : ModbusTCPComponent) (bank : Nat → Bool)
    (cap start quantity : Nat) (response : List Nat) (hcap : start + quantity ≤ cap)
    (hq : quantity < 65536) (m : Nat) :
    ∃ bytes : List Nat,
      pack_bits comp bank cap start quantity m response =
        Except.ok (min (8 * m) quantity, response ++ bytes) ∧
      bytes.length = m ∧
      ∀ k, k < m → ∀ j, (bytes.getD k 0).testBit j =
        (decide (j < 8) && decide (8 * k + j < quantity) && bank (start + (8 * k + j))) := by
  unfold pack_bits
  induction m with
  | zero =>
    refine ⟨[], ?_, rfl, ?_⟩
    · simp only [for_loop, Nat.mul_zero, Nat.zero_min, List.append_nil]
    · intro k hk
      omega
  | succ m ih =>
    obtain ⟨bytes, hloop, hlen, hbits⟩ := ih
    obtain ⟨val, hval, hlt, hvbits⟩ := pack_byte_ok comp bank cap start quantity
      (min (8 * m) quantity) hcap hq (Nat.min_le_right _ _)
    have hmin : min (min (8 * m) quantity + 8) quantity = min (8 * (m + 1)) quantity := by omega
    refine ⟨bytes ++ [val], ?_, ?_, ?_⟩
    · rw [for_loop, hloop]
      simp only [hval, push_back, Nat.mod_eq_of_lt hlt, hmin, List.append_assoc]
    · simp only [List.length_append, hlen, List.length_cons, List.length_nil]
    · intro k hk j
      by_cases hkm : k < m
      · rw [List.getD_eq_getElem?_getD, List.getElem?_append_left (by omega),
          ← List.getD_eq_getElem?_getD]
        exact hbits k hkm j
      · have hk_eq : k = m := by omega
        subst hk_eq
        have hget : (bytes ++ [val]).getD k 0 = val := by
          rw [List.getD_eq_getElem?_getD, List.getElem?_append_right (by omega), hlen]
          simp
        rw [hget, hvbits j]
        by_cases hin : 8 * k + j < quantity
        · have hm8 : min (8 * k) quantity = 8 * k := by omega
          simp only [hm8, hin, Nat.add_assoc]
        · have hout : ¬ (min (8 * k) quantity + j < quantity) := by omega
          simp only [hin, hout, decide_False, Bool.and_false, Bool.false_and]

theorem pack_bits_ok (comp : ModbusTCPComponent) (bank : Nat → Bool)
    (cap start quantity : Nat) (response : List Nat) (hcap : start + quantity ≤ cap)
    (hq : quantity ≤ 2000) :
    ∃ bytes : List Nat,
      pack_bits comp bank cap start quantity ((quantity + 7) / 8 % 256)
          (push_back response ((quantity + 7) / 8 % 256)) =
        Except.ok (quantity, response ++ (quantity + 7) / 8 :: bytes) ∧
      bytes.length = (quantity + 7) / 8 ∧
      (∀ i, i < quantity → (bytes.getD (i / 8) 0).testBit (i % 8) = bank (start + i)) ∧
      (∀ k j, quantity ≤ 8 * k + j → (bytes.getD k 0).testBit j = false) := by
  have hbc : (quantity + 7) / 8 % 256 = (quantity + 7) / 8 := by omega
  obtain ⟨bytes, hrun, hlen, hbits⟩ := pack_bits_rounds comp bank cap start quantity
    (push_back response ((quantity + 7) / 8)) hcap (by omega) ((quantity + 7) / 8)
  have hmin : min (8 * ((quantity + 7) / 8)) quantity = quantity := by omega
  refine ⟨bytes, ?_, hlen, ?_, ?_⟩
  · rw [hbc, hrun, hmin]
    simp only [push_back, hbc, List.append_assoc, List.cons_append, List.nil_append]
  · intro i hi
    have hk : i / 8 < (quantity + 7) / 8 := by omega
    have hj : i % 8 < 8 := by omega
    have hsum : 8 * (i / 8) + i % 8 = i := by omega
    rw [hbits (i / 8) hk (i % 8), hsum]
    simp only [hj, hi, decide_True, Bool.true_and]
  · intro k j hkj
    by_cases hk : k < (quantity + 7) / 8
    · rw [hbits k hk j]
      have : ¬ (8 * k + j < quantity) := by omega
      simp only [this, decide_False, Bool.and_false, Bool.false_and]
    · rw [List.getD_eq_default _ _ (by omega)]
      exact Nat.zero_testBit j

theorem handle_read_coils_ok (comp : ModbusTCPComponent) (function : Nat)
    (rest response : List Nat) (start quantity : Nat) (hq : 1 ≤ quantity)
    (hr : start + quantity ≤ 64) :
    ∃ bytes : List Nat,
      handle_read_coils_ comp function
          (start / 256 :: start % 256 :: quantity / 256 :: quantity % 256 :: rest) response =
        Except.ok { comp := comp, response := response ++ (quantity + 7) / 8 :: bytes, stray := [] } ∧
      bytes.length = (quantity + 7) / 8 ∧
      (∀ i, i < quantity → (bytes.getD (i / 8) 0).testBit (i % 8) = comp.coil_values_ (start + i)) ∧
      (∀ k j, quantity ≤ 8 * k + j → (bytes.getD k 0).testBit j = false) := by
  obtain ⟨bytes, hrun, hrest⟩ := pack_bits_ok comp comp.coil_values_ MAX_COILS start quantity
    response (by unfold MAX_COILS; omega) (by omega)
  refine ⟨bytes, ?_, hrest⟩
  unfold handle_read_coils_
  have h1 := MAKEWORD_split start (by omega)
  have h2 := MAKEWORD_split quantity (by omega)
  have hl : ¬ (rest.length + 1 + 1 + 1 + 1 < 4) := by omega
  have hchk : ¬ (start + quantity > MAX_COILS ∨ quantity < 1 ∨ quantity > 2000) := by
    unfold MAX_COILS; omega
  simp only [bind, Except.bind, vec_at, List.length_cons, hl, if_false,
    List.getElem?_cons_zero, List.getElem?_cons_succ, h1, h2, hchk, hrun]

theorem handle_read_discrete_inputs_ok (comp : ModbusTCPComponent) (function : Nat)
    (rest response : List Nat) (start quantity : Nat) (hq : 1 ≤ quantity)
    (hr : start + quantity ≤ 64) :
    ∃ bytes : List Nat,
      handle_read_discrete_inputs_ comp function
          (start / 256 :: start % 256 :: quantity / 256 :: quantity % 256 :: rest) response =
        Except.ok { comp := comp, response := response ++ (quantity + 7) / 8 :: bytes, stray := [] } ∧
      bytes.length = (quantity + 7) / 8 ∧
      (∀ i, i < quantity →
        (bytes.getD (i / 8) 0).testBit (i % 8) = comp.discrete_input_values_ (start + i)) ∧
      (∀ k j, quantity ≤ 8 * k + j → (bytes.getD k 0).testBit j = false) := by
  obtain ⟨bytes, hrun, hrest⟩ := pack_bits_ok comp comp.discrete_input_values_
    MAX_DISCRETE_INPUTS start quantity response (by unfold MAX_DISCRETE_INPUTS; omega) (by omega)
  refine ⟨bytes, ?_, hrest⟩
  unfold handle_read_discrete_inputs_
  have h1 := MAKEWORD_split start (by omega)
  have h2 := MAKEWORD_split quantity (by omega)
  have hl : ¬ (rest.length + 1 + 1 + 1 + 1 < 4) := by omega
  have hchk : ¬ (start + quantity > MAX_DISCRETE_INPUTS ∨ quantity < 1 ∨ quantity > 2000) := by
    unfold MAX_DISCRETE_INPUTS; omega
  simp only [bind, Except.bind, vec_at, List.length_cons, hl, if_false,
    List.getElem?_cons_zero, List.getElem?_cons_succ, h1, h2, hchk, hrun]

/-- C9. Bit packing of Read Coils and Read Discrete Inputs: for `1 ≤ quantity` and
`start + quantity ≤ 64` each handler succeeds and appends the byte `ceil(quantity / 8)`
followed by exactly that many data bytes; bit `i mod 8` of data byte `i div 8` is the
bank value at `start + i` for every `i < quantity`, and every bit at a position
`≥ quantity` (bit `j` of byte `k` with `quantity ≤ 8k + j`) is 0. -/
theorem read_bits_packing (comp : ModbusTCPComponent) (function : Nat)
    (rest response : List Nat) (start quantity : Nat) (hq : 1 ≤ quantity)
    (hr : start + quantity ≤ 64) :
    (∃ bytes : List Nat,
      handle_read_coils_ comp function
          (start / 256 :: start % 256 :: quantity / 256 :: quantity % 256 :: rest) response =
        Except.ok { comp := comp, response := response ++ (quantity + 7) / 8 :: bytes, stray := [] } ∧
      bytes.length = (quantity + 7) / 8 ∧
      (∀ i, i < quantity → (bytes.getD (i / 8) 0).testBit (i % 8) = comp.coil_values_ (start + i)) ∧
      (∀ k j, quantity ≤ 8 * k + j → (bytes.getD k 0).testBit j = false)) ∧
    (∃ bytes : List Nat,
      handle_read_discrete_inputs_ comp function
          (start / 256 :: start % 256 :: quantity / 256 :: quantity % 256 :: rest) response =
        Except.ok { comp := comp, response := response ++ (quantity + 7) / 8 :: bytes, stray := [] } ∧
      bytes.length = (quantity + 7) / 8 ∧
      (∀ i, i < quantity →
        (bytes.getD (i / 8) 0).testBit (i % 8) = comp.discrete_input_values_ (start + i)) ∧
      (∀ k j, quantity ≤ 8 * k + j → (bytes.getD k 0).testBit j = false)) :=
  ⟨handle_read_coils_ok comp function rest response start quantity hq hr,
   handle_read_discrete_inputs_ok comp function rest response start quantity hq hr⟩

/-- Witness of C9: ten bits read from address 0. -/
theorem read_bits_packing_witness :
    (∃ bytes : List Nat,
      handle_read_coils_ demo_comp 0x01 [0x00, 0x00, 0x00, 0x0A] [] =
        Except.ok { comp := demo_comp, response := 2 :: bytes, stray := [] } ∧
      bytes.length = 2 ∧
      (∀ i, i < 10 → (bytes.getD (i / 8) 0).testBit (i % 8) = demo_comp.coil_values_ (0 + i)) ∧
      (∀ k j, 10 ≤ 8 * k + j → (bytes.getD k 0).testBit j = false)) ∧
    (∃ bytes : List Nat,
      handle_read_discrete_inputs_ demo_comp 0x01 [0x00, 0x00, 0x00, 0x0A] [] =
        Except.ok { comp := demo_comp, response := 2 :: bytes, stray := [] } ∧
      bytes.length = 2 ∧
      (∀ i, i < 10 →
        (bytes.getD (i / 8) 0).testBit (i % 8) = demo_comp.discrete_input_values_ (0 + i)) ∧
      (∀ k j, 10 ≤ 8 * k + j → (bytes.getD k 0).testBit j = false)) :=
  read_bits_packing demo_comp 0x01 [] [] 0 10 (by decide) (by decide)

theorem mask_testBit (b j : Nat) : decide ((b &&& (1 <<< j)) ≠ 0) = b.testBit j := by
  rw [Nat.one_shiftLeft]
  cases hb : b.testBit j
  · have hz : b &&& 2 ^ j = 0 := by
      apply Nat.eq_of_testBit_eq
      intro i
      rw [Nat.testBit_and, Nat.testBit_two_pow, Nat.zero_testBit]
      by_cases hji : j = i
      · subst hji; simp [hb]
      · simp [hji]
    simp [hz]
  · have hne : b &&& 2 ^ j ≠ 0 := by
      intro hz
      have : (b &&& 2 ^ j).testBit j = true := by
        rw [Nat.testBit_and, Nat.testBit_two_pow, hb]; simp
      rw [hz, Nat.zero_testBit] at this
      exact Bool.false_ne_true this
    simp [hne]

theorem write_coils_ok (comp : ModbusTCPComponent) (a b c d e : Nat) (data : List Nat)
    (start : Nat) (n : Nat) (hr : start + n ≤ 64) (hlen : n ≤ 8 * data.length) :
    write_coils (a :: b :: c :: d :: e :: data) start n comp =
      Except.ok { comp with coil_values_ := written_coils comp.coil_values_ data start n } := by
  unfold write_coils
  induction n with
  | zero =>
    have z : written_coils comp.coil_values_ data start 0 = comp.coil_values_ := by
      funext j
      have c : ¬ (start ≤ j ∧ j < start + 0) := by omega
      simp only [written_coils, c, if_false]
    simp only [for_loop]
    rw [z]
  | succ k ih =>
    rw [for_loop, ih (by omega) (by omega)]
    have h1 : k / 8 < data.length := by omega
    have g1 : (a :: b :: c :: d :: e :: data)[5 + k / 8]? = some (data[k / 8]) := by
      rw [getElem?_skip5, List.getElem?_eq_getElem h1]
    have hk : start + k < MAX_COILS := by unfold MAX_COILS; omega
    simp only [bind, Except.bind, vec_at, g1, hk, if_true, mask_testBit]
    congr 2
    funext j
    unfold store written_coils
    by_cases hj : j = start + k
    · subst hj
      have e1 : start + k - start = k := by omega
      have c1 : start ≤ start + k ∧ start + k < start + (k + 1) := by omega
      simp only [if_true, c1, and_self, e1, List.getD_eq_getElem?_getD,
        List.getElem?_eq_getElem h1, Option.getD_some]
    · have c1 : (start ≤ j ∧ j < start + (k + 1)) ↔ (start ≤ j ∧ j < start + k) := by omega
      simp only [hj, if_false, c1]

theorem handle_write_multiple_coils_ok (comp : ModbusTCPComponent) (function : Nat)
    (response data : List Nat) (start quantity byte_count : Nat)
    (hq : 1 ≤ quantity) (hr : start + quantity ≤ 64) (hbc : (quantity + 7) / 8 ≤ byte_count)
    (hlen : quantity ≤ 8 * data.length) :
    handle_write_multiple_coils_ comp function
        (start / 256 :: start % 256 :: quantity / 256 :: quantity % 256 :: byte_count :: data)
        response =
      Except.ok { comp := { comp with coil_values_ :=
                              written_coils comp.coil_values_ data start quantity }
                  response := response ++ [start / 256, start % 256, quantity / 256, quantity % 256]
                  stray := [] } := by
  unfold handle_write_multiple_coils_
  have h1 := MAKEWORD_split start (by omega)
  have h2 := MAKEWORD_split quantity (by omega)
  have hl : ¬ (data.length + 1 + 1 + 1 + 1 + 1 < 5) := by omega
  have hchk : ¬ (start + quantity > MAX_COILS ∨ quantity < 1 ∨
      byte_count < (quantity + 7) / 8) := by
    unfold MAX_COILS; omega
  simp only [bind, Except.bind, vec_at, List.length_cons, hl, if_false,
    List.getElem?_cons_zero, List.getElem?_cons_succ, h1, h2, hchk,
    write_coils_ok comp _ _ _ _ _ data start quantity hr hlen, push_back]
  have b1 : start / 256 % 256 = start / 256 := by omega
  have b2 : quantity / 256 % 256 = quantity / 256 := by omega
  simp only [b1, b2, Nat.mod_mod, List.append_assoc, List.cons_append, List.nil_append]

/-- C8. Coil round trip: for `1 ≤ quantity`, `start + quantity ≤ 64` and packed data
of `ceil(quantity / 8)` bytes, Write Multiple Coils (0x0F) with
`byte_count = ceil(quantity / 8)` succeeds, and Read Coils (0x01) for the same
`(start, quantity)` on the resulting component appends the byte count
`ceil(quantity / 8)` followed by that many bytes which agree with the written data on
bits `0 .. quantity - 1` (LSB first) and are zero on every bit at a position `≥ quantity`. -/
theorem coil_round_trip (comp : ModbusTCPComponent) (fw fr : Nat)
    (response_w response_r : List Nat) (start quantity : Nat) (data : List Nat)
    (hq : 1 ≤ quantity) (hr : start + quantity ≤ 64) (hlen : data.length = (quantity + 7) / 8) :
    ∃ (written : Handled) (bytes : List Nat),
      handle_write_multiple_coils_ comp fw
          (start / 256 :: start % 256 :: quantity / 256 :: quantity % 256 ::
            (quantity + 7) / 8 :: data) response_w = Except.ok written ∧
      handle_read_coils_ written.comp fr
          [start / 256, start % 256, quantity / 256, quantity % 256] response_r =
        Except.ok { comp := written.comp
                    response := response_r ++ (quantity + 7) / 8 :: bytes
                    stray := [] } ∧
      bytes.length = (quantity + 7) / 8 ∧
      (∀ i, i < quantity →
        (bytes.getD (i / 8) 0).testBit (i % 8) = (data.getD (i / 8) 0).testBit (i % 8)) ∧
      (∀ k j, quantity ≤ 8 * k + j → (bytes.getD k 0).testBit j = false) := by
  have hw := handle_write_multiple_coils_ok comp fw response_w data start quantity
    ((quantity + 7) / 8) hq hr (Nat.le_refl _) (by omega)
  obtain ⟨bytes, hread, hl, hbits, hpad⟩ := handle_read_coils_ok
    { comp with coil_values_ := written_coils comp.coil_values_ data start quantity }
    fr [] response_r start quantity hq hr
  refine ⟨_, bytes, hw, hread, hl, ?_, hpad⟩
  intro i hi
  rw [hbits i hi]
  have c : start ≤ start + i ∧ start + i < start + quantity := by omega
  have e : start + i - start = i := by omega
  simp only [written_coils, c, and_self, if_true, e]

/-- Witness of C8: ten coils written at address 4 from the bytes CD FF and read back. -/
theorem coil_round_trip_witness :
    ∃ (written : Handled) (bytes : List Nat),
      handle_write_multiple_coils_ demo_comp 0x0F
          [0x00, 0x04, 0x00, 0x0A, 0x02, 0xCD, 0xFF] [] = Except.ok written ∧
      handle_read_coils_ written.comp 0x01 [0x00, 0x04, 0x00, 0x0A] [] =
        Except.ok { comp := written.comp, response := 2 :: bytes, stray := [] } ∧
      bytes.length = 2 ∧
      (∀ i, i < 10 →
        (bytes.getD (i / 8) 0).testBit (i % 8) = (([0xCD, 0xFF] : List Nat).getD (i / 8) 0).testBit (i % 8)) ∧
      (∀ k j, 10 ≤ 8 * k + j → (bytes.getD k 0).testBit j = false) :=
  coil_round_trip demo_comp 0x0F 0x01 [] [] 4 10 [0xCD, 0xFF] (by decide) (by decide) (by decide)

theorem list_four (l : List Nat) (h : ¬ l.length < 4) :
    ∃ r0 r1 r2 r3 rest, l = r0 :: r1 :: r2 :: r3 :: rest := by
  rcases l with _ | ⟨r0, _ | ⟨r1, _ | ⟨r2, _ | ⟨r3, rest⟩⟩⟩⟩
  · exact absurd (by decide) h
  · exact absurd (by simp only [List.length_cons, List.length_nil]; omega) h
  · exact absurd (by simp only [List.length_cons, List.length_nil]; omega) h
  · exact absurd (by simp only [List.length_cons, List.length_nil]; omega) h
  · exact ⟨r0, r1, r2, r3, rest, rfl⟩

theorem list_five (l : List Nat) (h : ¬ l.length < 5) :
    ∃ r0 r1 r2 r3 r4 rest, l = r0 :: r1 :: r2 :: r3 :: r4 :: rest := by
  have h4 : ¬ l.length < 4 := by omega
  obtain ⟨r0, r1, r2, r3, rest, rfl⟩ := list_four l h4
  rcases rest with _ | ⟨r4, rest⟩
  · exact absurd (by simp only [List.length_cons, List.length_nil]; omega) h
  · exact ⟨r0, r1, r2, r3, r4, rest, rfl⟩

theorem handle_read_coils_short (comp : ModbusTCPComponent) (function : Nat) (request response : List Nat)
    (hlen : request.length < 4) :
    handle_read_coils_ comp function request response = Except.ok (reject comp function 0x03) := by
  unfold handle_read_coils_
  simp only [hlen, if_true]

theorem handle_read_coils_long (comp : ModbusTCPComponent) (function : Nat)
    (r0 r1 r2 r3 : Nat) (rest response : List Nat) :
    ∃ h : Handled, handle_read_coils_ comp function (r0 :: r1 :: r2 :: r3 :: rest) response =
        Except.ok h ∧ h.comp = comp := by
  unfold handle_read_coils_
  have hlen : ¬ (rest.length + 1 + 1 + 1 + 1 < 4) := by omega
  simp only [bind, Except.bind, vec_at, List.length_cons]
  simp only [List.getElem?_cons_zero, List.getElem?_cons_succ]
  simp only [hlen, if_false]
  generalize MAKEWORD r0 r1 % 65536 = start
  generalize MAKEWORD r2 r3 % 65536 = quantity
  by_cases hchk : start + quantity > MAX_COILS ∨ quantity < 1 ∨ quantity > 2000
  · simp only [hchk, if_true]
    exact ⟨_, rfl, rfl⟩
  · have hcap : start + quantity ≤ MAX_COILS := by omega
    obtain ⟨bytes, hrun, _⟩ := pack_bits_ok comp comp.coil_values_ MAX_COILS start quantity response
      hcap (by omega)
    simp only [hchk, if_false, hrun]
    exact ⟨_, rfl, rfl⟩

theorem handle_read_coils_total (comp : ModbusTCPComponent) (function : Nat) (request response : List Nat) :
    ∃ h : Handled, handle_read_coils_ comp function request response = Except.ok h ∧ h.comp = comp := by
  by_cases hlen : request.length < 4
  · exact ⟨_, handle_read_coils_short comp function request response hlen, rfl⟩
  · obtain ⟨r0, r1, r2, r3, rest, rfl⟩ := list_four request hlen
    exact handle_read_coils_long comp function r0 r1 r2 r3 rest response

theorem handle_read_discrete_inputs_short (comp : ModbusTCPComponent) (function : Nat) (request response : List Nat)
    (hlen : request.length < 4) :
    handle_read_discrete_inputs_ comp function request response = Except.ok (reject comp function 0x03) := by
  unfold handle_read_discrete_inputs_
  simp only [hlen, if_true]

theorem handle_read_discrete_inputs_long (comp : ModbusTCPComponent) (function : Nat)
    (r0 r1 r2 r3 : Nat) (rest response : List Nat) :
    ∃ h : Handled, handle_read_discrete_inputs_ comp function (r0 :: r1 :: r2 :: r3 :: rest) response =
        Except.ok h ∧ h.comp = comp := by
  unfold handle_read_discrete_inputs_
  have hlen : ¬ (rest.length + 1 + 1 + 1 + 1 < 4) := by omega
  simp only [bind, Except.bind, vec_at, List.length_cons]
  simp only [List.getElem?_cons_zero, List.getElem?_cons_succ]
  simp only [hlen, if_false]
  generalize MAKEWORD r0 r1 % 65536 = start
  generalize MAKEWORD r2 r3 % 65536 = quantity
  by_cases hchk : start + quantity > MAX_DISCRETE_INPUTS ∨ quantity < 1 ∨ quantity > 2000
  · simp only [hchk, if_true]
    exact ⟨_, rfl, rfl⟩
  · have hcap : start + quantity ≤ MAX_DISCRETE_INPUTS := by omega
    obtain ⟨bytes, hrun, _⟩ := pack_bits_ok comp comp.discrete_input_values_ MAX_DISCRETE_INPUTS start quantity response
      hcap (by omega)
    simp only [hchk, if_false, hrun]
    exact ⟨_, rfl, rfl⟩

theorem handle_read_discrete_inputs_total (comp : ModbusTCPComponent) (function : Nat) (request response : List Nat) :
    ∃ h : Handled, handle_read_discrete_inputs_ comp function request response = Except.ok h ∧ h.comp = comp := by
  by_cases hlen : request.length < 4
  · exact ⟨_, handle_read_discrete_inputs_short comp function request response hlen, rfl⟩
  · obtain ⟨r0, r1, r2, r3, rest, rfl⟩ := list_four request hlen
    exact handle_read_discrete_inputs_long comp function r0 r1 r2 r3 rest response

theorem handle_read_holding_registers_short (comp : ModbusTCPComponent) (function : Nat) (request response : List Nat)
    (hlen : request.length < 4) :
    handle_read_holding_registers_ comp function request response = Except.ok (reject comp function 0x03) := by
  unfold handle_read_holding_registers_
  simp only [hlen, if_true]

theorem handle_read_holding_registers_long (comp : ModbusTCPComponent) (function : Nat)
    (r0 r1 r2 r3 : Nat) (rest response : List Nat) :
    ∃ h : Handled, handle_read_holding_registers_ comp function (r0 :: r1 :: r2 :: r3 :: rest) response =
        Except.ok h ∧ h.comp = comp := by
  unfold handle_read_holding_registers_
  have hlen : ¬ (rest.length + 1 + 1 + 1 + 1 < 4) := by omega
  simp only [bind, Except.bind, vec_at, List.length_cons]
  simp only [List.getElem?_cons_zero, List.getElem?_cons_succ]
  simp only [hlen, if_false]
  generalize MAKEWORD r0 r1 % 65536 = start
  generalize MAKEWORD r2 r3 % 65536 = quantity
  by_cases hchk : start + quantity > MAX_HOLDING_REGS ∨ quantity < 1 ∨ quantity > 125
  · simp only [hchk, if_true]
    exact ⟨_, rfl, rfl⟩
  · have hcap : start + quantity ≤ MAX_HOLDING_REGS := by omega
    have hrun := push_registers_ok comp comp.holding_registers_ MAX_HOLDING_REGS start
      (push_back response (quantity * 2 % 256)) quantity hcap
    simp only [hchk, if_false, hrun]
    exact ⟨_, rfl, rfl⟩

theorem handle_read_holding_registers_total (comp : ModbusTCPComponent) (function : Nat) (request response : List Nat) :
    ∃ h : Handled, handle_read_holding_registers_ comp function request response = Except.ok h ∧ h.comp = comp := by
  by_cases hlen : request.length < 4
  · exact ⟨_, handle_read_holding_registers_short comp function request response hlen, rfl⟩
  · obtain ⟨r0, r1, r2, r3, rest, rfl⟩ := list_four request hlen
    exact handle_read_holding_registers_long comp function r0 r1 r2 r3 rest response

theorem handle_read_input_registers_short (comp : ModbusTCPComponent) (function : Nat) (request response : List Nat)
    (hlen : request.length < 4) :
    handle_read_input_registers_ comp function request response = Except.ok (reject comp function 0x03) := by
  unfold handle_read_input_registers_
  simp only [hlen, if_true]

theorem handle_read_input_registers_long (comp : ModbusTCPComponent) (function : Nat)
    (r0 r1 r2 r3 : Nat) (rest response : List Nat) :
    ∃ h : Handled, handle_read_input_registers_ comp function (r0 :: r1 :: r2 :: r3 :: rest) response =
        Except.ok h ∧ h.comp = comp := by
  unfold handle_read_input_registers_
  have hlen : ¬ (rest.length + 1 + 1 + 1 + 1 < 4) := by omega
  simp only [bind, Except.bind, vec_at, List.length_cons]
  simp only [List.getElem?_cons_zero, List.getElem?_cons_succ]
  simp only [hlen, if_false]
  generalize MAKEWORD r0 r1 % 65536 = start
  generalize MAKEWORD r2 r3 % 65536 = quantity
  by_cases hchk : start + quantity > MAX_INPUT_REGS ∨ quantity < 1 ∨ quantity > 125
  · simp only [hchk, if_true]
    exact ⟨_, rfl, rfl⟩
  · have hcap : start + quantity ≤ MAX_INPUT_REGS := by omega
    have hrun := push_registers_ok comp comp.input_registers_ MAX_INPUT_REGS start
      (push_back response (quantity * 2 % 256)) quantity hcap
    simp only [hchk, if_false, hrun]
    exact ⟨_, rfl, rfl⟩

theorem handle_read_input_registers_total (comp : ModbusTCPComponent) (function : Nat) (request response : List Nat) :
    ∃ h : Handled, handle_read_input_registers_ comp function request response = Except.ok h ∧ h.comp = comp := by
  by_cases hlen : request.length < 4
  · exact ⟨_, handle_read_input_registers_short comp function request response hlen, rfl⟩
  · obtain ⟨r0, r1, r2, r3, rest, rfl⟩ := list_four request hlen
    exact handle_read_input_registers_long comp function r0 r1 r2 r3 rest response

theorem handle_write_single_coil_short (comp : ModbusTCPComponent) (function : Nat) (request response : List Nat)
    (hlen : request.length < 4) :
    handle_write_single_coil_ comp function request response = Except.ok (reject comp function 0x03) := by
  unfold handle_write_single_coil_
  simp only [hlen, if_true]

theorem handle_write_single_coil_long (comp : ModbusTCPComponent) (function : Nat)
    (r0 r1 r2 r3 : Nat) (rest response : List Nat) :
    ∃ h : Handled, handle_write_single_coil_ comp function (r0 :: r1 :: r2 :: r3 :: rest) response =
        Except.ok h ∧ same_read_only h.comp comp := by
  unfold handle_write_single_coil_
  have hlen : ¬ (rest.length + 1 + 1 + 1 + 1 < 4) := by omega
  simp only [bind, Except.bind, vec_at, List.length_cons]
  simp only [List.getElem?_cons_zero, List.getElem?_cons_succ]
  simp only [hlen, if_false]
  generalize MAKEWORD r0 r1 % 65536 = addr
  by_cases hchk : addr ≥ MAX_COILS
  · simp only [hchk, if_true]
    exact ⟨_, rfl, rfl, rfl, rfl⟩
  · have hin : addr < MAX_COILS := by omega
    simp only [hchk, if_false, hin, if_true]
    exact ⟨_, rfl, rfl, rfl, rfl⟩

theorem handle_write_single_coil_total (comp : ModbusTCPComponent) (function : Nat) (request response : List Nat) :
    ∃ h : Handled, handle_write_single_coil_ comp function request response = Except.ok h ∧
      same_read_only h.comp comp := by
  by_cases hlen : request.length < 4
  · exact ⟨reject comp function 0x03, handle_write_single_coil_short comp function request response hlen,
      rfl, rfl, rfl⟩
  · obtain ⟨r0, r1, r2, r3, rest, rfl⟩ := list_four request hlen
    exact handle_write_single_coil_long comp function r0 r1 r2 r3 rest response

theorem handle_write_single_register_short (comp : ModbusTCPComponent) (function : Nat) (request response : List Nat)
    (hlen : request.length < 4) :
    handle_write_single_register_ comp function request response = Except.ok (reject comp function 0x03) := by
  unfold handle_write_single_register_
  simp only [hlen, if_true]

theorem handle_write_single_register_long (comp : ModbusTCPComponent) (function : Nat)
    (r0 r1 r2 r3 : Nat) (rest response : List Nat) :
    ∃ h : Handled, handle_write_single_register_ comp function (r0 :: r1 :: r2 :: r3 :: rest) response =
        Except.ok h ∧ same_read_only h.comp comp := by
  unfold handle_write_single_register_
  have hlen : ¬ (rest.length + 1 + 1 + 1 + 1 < 4) := by omega
  simp only [bind, Except.bind, vec_at, List.length_cons]
  simp only [List.getElem?_cons_zero, List.getElem?_cons_succ]
  simp only [hlen, if_false]
  generalize MAKEWORD r0 r1 % 65536 = addr
  by_cases hchk : addr ≥ MAX_HOLDING_REGS
  · simp only [hchk, if_true]
    exact ⟨_, rfl, rfl, rfl, rfl⟩
  · have hin : addr < MAX_HOLDING_REGS := by omega
    simp only [hchk, if_false, hin, if_true]
    exact ⟨_, rfl, rfl, rfl, rfl⟩

theorem handle_write_single_register_total (comp : ModbusTCPComponent) (function : Nat) (request response : List Nat) :
    ∃ h : Handled, handle_write_single_register_ comp function request response = Except.ok h ∧
      same_read_only h.comp comp := by
  by_cases hlen : request.length < 4
  · exact ⟨reject comp function 0x03, handle_write_single_register_short comp function request response hlen,
      rfl, rfl, rfl⟩
  · obtain ⟨r0, r1, r2, r3, rest, rfl⟩ := list_four request hlen
    exact handle_write_single_register_long comp function r0 r1 r2 r3 rest response

theorem write_coils_cases (request : List Nat) (start : Nat) (comp : ModbusTCPComponent)
    (n : Nat) (hn : start + n ≤ MAX_COILS) :
    (∃ c, write_coils request start n comp = Except.ok c ∧ same_read_only c comp) ∨
    (∃ c, write_coils request start n comp = Except.error (Fault.request_index, c) ∧
      same_read_only c comp) := by
  unfold write_coils
  induction n with
  | zero => exact Or.inl ⟨comp, rfl, rfl, rfl, rfl⟩
  | succ k ih =>
    rw [for_loop]
    rcases ih (by omega) with ⟨c, hc, hro⟩ | ⟨c, hc, hro⟩
    · rw [hc]
      have hk : start + k < MAX_COILS := by omega
      cases hget : request[5 + k / 8]? with
      | none =>
        simp only [bind, Except.bind, vec_at, hget]
        exact Or.inr ⟨c, rfl, hro⟩
      | some b =>
        simp only [bind, Except.bind, vec_at, hget, hk, if_true]
        exact Or.inl ⟨_, rfl, hro.1, hro.2.1, hro.2.2⟩
    · rw [hc]
      exact Or.inr ⟨c, rfl, hro⟩

theorem write_registers_cases (request : List Nat) (start : Nat) (comp : ModbusTCPComponent)
    (n : Nat) (hn : start + n ≤ MAX_HOLDING_REGS) :
    (∃ c, write_registers request start n comp = Except.ok c ∧ same_read_only c comp) ∨
    (∃ c, write_registers request start n comp = Except.error (Fault.request_index, c) ∧
      same_read_only c comp) := by
  unfold write_registers
  induction n with
  | zero => exact Or.inl ⟨comp, rfl, rfl, rfl, rfl⟩
  | succ k ih =>
    rw [for_loop]
    rcases ih (by omega) with ⟨c, hc, hro⟩ | ⟨c, hc, hro⟩
    · rw [hc]
      have hk : start + k < MAX_HOLDING_REGS := by omega
      cases hhi : request[5 + k * 2]? with
      | none =>
        simp only [bind, Except.bind, vec_at, hhi]
        exact Or.inr ⟨c, rfl, hro⟩
      | some hi =>
        cases hlo : request[5 + k * 2 + 1]? with
        | none =>
          simp only [bind, Except.bind, vec_at, hhi, hlo]
          exact Or.inr ⟨c, rfl, hro⟩
        | some lo =>
          simp only [bind, Except.bind, vec_at, hhi, hlo, hk, if_true]
          exact Or.inl ⟨_, rfl, hro.1, hro.2.1, hro.2.2⟩
    · rw [hc]
      exact Or.inr ⟨c, rfl, hro⟩

theorem same_read_only_refl (comp : ModbusTCPComponent) : same_read_only comp comp :=
  ⟨rfl, rfl, rfl⟩

theorem handle_write_multiple_coils_short (comp : ModbusTCPComponent) (function : Nat)
    (request response : List Nat) (hlen : request.length < 5) :
    handle_write_multiple_coils_ comp function request response =
      Except.ok (reject comp function 0x03) := by
  unfold handle_write_multiple_coils_
  simp only [hlen, if_true]

theorem handle_write_multiple_coils_long (comp : ModbusTCPComponent) (function : Nat)
    (r0 r1 r2 r3 r4 : Nat) (rest response : List Nat) :
    handler_safe comp
      (handle_write_multiple_coils_ comp function (r0 :: r1 :: r2 :: r3 :: r4 :: rest) response) := by
  unfold handle_write_multiple_coils_
  have hlen : ¬ (rest.length + 1 + 1 + 1 + 1 + 1 < 5) := by omega
  simp only [bind, Except.bind, vec_at, List.length_cons]
  simp only [List.getElem?_cons_zero, List.getElem?_cons_succ]
  simp only [hlen, if_false]
  generalize MAKEWORD r0 r1 % 65536 = start
  generalize MAKEWORD r2 r3 % 65536 = quantity
  by_cases hchk : start + quantity > MAX_COILS ∨ quantity < 1 ∨ r4 < (quantity + 7) / 8
  · simp only [hchk, if_true]
    exact same_read_only_refl comp
  · have hcap : start + quantity ≤ MAX_COILS := by omega
    simp only [hchk, if_false]
    rcases write_coils_cases (r0 :: r1 :: r2 :: r3 :: r4 :: rest) start comp quantity hcap with
      ⟨c, hc, hro⟩ | ⟨c, hc, hro⟩
    · rw [hc]
      exact hro
    · rw [hc]
      exact ⟨rfl, hro⟩

theorem handle_write_multiple_coils_safe (comp : ModbusTCPComponent) (function : Nat)
    (request response : List Nat) :
    handler_safe comp (handle_write_multiple_coils_ comp function request response) := by
  by_cases hlen : request.length < 5
  · rw [handle_write_multiple_coils_short comp function request response hlen]
    exact same_read_only_refl comp
  · obtain ⟨r0, r1, r2, r3, r4, rest, rfl⟩ := list_five request hlen
    exact handle_write_multiple_coils_long comp function r0 r1 r2 r3 r4 rest response

theorem handle_write_multiple_registers_short (comp : ModbusTCPComponent) (function : Nat)
    (request response : List Nat) (hlen : request.length < 5) :
    handle_write_multiple_registers_ comp function request response =
      Except.ok (reject comp function 0x03) := by
  unfold handle_write_multiple_registers_
  simp only [hlen, if_true]

theorem handle_write_multiple_registers_long (comp : ModbusTCPComponent) (function : Nat)
    (r0 r1 r2 r3 r4 : Nat) (rest response : List Nat) :
    handler_safe comp
      (handle_write_multiple_registers_ comp function (r0 :: r1 :: r2 :: r3 :: r4 :: rest)
        response) := by
  unfold handle_write_multiple_registers_
  have hlen : ¬ (rest.length + 1 + 1 + 1 + 1 + 1 < 5) := by omega
  simp only [bind, Except.bind, vec_at, List.length_cons]
  simp only [List.getElem?_cons_zero, List.getElem?_cons_succ]
  simp only [hlen, if_false]
  generalize MAKEWORD r0 r1 % 65536 = start
  generalize MAKEWORD r2 r3 % 65536 = quantity
  by_cases hchk : start + quantity > MAX_HOLDING_REGS ∨ quantity < 1 ∨ r4 ≠ quantity * 2
  · simp only [hchk, if_true]
    exact same_read_only_refl comp
  · have hcap : start + quantity ≤ MAX_HOLDING_REGS := by omega
    simp only [hchk, if_false]
    rcases write_registers_cases (r0 :: r1 :: r2 :: r3 :: r4 :: rest) start comp quantity hcap
      with ⟨c, hc, hro⟩ | ⟨c, hc, hro⟩
    · rw [hc]
      exact hro
    · rw [hc]
      exact ⟨rfl, hro⟩

theorem handle_write_multiple_registers_safe (comp : ModbusTCPComponent) (function : Nat)
    (request response : List Nat) :
    handler_safe comp (handle_write_multiple_registers_ comp function request response) := by
  by_cases hlen : request.length < 5
  · rw [handle_write_multiple_registers_short comp function request response hlen]
    exact same_read_only_refl comp
  · obtain ⟨r0, r1, r2, r3, r4, rest, rfl⟩ := list_five request hlen
    exact handle_write_multiple_registers_long comp function r0 r1 r2 r3 r4 rest response

/-- Every outcome of the `switch`: read-only members kept, no fault but a read outside
the request vector. -/
theorem dispatch_safe (comp : ModbusTCPComponent) (function : Nat)
    (pdu_data response : List Nat) (r : Except (Fault × ModbusTCPComponent) Handled)
    (h : dispatch comp function pdu_data response = some r) : handler_safe comp r := by
  unfold dispatch at h
  split at h
  · obtain ⟨x, hx, hc⟩ := handle_read_coils_total comp function pdu_data response
    rw [← Option.some.inj h, hx]
    exact hc ▸ same_read_only_refl comp
  split at h
  · obtain ⟨x, hx, hc⟩ := handle_read_discrete_inputs_total comp function pdu_data response
    rw [← Option.some.inj h, hx]
    exact hc ▸ same_read_only_refl comp
  split at h
  · obtain ⟨x, hx, hc⟩ := handle_read_holding_registers_total comp function pdu_data response
    rw [← Option.some.inj h, hx]
    exact hc ▸ same_read_only_refl comp
  split at h
  · obtain ⟨x, hx, hc⟩ := handle_read_input_registers_total comp function pdu_data response
    rw [← Option.some.inj h, hx]
    exact hc ▸ same_read_only_refl comp
  split at h
  · obtain ⟨x, hx, hc⟩ := handle_write_single_coil_total comp function pdu_data response
    rw [← Option.some.inj h, hx]
    exact hc
  split at h
  · obtain ⟨x, hx, hc⟩ := handle_write_single_register_total comp function pdu_data response
    rw [← Option.some.inj h, hx]
    exact hc
  split at h
  · rw [← Option.some.inj h]
    exact handle_write_multiple_coils_safe comp function pdu_data response
  split at h
  · rw [← Option.some.inj h]
    exact handle_write_multiple_registers_safe comp function pdu_data response
  · exact absurd h (by simp)

theorem list_eight (l : List Nat) (h : l.length ≥ 8) :
    ∃ b0 b1 b2 b3 b4 b5 b6 b7 tl, l = b0 :: b1 :: b2 :: b3 :: b4 :: b5 :: b6 :: b7 :: tl := by
  obtain ⟨b0, b1, b2, b3, rest, rfl⟩ := list_four l (by omega)
  have h4 : ¬ rest.length < 4 := by
    simp only [List.length_cons] at h; omega
  obtain ⟨b4, b5, b6, b7, tl, rfl⟩ := list_four rest h4
  exact ⟨b0, b1, b2, b3, b4, b5, b6, b7, tl, rfl⟩

/-- One loop round on a buffer whose declared frame is not complete yet. -/
theorem body_incomplete (s : Server) (b0 b1 b2 b3 b4 b5 : Nat) (tl : List Nat)
    (hbuf : s.cb.buffer = b0 :: b1 :: b2 :: b3 :: b4 :: b5 :: tl)
    (h8 : s.cb.buffer.length ≥ 8)
    (hshort : s.cb.buffer.length < 6 + MAKEWORD b4 b5 % 65536) :
    handle_incoming_packet_body s = Except.ok (Flow.done, s) := by
  unfold handle_incoming_packet_body
  simp only [h8, if_true, bind, Except.bind, vec_at]
  simp only [hbuf, List.getElem?_cons_zero, List.getElem?_cons_succ]
  rw [← hbuf]
  simp only [hshort, if_true]

/-- One loop round on a buffer that starts with a complete frame of declared length 0 or 1. -/
theorem body_tiny (s : Server) (b0 b1 b2 b3 b4 b5 : Nat) (tl : List Nat)
    (hbuf : s.cb.buffer = b0 :: b1 :: b2 :: b3 :: b4 :: b5 :: tl)
    (h8 : s.cb.buffer.length ≥ 8)
    (hfit : ¬ s.cb.buffer.length < 6 + MAKEWORD b4 b5 % 65536)
    (htiny : MAKEWORD b4 b5 % 65536 < 2) :
    handle_incoming_packet_body s =
      Except.ok (Flow.again,
        { comp := s.comp
          cb := { client := s.cb.client
                  buffer := s.cb.buffer.drop (6 + MAKEWORD b4 b5 % 65536) }
          stray := s.stray }) := by
  unfold handle_incoming_packet_body
  simp only [h8, if_true, bind, Except.bind, vec_at]
  simp only [hbuf, List.getElem?_cons_zero, List.getElem?_cons_succ]
  rw [← hbuf]
  simp only [hfit, if_false, htiny, if_true]

theorem finish_response_cases (s : Server) (response : List Nat) :
    (∃ sent, finish_response s response =
        Except.ok (Flow.again,
          { comp := s.comp, cb := { client := sent, buffer := s.cb.buffer }, stray := s.stray })) ∨
    finish_response s response = Except.error (Fault.response_index, s) := by
  unfold finish_response
  by_cases h4 : 4 < response.length
  · by_cases h5 : 5 < response.length
    · simp only [h4, if_true, List.length_set, h5]
      exact Or.inl ⟨_, rfl⟩
    · simp only [h4, if_true, List.length_set, h5, if_false]
      exact Or.inr trivial
  · simp only [h4, if_false]
    exact Or.inr trivial

/-- Every loop round either returns with the state untouched, or goes on, or stops on a
fault other than a bank index, after removing at least six bytes and nothing but the
front of the buffer, the read-only members kept. -/
theorem body_outcome (s : Server) :
    handle_incoming_packet_body s = Except.ok (Flow.done, s) ∨
    (∃ t, handle_incoming_packet_body s = Except.ok (Flow.again, t) ∧ step_ok s t) ∨
    (∃ f t, handle_incoming_packet_body s = Except.error (f, t) ∧ f ≠ Fault.bank_index ∧
      step_ok s t) := by
  by_cases h8 : s.cb.buffer.length ≥ 8
  · obtain ⟨b0, b1, b2, b3, b4, b5, b6, b7, tl, hbuf⟩ := list_eight s.cb.buffer h8
    have hlen : s.cb.buffer.length = tl.length + 8 := by rw [hbuf]; rfl
    by_cases hshort : s.cb.buffer.length < 6 + MAKEWORD b4 b5 % 65536
    · exact Or.inl (body_incomplete s b0 b1 b2 b3 b4 b5 _ hbuf h8 hshort)
    · by_cases htiny : MAKEWORD b4 b5 % 65536 < 2
      · refine Or.inr (Or.inl ⟨_, body_tiny s b0 b1 b2 b3 b4 b5 _ hbuf h8 hshort htiny,
          same_read_only_refl _, 6 + MAKEWORD b4 b5 % 65536, by omega, by omega, rfl⟩)
      · have hpl : (tl.take (MAKEWORD b4 b5 % 65536 - 2)).length = MAKEWORD b4 b5 % 65536 - 2 := by
          rw [List.length_take]; omega
        have hbuf2 : s.cb.buffer = b0 :: b1 :: b2 :: b3 :: b4 :: b5 :: b6 :: b7 ::
            (tl.take (MAKEWORD b4 b5 % 65536 - 2) ++ tl.drop (MAKEWORD b4 b5 % 65536 - 2)) := by
          rw [List.take_append_drop]; exact hbuf
        have hL : MAKEWORD b4 b5 % 65536 = (tl.take (MAKEWORD b4 b5 % 65536 - 2)).length + 2 := by
          omega
        have hdrop : tl.drop (MAKEWORD b4 b5 % 65536 - 2) =
            s.cb.buffer.drop (6 + ((tl.take (MAKEWORD b4 b5 % 65536 - 2)).length + 2)) := by
          rw [hbuf2, drop_frame]
        have hstep : ∀ t : Server, t.cb.buffer = tl.drop (MAKEWORD b4 b5 % 65536 - 2) →
            ∃ n, 6 ≤ n ∧ n ≤ s.cb.buffer.length ∧ t.cb.buffer = s.cb.buffer.drop n := by
          intro t ht
          exact ⟨6 + ((tl.take (MAKEWORD b4 b5 % 65536 - 2)).length + 2), by omega, by omega,
            ht.trans hdrop⟩
        by_cases hu : b6 = s.comp.unit_id_
        · have hb := body_dispatch s b0 b1 b2 b3 b4 b5 b6 b7 _ _ hbuf2 hL hu
          cases hd : dispatch s.comp b7 (tl.take (MAKEWORD b4 b5 % 65536 - 2))
              [b0 % 256, b1 % 256, b2 % 256, b3 % 256, 0, 0, b6 % 256, b7 % 256] with
          | none =>
            rw [hd] at hb
            exact Or.inr (Or.inl ⟨_, hb, same_read_only_refl _, hstep _ rfl⟩)
          | some r =>
            have hsafe := dispatch_safe _ _ _ _ r hd
            rw [hd] at hb
            cases r with
            | error e =>
              obtain ⟨f, c⟩ := e
              obtain ⟨hf, hro⟩ := hsafe
              refine Or.inr (Or.inr ⟨f, _, hb, ?_, hro, hstep _ rfl⟩)
              rw [hf]; decide
            | ok h =>
              rcases finish_response_cases
                { comp := h.comp
                  cb := { client := s.cb.client, buffer := tl.drop (MAKEWORD b4 b5 % 65536 - 2) }
                  stray := s.stray ++ h.stray } h.response with ⟨sent, hfin⟩ | hfin
              · exact Or.inr (Or.inl ⟨_, hb.trans hfin, hsafe, hstep _ rfl⟩)
              · exact Or.inr (Or.inr ⟨_, _, hb.trans hfin, by decide, hsafe, hstep _ rfl⟩)
        · exact Or.inr (Or.inl ⟨_, body_mismatch s b0 b1 b2 b3 b4 b5 b6 b7 _ _ hbuf2 hL hu,
            same_read_only_refl _, hstep _ rfl⟩)
  · exact Or.inl (body_short s (by omega))

theorem same_read_only_trans {a b c : ModbusTCPComponent}
    (h1 : same_read_only a b) (h2 : same_read_only b c) : same_read_only a c :=
  ⟨h1.1.trans h2.1, h1.2.1.trans h2.2.1, h1.2.2.trans h2.2.2⟩

/-- The whole loop, for any fuel: no bank-index fault, read-only members kept, and
enough fuel never runs out. -/
theorem loop_outcome (fuel : Nat) (s : Server) :
    (handle_incoming_packet_loop fuel s).1 ≠ Status.faulted Fault.bank_index ∧
    same_read_only (handle_incoming_packet_loop fuel s).2.comp s.comp ∧
    (s.cb.buffer.length < fuel →
      (handle_incoming_packet_loop fuel s).1 ≠ Status.out_of_fuel) := by
  induction fuel generalizing s with
  | zero =>
    refine ⟨?_, same_read_only_refl _, fun h => absurd h (by omega)⟩
    simp only [handle_incoming_packet_loop]
    exact fun h => Status.noConfusion h
  | succ k ih =>
    rw [handle_incoming_packet_loop]
    rcases body_outcome s with hb | ⟨t, hb, hro, n, hn6, hnl, hbuf⟩ | ⟨f, t, hb, hf, hro, _⟩
    · rw [hb]
      exact ⟨fun h => Status.noConfusion h, same_read_only_refl _,
        fun _ h => Status.noConfusion h⟩
    · rw [hb]
      obtain ⟨i1, i2, i3⟩ := ih t
      refine ⟨i1, same_read_only_trans i2 hro, fun hlt => i3 ?_⟩
      rw [hbuf, List.length_drop]
      omega
    · rw [hb]
      refine ⟨?_, hro, fun _ h => Status.noConfusion h⟩
      intro h
      exact hf (Status.faulted.inj h)

/-- C11. Bank accesses are always in range.  Every access of `coil_values_`,
`discrete_input_values_`, `holding_registers_` and `input_registers_` in the handlers is
checked against the capacity 64 and would stop with `Fault.bank_index`; for every
function code, payload and response prefix no handler reached from the `switch` stops
that way, and no call of `handle_incoming_packet_`, on any buffer, does. -/
theorem bank_access_in_range :
    (∀ (comp : ModbusTCPComponent) (function : Nat) (pdu_data response : List Nat)
        (r : Except (Fault × ModbusTCPComponent) Handled) (c : ModbusTCPComponent),
      dispatch comp function pdu_data response = some r →
        r ≠ Except.error (Fault.bank_index, c)) ∧
    (∀ s : Server, (handle_incoming_packet_ s).1 ≠ Status.faulted Fault.bank_index) := by
  constructor
  · intro comp function pdu_data response r c hd hr
    have hsafe := dispatch_safe comp function pdu_data response r hd
    rw [hr] at hsafe
    exact absurd hsafe.1 (by decide)
  · intro s
    exact (loop_outcome _ s).1

/-- Witness of C11: a read of holding registers 0x0040.. (one past the bank) is dispatched
and its outcome is not an out-of-range bank access. -/
theorem bank_access_in_range_witness :
    ∃ r, dispatch demo_comp 0x03 [0x00, 0x40, 0x00, 0x01] [0x00, 0x01, 0x00, 0x00, 0x00, 0x00, 0x01, 0x03]
        = some r ∧ ∀ c, r ≠ Except.error (Fault.bank_index, c) :=
  ⟨_, rfl, fun c => bank_access_in_range.1 demo_comp 0x03 [0x00, 0x40, 0x00, 0x01]
    [0x00, 0x01, 0x00, 0x00, 0x00, 0x00, 0x01, 0x03] _ c rfl⟩

/-- C12. Read-only banks: whatever the connection buffer holds, after
`handle_incoming_packet_` (however it ends) `discrete_input_values_` and
`input_registers_` are what they were before; the same holds after any sequence of
received bytes is pushed byte by byte through `process_client_data_`. -/
theorem read_only_banks :
    (∀ s : Server,
      (handle_incoming_packet_ s).2.comp.discrete_input_values_ = s.comp.discrete_input_values_ ∧
      (handle_incoming_packet_ s).2.comp.input_registers_ = s.comp.input_registers_) ∧
    (∀ (s : Server) (bytes : List Nat),
      (process_client_data_ s bytes).2.comp.discrete_input_values_ =
        s.comp.discrete_input_values_ ∧
      (process_client_data_ s bytes).2.comp.input_registers_ = s.comp.input_registers_) := by
  have h1 : ∀ s : Server, same_read_only (handle_incoming_packet_ s).2.comp s.comp :=
    fun s => (loop_outcome _ s).2.1
  refine ⟨fun s => ⟨(h1 s).2.1, (h1 s).2.2⟩, ?_⟩
  have h2 : ∀ (bytes : List Nat) (s : Server),
      same_read_only (process_client_data_ s bytes).2.comp s.comp := by
    intro bytes
    induction bytes with
    | nil => intro s; exact same_read_only_refl _
    | cons byte rest ih =>
      intro s
      rw [process_client_data_]
      have hstep := h1 { s with cb := { s.cb with buffer := push_back s.cb.buffer byte } }
      generalize handle_incoming_packet_
        { s with cb := { s.cb with buffer := push_back s.cb.buffer byte } } = r at hstep
      obtain ⟨st, t⟩ := r
      cases st with
      | returned => exact same_read_only_trans (ih t) hstep
      | faulted f => exact hstep
      | out_of_fuel => exact hstep
  exact fun s bytes => ⟨(h2 bytes s).2.1, (h2 bytes s).2.2⟩

/-- C19. Incomplete frame leaves the buffer untouched: when the connection buffer
has fewer than 8 bytes, or its length field `L` (bytes 4 and 5) makes `6 + L` greater
than the number of buffered bytes, `handle_incoming_packet_` returns with the buffer,
the connection, the temporary-client log and the four banks exactly as they were. -/
theorem incomplete_frame_untouched (s : Server)
    (h : s.cb.buffer.length < 8 ∨
      s.cb.buffer.length <
        6 + MAKEWORD (s.cb.buffer.getD 4 0) (s.cb.buffer.getD 5 0) % 65536) :
    handle_incoming_packet_ s = (Status.returned, s) := by
  have hbody : handle_incoming_packet_body s = Except.ok (Flow.done, s) := by
    by_cases h8 : s.cb.buffer.length ≥ 8
    · obtain ⟨b0, b1, b2, b3, b4, b5, b6, b7, tl, hbuf⟩ := list_eight s.cb.buffer h8
      have hshort : s.cb.buffer.length < 6 + MAKEWORD b4 b5 % 65536 := by
        rcases h with h | h
        · omega
        · rw [hbuf] at h
          rw [hbuf]
          exact h
      exact body_incomplete s b0 b1 b2 b3 b4 b5 _ hbuf h8 hshort
    · exact body_short s (by omega)
  unfold handle_incoming_packet_
  rw [handle_incoming_packet_loop, hbody]

/-- Witness of C19: ten bytes of a twelve-byte request. -/
theorem incomplete_frame_untouched_witness :
    handle_incoming_packet_ (demo_server [0x00, 0x01, 0x00, 0x00, 0x00, 0x06, 0x01, 0x03, 0x00, 0x00]) =
      (Status.returned, demo_server [0x00, 0x01, 0x00, 0x00, 0x00, 0x06, 0x01, 0x03, 0x00, 0x00]) :=
  incomplete_frame_untouched
    (demo_server [0x00, 0x01, 0x00, 0x00, 0x00, 0x06, 0x01, 0x03, 0x00, 0x00])
    (Or.inr (by decide))

/-- C18 fails on the code: a Read Holding Registers request with protocol id 0x0001.
The whole frame is removed, not its first byte, and the response is written, echoing
the protocol id; with a length field of 16 and only 12 bytes buffered nothing is removed. -/
theorem server_accepts_protocol_id_1 :
    (handle_incoming_packet_ (demo_server
        [0x00, 0x01, 0x00, 0x01, 0x00, 0x06, 0x01, 0x03, 0x00, 0x00, 0x00, 0x02])).2.cb.client
      = [0x00, 0x01, 0x00, 0x01, 0x00, 0x07, 0x01, 0x03, 0x04, 0x00, 0x0A, 0x00, 0x14] ∧
    (handle_incoming_packet_ (demo_server
        [0x00, 0x01, 0x00, 0x01, 0x00, 0x06, 0x01, 0x03, 0x00, 0x00, 0x00, 0x02])).2.cb.buffer
      = [] ∧
    (handle_incoming_packet_ (demo_server
        [0x00, 0x01, 0x00, 0x01, 0x00, 0x10, 0x01, 0x03, 0x00, 0x00, 0x00, 0x02])).2.cb.buffer
      = [0x00, 0x01, 0x00, 0x01, 0x00, 0x10, 0x01, 0x03, 0x00, 0x00, 0x00, 0x02] := by
  decide

/-- Pushing a byte on a response commutes with the prefix the response starts with. -/
theorem push_back_append (pre r : List Nat) (x : Nat) :
    push_back (pre ++ r) x = pre ++ push_back r x := by
  simp only [push_back, List.append_assoc]

/-- The bit-packing loop only appends to the response it is given. -/
theorem pack_bits_prefix (comp : ModbusTCPComponent) (bank : Nat → Bool)
    (cap start quantity : Nat) (pre r : List Nat) (m : Nat) :
    pack_bits comp bank cap start quantity m (pre ++ r) =
      match pack_bits comp bank cap start quantity m r with
      | Except.ok (c, resp) => Except.ok (c, pre ++ resp)
      | Except.error e => Except.error e := by
  unfold pack_bits
  induction m with
  | zero => rfl
  | succ k ih =>
    rw [for_loop, ih, for_loop]
    cases for_loop (fun _ (st : Nat × List Nat) =>
        match pack_byte comp bank cap start quantity st.1 with
        | Except.ok (current_bit, val) => Except.ok (current_bit, push_back st.2 val)
        | Except.error e => Except.error e) k (0, r) with
    | error e => rfl
    | ok st =>
      obtain ⟨c, resp⟩ := st
      show (match pack_byte comp bank cap start quantity c with
        | Except.ok (current_bit, val) => Except.ok (current_bit, push_back (pre ++ resp) val)
        | Except.error e => Except.error e) =
        (match (match pack_byte comp bank cap start quantity c with
            | Except.ok (current_bit, val) => Except.ok (current_bit, push_back resp val)
            | Except.error e => Except.error e : Except (Fault × ModbusTCPComponent) (Nat × List Nat)) with
          | Except.ok (c, resp) => Except.ok (c, pre ++ resp)
          | Except.error e => Except.error e)
      cases pack_byte comp bank cap start quantity c with
      | error e => rfl
      | ok p =>
        obtain ⟨cb, val⟩ := p
        show Except.ok (cb, push_back (pre ++ resp) val) = Except.ok (cb, pre ++ push_back resp val)
        rw [push_back_append]

/-- Read Coils clears the response prefix or appends to it; nothing else depends on it. -/
theorem handle_read_coils_uniform (comp : ModbusTCPComponent) (function : Nat)
    (request : List Nat) :
    prefix_uniform (fun pre => handle_read_coils_ comp function request pre) := by
  by_cases hlen : request.length < 4
  · exact Or.inl ⟨reject comp function 0x03, rfl,
      fun pre => handle_read_coils_short comp function request pre hlen⟩
  · obtain ⟨r0, r1, r2, r3, rest, rfl⟩ := list_four request hlen
    have hl : ¬ (rest.length + 1 + 1 + 1 + 1 < 4) := by omega
    have key : ∀ pre, handle_read_coils_ comp function (r0 :: r1 :: r2 :: r3 :: rest) pre =
        if MAKEWORD r0 r1 % 65536 + MAKEWORD r2 r3 % 65536 > MAX_COILS ∨
            MAKEWORD r2 r3 % 65536 < 1 ∨ MAKEWORD r2 r3 % 65536 > 2000 then
          Except.ok (reject comp function 0x02)
        else
          match pack_bits comp comp.coil_values_ MAX_COILS (MAKEWORD r0 r1 % 65536)
              (MAKEWORD r2 r3 % 65536) ((MAKEWORD r2 r3 % 65536 + 7) / 8 % 256)
              (pre ++ [(MAKEWORD r2 r3 % 65536 + 7) / 8 % 256 % 256]) with
          | Except.ok (_, response) => Except.ok { comp := comp, response := response, stray := [] }
          | Except.error e => Except.error e := by
      intro pre
      unfold handle_read_coils_
      simp only [bind, Except.bind, vec_at, List.length_cons]
      simp only [List.getElem?_cons_zero, List.getElem?_cons_succ]
      simp only [hl, if_false]
      rfl
    generalize MAKEWORD r0 r1 % 65536 = start at key
    generalize MAKEWORD r2 r3 % 65536 = quantity at key
    by_cases hchk : start + quantity > MAX_COILS ∨ quantity < 1 ∨ quantity > 2000
    · exact Or.inl ⟨reject comp function 0x02, rfl, fun pre => (key pre).trans (if_pos hchk)⟩
    · cases hpb : pack_bits comp comp.coil_values_ MAX_COILS start quantity
          ((quantity + 7) / 8 % 256) [(quantity + 7) / 8 % 256 % 256] with
      | error e =>
        refine Or.inr (Or.inr ⟨e, fun pre => (key pre).trans ?_⟩)
        rw [if_neg hchk, pack_bits_prefix, hpb]
      | ok p =>
        obtain ⟨c, resp⟩ := p
        refine Or.inr (Or.inl ⟨comp, resp, [], fun pre => (key pre).trans ?_⟩)
        rw [if_neg hchk, pack_bits_prefix, hpb]

/-- Read Discrete Inputs clears the response prefix or appends to it. -/
theorem handle_read_discrete_inputs_uniform (comp : ModbusTCPComponent) (function : Nat)
    (request : List Nat) :
    prefix_uniform (fun pre => handle_read_discrete_inputs_ comp function request pre) := by
  by_cases hlen : request.length < 4
  · exact Or.inl ⟨reject comp function 0x03, rfl,
      fun pre => handle_read_discrete_inputs_short comp function request pre hlen⟩
  · obtain ⟨r0, r1, r2, r3, rest, rfl⟩ := list_four request hlen
    have hl : ¬ (rest.length + 1 + 1 + 1 + 1 < 4) := by omega
    have key : ∀ pre, handle_read_discrete_inputs_ comp function (r0 :: r1 :: r2 :: r3 :: rest) pre =
        if MAKEWORD r0 r1 % 65536 + MAKEWORD r2 r3 % 65536 > MAX_DISCRETE_INPUTS ∨
            MAKEWORD r2 r3 % 65536 < 1 ∨ MAKEWORD r2 r3 % 65536 > 2000 then
          Except.ok (reject comp function 0x02)
        else
          match pack_bits comp comp.discrete_input_values_ MAX_DISCRETE_INPUTS
              (MAKEWORD r0 r1 % 65536) (MAKEWORD r2 r3 % 65536)
              ((MAKEWORD r2 r3 % 65536 + 7) / 8 % 256)
              (pre ++ [(MAKEWORD r2 r3 % 65536 + 7) / 8 % 256 % 256]) with
          | Except.ok (_, response) => Except.ok { comp := comp, response := response, stray := [] }
          | Except.error e => Except.error e := by
      intro pre
      unfold handle_read_discrete_inputs_
      simp only [bind, Except.bind, vec_at, List.length_cons]
      simp only [List.getElem?_cons_zero, List.getElem?_cons_succ]
      simp only [hl, if_false]
      rfl
    generalize MAKEWORD r0 r1 % 65536 = start at key
    generalize MAKEWORD r2 r3 % 65536 = quantity at key
    by_cases hchk : start + quantity > MAX_DISCRETE_INPUTS ∨ quantity < 1 ∨ quantity > 2000
    · exact Or.inl ⟨reject comp function 0x02, rfl, fun pre => (key pre).trans (if_pos hchk)⟩
    · cases hpb : pack_bits comp comp.discrete_input_values_ MAX_DISCRETE_INPUTS start quantity
          ((quantity + 7) / 8 % 256) [(quantity + 7) / 8 % 256 % 256] with
      | error e =>
        refine Or.inr (Or.inr ⟨e, fun pre => (key pre).trans ?_⟩)
        rw [if_neg hchk, pack_bits_prefix, hpb]
      | ok p =>
        obtain ⟨c, resp⟩ := p
        refine Or.inr (Or.inl ⟨comp, resp, [], fun pre => (key pre).trans ?_⟩)
        rw [if_neg hchk, pack_bits_prefix, hpb]

/-- Read Holding Registers clears the response prefix or appends to it. -/
theorem handle_read_holding_registers_uniform (comp : ModbusTCPComponent) (function : Nat)
    (request : List Nat) :
    prefix_uniform (fun pre => handle_read_holding_registers_ comp function request pre) := by
  by_cases hlen : request.length < 4
  · exact Or.inl ⟨reject comp function 0x03, rfl,
      fun pre => handle_read_holding_registers_short comp function request pre hlen⟩
  · obtain ⟨r0, r1, r2, r3, rest, rfl⟩ := list_four request hlen
    have hl : ¬ (rest.length + 1 + 1 + 1 + 1 < 4) := by omega
    have key : ∀ pre, handle_read_holding_registers_ comp function (r0 :: r1 :: r2 :: r3 :: rest) pre =
        if MAKEWORD r0 r1 % 65536 + MAKEWORD r2 r3 % 65536 > MAX_HOLDING_REGS ∨
            MAKEWORD r2 r3 % 65536 < 1 ∨ MAKEWORD r2 r3 % 65536 > 125 then
          Except.ok (reject comp function 0x02)
        else
          match push_registers comp comp.holding_registers_ MAX_HOLDING_REGS
              (MAKEWORD r0 r1 % 65536) (MAKEWORD r2 r3 % 65536)
              (pre ++ [MAKEWORD r2 r3 % 65536 * 2 % 256 % 256]) with
          | Except.ok response => Except.ok { comp := comp, response := response, stray := [] }
          | Except.error e => Except.error e := by
      intro pre
      unfold handle_read_holding_registers_
      simp only [bind, Except.bind, vec_at, List.length_cons]
      simp only [List.getElem?_cons_zero, List.getElem?_cons_succ]
      simp only [hl, if_false]
      rfl
    generalize MAKEWORD r0 r1 % 65536 = start at key
    generalize MAKEWORD r2 r3 % 65536 = quantity at key
    by_cases hchk : start + quantity > MAX_HOLDING_REGS ∨ quantity < 1 ∨ quantity > 125
    · exact Or.inl ⟨reject comp function 0x02, rfl, fun pre => (key pre).trans (if_pos hchk)⟩
    · have hcap : start + quantity ≤ MAX_HOLDING_REGS := by omega
      refine Or.inr (Or.inl ⟨comp,
        [quantity * 2 % 256 % 256] ++ (List.range quantity).flatMap
          (fun i => [comp.holding_registers_ (start + i) / 256 % 256, comp.holding_registers_ (start + i) % 256]),
        [], fun pre => (key pre).trans ?_⟩)
      rw [if_neg hchk, push_registers_ok comp comp.holding_registers_ MAX_HOLDING_REGS start _
        quantity hcap, List.append_assoc]

/-- Read Input Registers clears the response prefix or appends to it. -/
theorem handle_read_input_registers_uniform (comp : ModbusTCPComponent) (function : Nat)
    (request : List Nat) :
    prefix_uniform (fun pre => handle_read_input_registers_ comp function request pre) := by
  by_cases hlen : request.length < 4
  · exact Or.inl ⟨reject comp function 0x03, rfl,
      fun pre => handle_read_input_registers_short comp function request pre hlen⟩
  · obtain ⟨r0, r1, r2, r3, rest, rfl⟩ := list_four request hlen
    have hl : ¬ (rest.length + 1 + 1 + 1 + 1 < 4) := by omega
    have key : ∀ pre, handle_read_input_registers_ comp function (r0 :: r1 :: r2 :: r3 :: rest) pre =
        if MAKEWORD r0 r1 % 65536 + MAKEWORD r2 r3 % 65536 > MAX_INPUT_REGS ∨
            MAKEWORD r2 r3 % 65536 < 1 ∨ MAKEWORD r2 r3 % 65536 > 125 then
          Except.ok (reject comp function 0x02)
        else
          match push_registers comp comp.input_registers_ MAX_INPUT_REGS
              (MAKEWORD r0 r1 % 65536) (MAKEWORD r2 r3 % 65536)
              (pre ++ [MAKEWORD r2 r3 % 65536 * 2 % 256 % 256]) with
          | Except.ok response => Except.ok { comp := comp, response := response, stray := [] }
          | Except.error e => Except.error e := by
      intro pre
      unfold handle_read_input_registers_
      simp only [bind, Except.bind, vec_at, List.length_cons]
      simp only [List.getElem?_cons_zero, List.getElem?_cons_succ]
      simp only [hl, if_false]
      rfl
    generalize MAKEWORD r0 r1 % 65536 = start at key
    generalize MAKEWORD r2 r3 % 65536 = quantity at key
    by_cases hchk : start + quantity > MAX_INPUT_REGS ∨ quantity < 1 ∨ quantity > 125
    · exact Or.inl ⟨reject comp function 0x02, rfl, fun pre => (key pre).trans (if_pos hchk)⟩
    · have hcap : start + quantity ≤ MAX_INPUT_REGS := by omega
      refine Or.inr (Or.inl ⟨comp,
        [quantity * 2 % 256 % 256] ++ (List.range quantity).flatMap
          (fun i => [comp.input_registers_ (start + i) / 256 % 256, comp.input_registers_ (start + i) % 256]),
        [], fun pre => (key pre).trans ?_⟩)
      rw [if_neg hchk, push_registers_ok comp comp.input_registers_ MAX_INPUT_REGS start _
        quantity hcap, List.append_assoc]

/-- Write Single Coil clears the response prefix or appends the echo to it. -/
theorem handle_write_single_coil_uniform (comp : ModbusTCPComponent) (function : Nat)
    (request : List Nat) :
    prefix_uniform (fun pre => handle_write_single_coil_ comp function request pre) := by
  by_cases hlen : request.length < 4
  · exact Or.inl ⟨reject comp function 0x03, rfl,
      fun pre => handle_write_single_coil_short comp function request pre hlen⟩
  · obtain ⟨r0, r1, r2, r3, rest, rfl⟩ := list_four request hlen
    have hl : ¬ (rest.length + 1 + 1 + 1 + 1 < 4) := by omega
    have key : ∀ pre, handle_write_single_coil_ comp function (r0 :: r1 :: r2 :: r3 :: rest) pre =
        if MAKEWORD r0 r1 % 65536 ≥ MAX_COILS then Except.ok (reject comp function 0x02)
        else if MAKEWORD r0 r1 % 65536 < MAX_COILS then
          Except.ok
            { comp := { comp with coil_values_ :=
                (store comp.coil_values_ (MAKEWORD r0 r1 % 65536)
                  (decide (MAKEWORD r2 r3 % 65536 = 0xFF00))) }
              response := pre ++ [r0, r1, r2, r3], stray := [] }
        else Except.error (Fault.bank_index, comp) := by
      intro pre
      unfold handle_write_single_coil_
      simp only [bind, Except.bind, vec_at, List.length_cons]
      simp only [List.getElem?_cons_zero, List.getElem?_cons_succ]
      simp only [hl, if_false]
      rfl
    generalize MAKEWORD r0 r1 % 65536 = addr at key
    by_cases hchk : addr ≥ MAX_COILS
    · exact Or.inl ⟨reject comp function 0x02, rfl, fun pre => (key pre).trans (if_pos hchk)⟩
    · have hin : addr < MAX_COILS := by omega
      refine Or.inr (Or.inl ⟨{ comp with coil_values_ :=
          (store comp.coil_values_ addr (decide (MAKEWORD r2 r3 % 65536 = 0xFF00))) },
        [r0, r1, r2, r3], [],
        fun pre => (key pre).trans ?_⟩)
      rw [if_neg hchk, if_pos hin]

/-- Write Single Register clears the response prefix or appends the echo to it. -/
theorem handle_write_single_register_uniform (comp : ModbusTCPComponent) (function : Nat)
    (request : List Nat) :
    prefix_uniform (fun pre => handle_write_single_register_ comp function request pre) := by
  by_cases hlen : request.length < 4
  · exact Or.inl ⟨reject comp function 0x03, rfl,
      fun pre => handle_write_single_register_short comp function request pre hlen⟩
  · obtain ⟨r0, r1, r2, r3, rest, rfl⟩ := list_four request hlen
    have hl : ¬ (rest.length + 1 + 1 + 1 + 1 < 4) := by omega
    have key : ∀ pre, handle_write_single_register_ comp function (r0 :: r1 :: r2 :: r3 :: rest) pre =
        if MAKEWORD r0 r1 % 65536 ≥ MAX_HOLDING_REGS then Except.ok (reject comp function 0x02)
        else if MAKEWORD r0 r1 % 65536 < MAX_HOLDING_REGS then
          Except.ok
            { comp := { comp with holding_registers_ :=
                (store comp.holding_registers_ (MAKEWORD r0 r1 % 65536)
                  (MAKEWORD r2 r3 % 65536)) }
              response := pre ++ [r0, r1, r2, r3], stray := [] }
        else Except.error (Fault.bank_index, comp) := by
      intro pre
      unfold handle_write_single_register_
      simp only [bind, Except.bind, vec_at, List.length_cons]
      simp only [List.getElem?_cons_zero, List.getElem?_cons_succ]
      simp only [hl, if_false]
      rfl
    generalize MAKEWORD r0 r1 % 65536 = addr at key
    by_cases hchk : addr ≥ MAX_HOLDING_REGS
    · exact Or.inl ⟨reject comp function 0x02, rfl, fun pre => (key pre).trans (if_pos hchk)⟩
    · have hin : addr < MAX_HOLDING_REGS := by omega
      refine Or.inr (Or.inl ⟨{ comp with holding_registers_ :=
          (store comp.holding_registers_ addr (MAKEWORD r2 r3 % 65536)) },
        [r0, r1, r2, r3], [],
        fun pre => (key pre).trans ?_⟩)
      rw [if_neg hchk, if_pos hin]

/-- Write Multiple Coils clears the response prefix, appends to it, or stops in its loop. -/
theorem handle_write_multiple_coils_uniform (comp : ModbusTCPComponent) (function : Nat)
    (request : List Nat) :
    prefix_uniform (fun pre => handle_write_multiple_coils_ comp function request pre) := by
  by_cases hlen : request.length < 5
  · exact Or.inl ⟨reject comp function 0x03, rfl,
      fun pre => handle_write_multiple_coils_short comp function request pre hlen⟩
  · obtain ⟨r0, r1, r2, r3, r4, rest, rfl⟩ := list_five request hlen
    have hl : ¬ (rest.length + 1 + 1 + 1 + 1 + 1 < 5) := by omega
    have key : ∀ pre, handle_write_multiple_coils_ comp function
          (r0 :: r1 :: r2 :: r3 :: r4 :: rest) pre =
        if MAKEWORD r0 r1 % 65536 + MAKEWORD r2 r3 % 65536 > MAX_COILS ∨
            MAKEWORD r2 r3 % 65536 < 1 ∨ r4 < (MAKEWORD r2 r3 % 65536 + 7) / 8 then
          Except.ok (reject comp function 0x02)
        else
          match write_coils (r0 :: r1 :: r2 :: r3 :: r4 :: rest) (MAKEWORD r0 r1 % 65536)
              (MAKEWORD r2 r3 % 65536) comp with
          | Except.ok c =>
            Except.ok { comp := c, response := pre ++ [r0 % 256, r1 % 256, r2 % 256, r3 % 256],
                        stray := [] }
          | Except.error e => Except.error e := by
      intro pre
      unfold handle_write_multiple_coils_
      simp only [bind, Except.bind, vec_at, List.length_cons]
      simp only [List.getElem?_cons_zero, List.getElem?_cons_succ]
      simp only [hl, if_false]
      simp only [push_back, List.append_assoc, List.singleton_append, List.cons_append,
        List.nil_append]
      split
      · rfl
      · cases write_coils (r0 :: r1 :: r2 :: r3 :: r4 :: rest) (MAKEWORD r0 r1 % 65536)
          (MAKEWORD r2 r3 % 65536) comp <;> rfl
    generalize MAKEWORD r0 r1 % 65536 = start at key
    generalize MAKEWORD r2 r3 % 65536 = quantity at key
    by_cases hchk : start + quantity > MAX_COILS ∨ quantity < 1 ∨ r4 < (quantity + 7) / 8
    · exact Or.inl ⟨reject comp function 0x02, rfl, fun pre => (key pre).trans (if_pos hchk)⟩
    · cases hw : write_coils (r0 :: r1 :: r2 :: r3 :: r4 :: rest) start quantity comp with
      | error e =>
        refine Or.inr (Or.inr ⟨e, fun pre => (key pre).trans ?_⟩)
        rw [if_neg hchk, hw]
      | ok c =>
        refine Or.inr (Or.inl ⟨c, [r0 % 256, r1 % 256, r2 % 256, r3 % 256], [],
          fun pre => (key pre).trans ?_⟩)
        rw [if_neg hchk, hw]

/-- Write Multiple Registers clears the response prefix, appends to it, or stops in its
loop. -/
theorem handle_write_multiple_registers_uniform (comp : ModbusTCPComponent) (function : Nat)
    (request : List Nat) :
    prefix_uniform (fun pre => handle_write_multiple_registers_ comp function request pre) := by
  by_cases hlen : request.length < 5
  · exact Or.inl ⟨reject comp function 0x03, rfl,
      fun pre => handle_write_multiple_registers_short comp function request pre hlen⟩
  · obtain ⟨r0, r1, r2, r3, r4, rest, rfl⟩ := list_five request hlen
    have hl : ¬ (rest.length + 1 + 1 + 1 + 1 + 1 < 5) := by omega
    have key : ∀ pre, handle_write_multiple_registers_ comp function
          (r0 :: r1 :: r2 :: r3 :: r4 :: rest) pre =
        if MAKEWORD r0 r1 % 65536 + MAKEWORD r2 r3 % 65536 > MAX_HOLDING_REGS ∨
            MAKEWORD r2 r3 % 65536 < 1 ∨ r4 ≠ MAKEWORD r2 r3 % 65536 * 2 then
          Except.ok (reject comp function 0x02)
        else
          match write_registers (r0 :: r1 :: r2 :: r3 :: r4 :: rest) (MAKEWORD r0 r1 % 65536)
              (MAKEWORD r2 r3 % 65536) comp with
          | Except.ok c =>
            Except.ok { comp := c, response := pre ++ [r0 % 256, r1 % 256, r2 % 256, r3 % 256],
                        stray := [] }
          | Except.error e => Except.error e := by
      intro pre
      unfold handle_write_multiple_registers_
      simp only [bind, Except.bind, vec_at, List.length_cons]
      simp only [List.getElem?_cons_zero, List.getElem?_cons_succ]
      simp only [hl, if_false]
      simp only [push_back, List.append_assoc, List.singleton_append, List.cons_append,
        List.nil_append]
      split
      · rfl
      · cases write_registers (r0 :: r1 :: r2 :: r3 :: r4 :: rest) (MAKEWORD r0 r1 % 65536)
          (MAKEWORD r2 r3 % 65536) comp <;> rfl
    generalize MAKEWORD r0 r1 % 65536 = start at key
    generalize MAKEWORD r2 r3 % 65536 = quantity at key
    by_cases hchk : start + quantity > MAX_HOLDING_REGS ∨ quantity < 1 ∨ r4 ≠ quantity * 2
    · exact Or.inl ⟨reject comp function 0x02, rfl, fun pre => (key pre).trans (if_pos hchk)⟩
    · cases hw : write_registers (r0 :: r1 :: r2 :: r3 :: r4 :: rest) start quantity comp with
      | error e =>
        refine Or.inr (Or.inr ⟨e, fun pre => (key pre).trans ?_⟩)
        rw [if_neg hchk, hw]
      | ok c =>
        refine Or.inr (Or.inl ⟨c, [r0 % 256, r1 % 256, r2 % 256, r3 % 256], [],
          fun pre => (key pre).trans ?_⟩)
        rw [if_neg hchk, hw]

/-- The `switch` uses the response prefix only through the handler it calls. -/
theorem dispatch_uniform (comp : ModbusTCPComponent) (function : Nat) (payload : List Nat) :
    (∀ pre, dispatch comp function payload pre = none) ∨
    ∃ f, prefix_uniform f ∧ ∀ pre, dispatch comp function payload pre = some (f pre) := by
  by_cases h1 : function = 0x01
  · subst h1
    exact Or.inr ⟨_, handle_read_coils_uniform comp 0x01 payload, fun _ => rfl⟩
  by_cases h2 : function = 0x02
  · subst h2
    exact Or.inr ⟨_, handle_read_discrete_inputs_uniform comp 0x02 payload, fun _ => rfl⟩
  by_cases h3 : function = 0x03
  · subst h3
    exact Or.inr ⟨_, handle_read_holding_registers_uniform comp 0x03 payload, fun _ => rfl⟩
  by_cases h4 : function = 0x04
  · subst h4
    exact Or.inr ⟨_, handle_read_input_registers_uniform comp 0x04 payload, fun _ => rfl⟩
  by_cases h5 : function = 0x05
  · subst h5
    exact Or.inr ⟨_, handle_write_single_coil_uniform comp 0x05 payload, fun _ => rfl⟩
  by_cases h6 : function = 0x06
  · subst h6
    exact Or.inr ⟨_, handle_write_single_register_uniform comp 0x06 payload, fun _ => rfl⟩
  by_cases h7 : function = 0x0F
  · subst h7
    exact Or.inr ⟨_, handle_write_multiple_coils_uniform comp 0x0F payload, fun _ => rfl⟩
  by_cases h8 : function = 0x10
  · subst h8
    exact Or.inr ⟨_, handle_write_multiple_registers_uniform comp 0x10 payload, fun _ => rfl⟩
  · refine Or.inl (fun pre => ?_)
    simp only [dispatch, h1, h2, h3, h4, h5, h6, h7, h8, if_false]

/-- Dropping six bytes or more does not see the first six. -/
theorem drop_past_header (b0 b1 b2 b3 b4 b5 : Nat) (rest : List Nat) (n : Nat) :
    List.drop (6 + n) (b0 :: b1 :: b2 :: b3 :: b4 :: b5 :: rest) = List.drop n rest := by
  have e : 6 + n = n + 1 + 1 + 1 + 1 + 1 + 1 := by omega
  rw [e]
  simp only [List.drop_succ_cons]

/-- C18 as the code has it: the server role makes no protocol-id check.  For every
connection buffer of at least 8 bytes, whatever bytes 2 and 3 are, the first round of
`handle_incoming_packet_` does what it does on the same buffer with the protocol-id field
set to 0x0000.  With `L` the length field (bytes 4 and 5): with fewer than `6 + L` bytes
buffered both rounds return and leave everything unchanged; otherwise both remove exactly
the first `6 + L` bytes and end the same way, with the same component, the same remaining
buffer and the same temporary-client log, and the bytes written to the connection are the
same or differ only in positions 2 and 3 of the response, which carry the request's
protocol-id bytes. -/
theorem server_ignores_protocol_id (s : Server) (h8 : 8 ≤ s.cb.buffer.length) :
    (s.cb.buffer.length < 6 + MAKEWORD (s.cb.buffer.getD 4 0) (s.cb.buffer.getD 5 0) % 65536 ∧
      handle_incoming_packet_body s = Except.ok (Flow.done, s) ∧
      handle_incoming_packet_body (clear_protocol_id s) =
        Except.ok (Flow.done, clear_protocol_id s)) ∨
    (6 + MAKEWORD (s.cb.buffer.getD 4 0) (s.cb.buffer.getD 5 0) % 65536 ≤ s.cb.buffer.length ∧
      ((∃ t t0, handle_incoming_packet_body s = Except.ok (Flow.again, t) ∧
          handle_incoming_packet_body (clear_protocol_id s) = Except.ok (Flow.again, t0) ∧
          t.cb.buffer = s.cb.buffer.drop
            (6 + MAKEWORD (s.cb.buffer.getD 4 0) (s.cb.buffer.getD 5 0) % 65536) ∧
          t0.cb.buffer = t.cb.buffer ∧ t0.comp = t.comp ∧ t0.stray = t.stray ∧
          (t.cb.client = t0.cb.client ∨
            ∃ resp, t0.cb.client = s.cb.client ++ resp ∧
              t.cb.client = s.cb.client ++
                (resp.set 2 (s.cb.buffer.getD 2 0 % 256)).set 3 (s.cb.buffer.getD 3 0 % 256))) ∨
       (∃ f t, handle_incoming_packet_body s = Except.error (f, t) ∧
          handle_incoming_packet_body (clear_protocol_id s) = Except.error (f, t) ∧
          t.cb.buffer = s.cb.buffer.drop
            (6 + MAKEWORD (s.cb.buffer.getD 4 0) (s.cb.buffer.getD 5 0) % 65536)))) := by
  obtain ⟨b0, b1, b2, b3, b4, b5, b6, b7, tl, hbuf⟩ := list_eight s.cb.buffer h8
  have hlen : s.cb.buffer.length = tl.length + 8 := by rw [hbuf]; rfl
  have hbuf0 : (clear_protocol_id s).cb.buffer = b0 :: b1 :: 0 :: 0 :: b4 :: b5 :: b6 :: b7 :: tl := by
    show (s.cb.buffer.set 2 0).set 3 0 = _
    rw [hbuf]
    rfl
  have hlen0 : (clear_protocol_id s).cb.buffer.length = tl.length + 8 := by rw [hbuf0]; rfl
  have h80 : (clear_protocol_id s).cb.buffer.length ≥ 8 := by omega
  have g2 : s.cb.buffer.getD 2 0 = b2 := by rw [hbuf]; rfl
  have g3 : s.cb.buffer.getD 3 0 = b3 := by rw [hbuf]; rfl
  have g4 : s.cb.buffer.getD 4 0 = b4 := by rw [hbuf]; rfl
  have g5 : s.cb.buffer.getD 5 0 = b5 := by rw [hbuf]; rfl
  rw [g2, g3, g4, g5]
  generalize hL : MAKEWORD b4 b5 % 65536 = L
  have hd : s.cb.buffer.drop (6 + L) = (b6 :: b7 :: tl).drop L := by
    rw [hbuf, drop_past_header]
  have hd0 : (clear_protocol_id s).cb.buffer.drop (6 + L) = (b6 :: b7 :: tl).drop L := by
    rw [hbuf0, drop_past_header]
  by_cases hshort : s.cb.buffer.length < 6 + L
  · refine Or.inl ⟨hshort, ?_, ?_⟩
    · exact body_incomplete s b0 b1 b2 b3 b4 b5 _ hbuf h8 (by rw [hL]; exact hshort)
    · exact body_incomplete (clear_protocol_id s) b0 b1 0 0 b4 b5 _ hbuf0 h80
        (by rw [hL]; omega)
  · refine Or.inr ⟨by omega, ?_⟩
    by_cases htiny : L < 2
    · have hb := body_tiny s b0 b1 b2 b3 b4 b5 _ hbuf h8 (by rw [hL]; exact hshort)
        (by rw [hL]; exact htiny)
      have hb0 := body_tiny (clear_protocol_id s) b0 b1 0 0 b4 b5 _ hbuf0 h80
        (by rw [hL]; omega) (by rw [hL]; exact htiny)
      rw [hL] at hb hb0
      rw [hd0] at hb0
      rw [hd] at hb
      exact Or.inl ⟨_, _, hb, hb0, hd.symm, rfl, rfl, rfl, Or.inl rfl⟩
    · have hpl : (tl.take (L - 2)).length + 2 = L := by rw [List.length_take]; omega
      have hb2 : s.cb.buffer = b0 :: b1 :: b2 :: b3 :: b4 :: b5 :: b6 :: b7 ::
          (tl.take (L - 2) ++ tl.drop (L - 2)) := by
        rw [List.take_append_drop]; exact hbuf
      have hb20 : (clear_protocol_id s).cb.buffer = b0 :: b1 :: 0 :: 0 :: b4 :: b5 :: b6 :: b7 ::
          (tl.take (L - 2) ++ tl.drop (L - 2)) := by
        rw [List.take_append_drop]; exact hbuf0
      have hrest : tl.drop (L - 2) = s.cb.buffer.drop (6 + L) := by
        have e := drop_frame b0 b1 b2 b3 b4 b5 b6 b7 (tl.take (L - 2)) (tl.drop (L - 2))
        rw [hpl, ← hb2] at e
        exact e.symm
      by_cases hu : b6 = s.comp.unit_id_
      · have hb := body_dispatch s b0 b1 b2 b3 b4 b5 b6 b7 _ _ hb2 (by rw [hL]; omega) hu
        have hb0 := body_dispatch (clear_protocol_id s) b0 b1 0 0 b4 b5 b6 b7 _ _ hb20
          (by rw [hL]; omega) hu
        rcases dispatch_uniform s.comp b7 (tl.take (L - 2)) with hnone | ⟨f, hf, hsome⟩
        · rw [hnone] at hb
          have hb0n : dispatch (clear_protocol_id s).comp b7 (tl.take (L - 2))
              [b0 % 256, b1 % 256, 0 % 256, 0 % 256, 0, 0, b6 % 256, b7 % 256] = none :=
            hnone _
          rw [hb0n] at hb0
          exact Or.inl ⟨_, _, hb, hb0, hrest, rfl, rfl, rfl, Or.inl rfl⟩
        · have hb0s : dispatch (clear_protocol_id s).comp b7 (tl.take (L - 2))
              [b0 % 256, b1 % 256, 0 % 256, 0 % 256, 0, 0, b6 % 256, b7 % 256] = some (f _) :=
            hsome _
          rw [hsome] at hb
          rw [hb0s] at hb0
          rcases hf with ⟨h, hnil, hall⟩ | ⟨c, ext, st, hall⟩ | ⟨e, hall⟩
          · rw [hall] at hb hb0
            obtain ⟨hc, hr, hs⟩ := h
            cases hnil
            exact Or.inr ⟨_, _, hb, hb0, hrest⟩
          · rw [hall] at hb hb0
            have hfin := finish_response_ok
              { comp := c, cb := { client := s.cb.client, buffer := tl.drop (L - 2) },
                stray := s.stray ++ st }
              (b0 % 256) (b1 % 256) (b2 % 256) (b3 % 256) 0 0 (b6 % 256 :: b7 % 256 :: ext)
            have hfin0 := finish_response_ok
              { comp := c, cb := { client := s.cb.client, buffer := tl.drop (L - 2) },
                stray := s.stray ++ st }
              (b0 % 256) (b1 % 256) (0 % 256) (0 % 256) 0 0 (b6 % 256 :: b7 % 256 :: ext)
            exact Or.inl ⟨_, _, hb.trans hfin, hb0.trans hfin0, hrest, rfl, rfl, rfl,
              Or.inr ⟨_, rfl, rfl⟩⟩
          · rw [hall] at hb hb0
            obtain ⟨fl, c⟩ := e
            exact Or.inr ⟨_, _, hb, hb0, hrest⟩
      · have hb := body_mismatch s b0 b1 b2 b3 b4 b5 b6 b7 _ _ hb2 (by rw [hL]; omega) hu
        have hb0 := body_mismatch (clear_protocol_id s) b0 b1 0 0 b4 b5 b6 b7 _ _ hb20
          (by rw [hL]; omega) hu
        exact Or.inl ⟨_, _, hb, hb0, hrest, rfl, rfl, rfl, Or.inl rfl⟩

/-- Witness of C18 as amended: the request of the counterexample (protocol id 0x0001) and
the same request with protocol id 0x0000 are both removed and answered; the two responses
differ in bytes 2 and 3 only. -/
theorem server_ignores_protocol_id_witness :
    ∃ t t0,
      handle_incoming_packet_body (demo_server
        [0x00, 0x01, 0x00, 0x01, 0x00, 0x06, 0x01, 0x03, 0x00, 0x00, 0x00, 0x02]) =
          Except.ok (Flow.again, t) ∧
      handle_incoming_packet_body (clear_protocol_id (demo_server
        [0x00, 0x01, 0x00, 0x01, 0x00, 0x06, 0x01, 0x03, 0x00, 0x00, 0x00, 0x02])) =
          Except.ok (Flow.again, t0) ∧
      t0.cb.buffer = t.cb.buffer ∧ t0.comp = t.comp ∧ t0.stray = t.stray ∧
      (t.cb.client = t0.cb.client ∨
        ∃ resp, t0.cb.client = resp ∧ t.cb.client = (resp.set 2 0x00).set 3 0x01) := by
  rcases server_ignores_protocol_id (demo_server
      [0x00, 0x01, 0x00, 0x01, 0x00, 0x06, 0x01, 0x03, 0x00, 0x00, 0x00, 0x02]) (by decide) with
    ⟨h, _⟩ | ⟨_, ⟨t, t0, h1, h2, _, h4, h5, h6, h7⟩ | ⟨f, t, h1, _⟩⟩
  · exact absurd h (by decide)
  · exact ⟨t, t0, h1, h2, h4, h5, h6, h7⟩
  · exact absurd ((rfl : handle_incoming_packet_body (demo_server
        [0x00, 0x01, 0x00, 0x01, 0x00, 0x06, 0x01, 0x03, 0x00, 0x00, 0x00, 0x02]) =
          Except.ok (Flow.again, _)).symm.trans h1) (fun h => Except.noConfusion h)

/-! ## Client transport: transaction ids and `send` -/

theorem new_id_value (self : ModbusTCP) :
    (get_new_transaction_id_ self).1 =
      if (self.transaction_id_counter_ + 1) % 65536 = 0 then 1
      else (self.transaction_id_counter_ + 1) % 65536 := rfl

theorem new_id_stored (self : ModbusTCP) :
    (get_new_transaction_id_ self).2.transaction_id_counter_ = (get_new_transaction_id_ self).1 :=
  rfl

theorem new_id_range (self : ModbusTCP) :
    1 ≤ (get_new_transaction_id_ self).1 ∧ (get_new_transaction_id_ self).1 < 65536 := by
  rw [new_id_value]
  split <;> omega

theorem after_ids_counter (self : ModbusTCP) (h0 : self.transaction_id_counter_ = 0) (n : Nat) :
    (after_ids n self).transaction_id_counter_ = if n = 0 then 0 else (n - 1) % 65535 + 1 := by
  induction n with
  | zero => simpa [after_ids] using h0
  | succ k ih =>
    rw [after_ids, new_id_stored, new_id_value, ih]
    by_cases hk : k = 0
    · subst hk; rfl
    · simp only [hk, if_false, Nat.succ_ne_zero, Nat.add_sub_cancel]
      split <;> omega

/-- C20. Transaction id assignment: `get_new_transaction_id_` never returns 0; from
a stored counter `c` it returns `c + 1` when `c < 0xFFFF` and 1 when `c = 0xFFFF`; it
stores the returned value as the new counter; so, starting from the counter 0, the
`k`-th id issued (`k ≥ 1`) is `((k - 1) mod 65535) + 1`. -/
theorem transaction_id_assignment :
    (∀ self : ModbusTCP, (get_new_transaction_id_ self).1 ≠ 0) ∧
    (∀ self : ModbusTCP, self.transaction_id_counter_ < 0xFFFF →
      (get_new_transaction_id_ self).1 = self.transaction_id_counter_ + 1) ∧
    (∀ self : ModbusTCP, self.transaction_id_counter_ = 0xFFFF →
      (get_new_transaction_id_ self).1 = 1) ∧
    (∀ self : ModbusTCP,
      (get_new_transaction_id_ self).2.transaction_id_counter_ =
        (get_new_transaction_id_ self).1) ∧
    (∀ (self : ModbusTCP) (k : Nat), self.transaction_id_counter_ = 0 → 1 ≤ k →
      (get_new_transaction_id_ (after_ids (k - 1) self)).1 = (k - 1) % 65535 + 1) := by
  refine ⟨fun self => ?_, fun self h => ?_, fun self h => ?_, fun self => rfl,
    fun self k h0 hk => ?_⟩
  · have := (new_id_range self).1
    omega
  · rw [new_id_value]
    split <;> omega
  · rw [new_id_value, h]
    rfl
  · rw [new_id_value, after_ids_counter self h0]
    by_cases hk1 : k - 1 = 0
    · simp only [hk1, if_true]
      rfl
    · simp only [hk1, if_false]
      split <;> omega

/-- Witness of C20: the first id, the id after 0xFFFF, and the third id from counter 0. -/
theorem transaction_id_assignment_witness :
    (get_new_transaction_id_ (demo_client [] 0)).1 = 1 ∧
    (get_new_transaction_id_ (demo_client [] 0xFFFF)).1 = 1 ∧
    (get_new_transaction_id_ (after_ids (3 - 1) (demo_client [] 0))).1 = 3 :=
  ⟨transaction_id_assignment.2.1 (demo_client [] 0) (by decide),
   transaction_id_assignment.2.2.1 (demo_client [] 0xFFFF) rfl,
   transaction_id_assignment.2.2.2.2 (demo_client [] 0) 3 rfl (by decide)⟩

theorem foldl_push_back (data acc : List Nat) (h : ∀ b ∈ data, b < 256) :
    data.foldl push_back acc = acc ++ data := by
  induction data generalizing acc with
  | nil => simp
  | cons x xs ih =>
    have hx : x % 256 = x := Nat.mod_eq_of_lt (h x (List.mem_cons_self x xs))
    rw [List.foldl_cons, ih _ (fun b hb => h b (List.mem_cons_of_mem x hb))]
    simp only [push_back, hx, List.append_assoc, List.singleton_append]

theorem send_connected (self : ModbusTCP) (frame : ModbusFrame) (hc : self.connected = true)
    (hu : self.unit_id_ < 256) (hp : ∀ b ∈ frame.data_, b < 256)
    (hl : 1 + frame.data_.length < 65536) :
    send self frame =
      ({ (get_new_transaction_id_ self).2 with
          client_ := self.client_ ++
            ([(get_new_transaction_id_ self).1 >>> 8, (get_new_transaction_id_ self).1 &&& 0xFF,
              0x00, 0x00, (1 + frame.data_.length) >>> 8, (1 + frame.data_.length) &&& 0xFF,
              self.unit_id_] ++ frame.data_) },
       { frame with transaction_id_ := (get_new_transaction_id_ self).1 }) := by
  have ht := (new_id_range self).2
  generalize hg : get_new_transaction_id_ self = r at ht
  have hself : r.2.unit_id_ = self.unit_id_ ∧ r.2.client_ = self.client_ := by
    rw [← hg]; exact ⟨rfl, rfl⟩
  unfold send
  simp only [hc, not_true_eq_false, if_false, hg, ModbusFrame.get_data_length]
  rw [foldl_push_back _ _ hp]
  have e1 : r.1 >>> 8 % 256 = r.1 >>> 8 := by
    rw [Nat.shiftRight_eq_div_pow]; omega
  have e2 : (r.1 &&& 0xFF) % 256 = r.1 &&& 0xFF := by
    rw [lo_byte]; omega
  have e3 : (1 + frame.data_.length) % 65536 = 1 + frame.data_.length := Nat.mod_eq_of_lt hl
  have e4 : (1 + frame.data_.length) >>> 8 % 256 = (1 + frame.data_.length) >>> 8 := by
    rw [Nat.shiftRight_eq_div_pow]; omega
  have e5 : ((1 + frame.data_.length) &&& 0xFF) % 256 = (1 + frame.data_.length) &&& 0xFF := by
    rw [lo_byte]; omega
  simp only [push_back, e3, e1, e2, e4, e5, hself.1, hself.2, Nat.mod_eq_of_lt hu,
    List.nil_append, List.cons_append, List.append_assoc, Nat.zero_mod]

/-- C13. Client encode layout: on a connected client with configured unit id `u`, for
the transaction id `t` that `get_new_transaction_id_` issues and a PDU `p` of bytes with
`1 + len(p) < 65536`, `send` writes exactly
`[t >> 8, t & 0xFF, 0x00, 0x00, (1+len(p)) >> 8, (1+len(p)) & 0xFF, u]` followed by `p`
verbatim, `7 + len(p)` bytes in all. -/
theorem send_layout (self : ModbusTCP) (frame : ModbusFrame) (hc : self.connected = true)
    (hu : self.unit_id_ < 256) (hp : ∀ b ∈ frame.data_, b < 256)
    (hl : 1 + frame.data_.length < 65536) :
    (send self frame).1.client_ =
      self.client_ ++
        ([(get_new_transaction_id_ self).1 >>> 8, (get_new_transaction_id_ self).1 &&& 0xFF,
          0x00, 0x00, (1 + frame.data_.length) >>> 8, (1 + frame.data_.length) &&& 0xFF,
          self.unit_id_] ++ frame.data_) ∧
    ([(get_new_transaction_id_ self).1 >>> 8, (get_new_transaction_id_ self).1 &&& 0xFF,
        0x00, 0x00, (1 + frame.data_.length) >>> 8, (1 + frame.data_.length) &&& 0xFF,
        self.unit_id_] ++ frame.data_).length = 7 + frame.data_.length := by
  rw [send_connected self frame hc hu hp hl]
  refine ⟨rfl, ?_⟩
  simp only [List.length_append, List.length_cons, List.length_nil]

/-- Witness of C13: a five-byte PDU sent as transaction 0x1234 by unit 1. -/
theorem send_layout_witness :
    (send (demo_client [] 0x1233) ⟨0, 0, [0x03, 0x00, 0x00, 0x00, 0x02]⟩).1.client_ =
      [0x12, 0x34, 0x00, 0x00, 0x00, 0x06, 0x01, 0x03, 0x00, 0x00, 0x00, 0x02] ∧
    ([0x12, 0x34, 0x00, 0x00, 0x00, 0x06, 0x01, 0x03, 0x00, 0x00, 0x00, 0x02] : List Nat).length
      = 7 + 5 :=
  send_layout (demo_client [] 0x1233) ⟨0, 0, [0x03, 0x00, 0x00, 0x00, 0x02]⟩ rfl (by decide)
    (by decide) (by decide)

/-! ## Client transport: the reassembly loop -/

theorem word_bytes (h l : Nat) (hh : h < 256) (hl : l < 256) :
    ((h <<< 8) ||| l) % 65536 = h * 256 + l := by
  have e : h <<< 8 ||| l = 2 ^ 8 * h + l := by
    rw [Nat.shiftLeft_eq, Nat.mul_comm]
    exact (Nat.mul_add_lt_is_or (by simpa using hl) h).symm
  rw [e]
  omega

theorem pbody_short (self : ModbusTCP) (h : self.incoming_buffer_.length < 8) :
    process_incoming_data_body self = Except.ok (Flow.done, self) := by
  unfold process_incoming_data_body
  have h8 : ¬ (self.incoming_buffer_.length ≥ 8) := by omega
  simp only [h8, if_false]

/-- A round on a buffer whose protocol-id word is not zero. -/
theorem pbody_resync (self : ModbusTCP) (b0 b1 b2 b3 b4 b5 : Nat) (tl : List Nat)
    (hbuf : self.incoming_buffer_ = b0 :: b1 :: b2 :: b3 :: b4 :: b5 :: tl)
    (h8 : self.incoming_buffer_.length ≥ 8)
    (hproto : ((b2 <<< 8) ||| b3) % 65536 ≠ 0) :
    process_incoming_data_body self =
      Except.ok (Flow.again, { self with incoming_buffer_ := self.incoming_buffer_.drop 1 }) := by
  unfold process_incoming_data_body
  simp only [h8, if_true, bind, Except.bind, vec_at]
  simp only [hbuf, List.getElem?_cons_zero, List.getElem?_cons_succ]
  simp only [hproto, ne_eq, not_false_eq_true, if_true]

/-- A round on a buffer with protocol id 0 whose declared ADU is not complete yet. -/
theorem pbody_wait (self : ModbusTCP) (b0 b1 b2 b3 b4 b5 : Nat) (tl : List Nat)
    (hbuf : self.incoming_buffer_ = b0 :: b1 :: b2 :: b3 :: b4 :: b5 :: tl)
    (h8 : self.incoming_buffer_.length ≥ 8)
    (hproto : ((b2 <<< 8) ||| b3) % 65536 = 0)
    (hshort : self.incoming_buffer_.length < 6 + ((b4 <<< 8) ||| b5) % 65536) :
    process_incoming_data_body self = Except.ok (Flow.done, self) := by
  unfold process_incoming_data_body
  simp only [h8, if_true, bind, Except.bind, vec_at]
  simp only [hbuf, List.getElem?_cons_zero, List.getElem?_cons_succ]
  rw [← hbuf]
  simp only [hproto, ne_eq, not_true_eq_false, if_false, hshort, if_true]

/-- A round on a buffer with protocol id 0 and declared length 0. -/
theorem pbody_fault (self : ModbusTCP) (b0 b1 b2 b3 b4 b5 u : Nat) (tl : List Nat)
    (hbuf : self.incoming_buffer_ = b0 :: b1 :: b2 :: b3 :: b4 :: b5 :: u :: tl)
    (h8 : self.incoming_buffer_.length ≥ 8)
    (hproto : ((b2 <<< 8) ||| b3) % 65536 = 0)
    (hzero : ((b4 <<< 8) ||| b5) % 65536 = 0) :
    process_incoming_data_body self = Except.error (Fault.buffer_index, self) := by
  unfold process_incoming_data_body
  have hfit : ¬ (self.incoming_buffer_.length < 6 + 0) := by omega
  have hlast : ¬ (7 ≤ (7 + (0 + SIZE_MAX) % (SIZE_MAX + 1)) % (SIZE_MAX + 1) ∧
      (7 + (0 + SIZE_MAX) % (SIZE_MAX + 1)) % (SIZE_MAX + 1) ≤ self.incoming_buffer_.length) := by
    have : (7 + (0 + SIZE_MAX) % (SIZE_MAX + 1)) % (SIZE_MAX + 1) = 6 := by decide
    rw [this]
    omega
  simp only [h8, if_true, bind, Except.bind, vec_at]
  rw [hbuf] at hfit hlast ⊢
  simp only [List.getElem?_cons_zero, List.getElem?_cons_succ]
  simp only [hproto, ne_eq, not_true_eq_false, if_false, hzero, hfit, hlast]

/-- A round on a buffer that starts with a complete ADU of protocol id 0 and declared
length at least 1. -/
theorem pbody_frame (self : ModbusTCP) (b0 b1 b2 b3 b4 b5 u : Nat) (pdu rest : List Nat)
    (hbuf : self.incoming_buffer_ = b0 :: b1 :: b2 :: b3 :: b4 :: b5 :: u :: (pdu ++ rest))
    (h8 : self.incoming_buffer_.length ≥ 8)
    (hproto : ((b2 <<< 8) ||| b3) % 65536 = 0)
    (hL : ((b4 <<< 8) ||| b5) % 65536 = pdu.length + 1) :
    process_incoming_data_body self =
      Except.ok (Flow.again,
        { self with
          incoming_buffer_ := rest
          received := self.received ++
            [{ transaction_id_ := ((b0 <<< 8) ||| b1) % 65536, address_ := u, data_ := pdu }] }) := by
  unfold process_incoming_data_body
  have hplen : pdu.length + 1 < 65536 := by rw [← hL]; omega
  have hlen : self.incoming_buffer_.length = pdu.length + rest.length + 7 := by
    rw [hbuf]; simp only [List.length_cons, List.length_append]
  have hfit : ¬ (self.incoming_buffer_.length < 6 + (pdu.length + 1)) := by omega
  have hlast : (7 + (pdu.length + 1 + SIZE_MAX) % (SIZE_MAX + 1)) % (SIZE_MAX + 1)
      = 7 + pdu.length := by
    unfold SIZE_MAX; omega
  have hrange : 7 ≤ 7 + pdu.length ∧ 7 + pdu.length ≤ self.incoming_buffer_.length := by omega
  have htake : (self.incoming_buffer_.drop 7).take (7 + pdu.length - 7) = pdu := by
    rw [hbuf, Nat.add_sub_cancel_left]
    simp only [List.drop_succ_cons, List.drop_zero, List.take_left]
  have hdrop : self.incoming_buffer_.drop (6 + (pdu.length + 1)) = rest := by
    have e : 6 + (pdu.length + 1) = pdu.length + 1 + 1 + 1 + 1 + 1 + 1 + 1 := by omega
    rw [hbuf, e]
    simp only [List.drop_succ_cons, List.drop_left]
  have h6 : self.incoming_buffer_[6]? = some u := by
    rw [hbuf]; simp only [List.getElem?_cons_zero, List.getElem?_cons_succ]
  have g0 : self.incoming_buffer_[0]? = some b0 := by
    rw [hbuf]; simp only [List.getElem?_cons_zero, List.getElem?_cons_succ]
  have g1 : self.incoming_buffer_[1]? = some b1 := by
    rw [hbuf]; simp only [List.getElem?_cons_zero, List.getElem?_cons_succ]
  have g2 : self.incoming_buffer_[2]? = some b2 := by
    rw [hbuf]; simp only [List.getElem?_cons_zero, List.getElem?_cons_succ]
  have g3 : self.incoming_buffer_[3]? = some b3 := by
    rw [hbuf]; simp only [List.getElem?_cons_zero, List.getElem?_cons_succ]
  have g4 : self.incoming_buffer_[4]? = some b4 := by
    rw [hbuf]; simp only [List.getElem?_cons_zero, List.getElem?_cons_succ]
  have g5 : self.incoming_buffer_[5]? = some b5 := by
    rw [hbuf]; simp only [List.getElem?_cons_zero, List.getElem?_cons_succ]
  simp only [h8, if_true, bind, Except.bind, vec_at]
  simp only [g0, g1, g2, g3, g4, g5, h6]
  simp only [hproto, ne_eq, not_true_eq_false, if_false, hL, hfit, hlast, hrange, and_self,
    if_true, htake, hdrop]

/-- Every round of the client loop: it returns with the component untouched, or goes on
with a strictly shorter buffer, or stops on the slice fault; the last two do the same
when more bytes follow in the buffer. -/
theorem pbody_outcome (self : ModbusTCP) :
    process_incoming_data_body self = Except.ok (Flow.done, self) ∨
    (∃ t, process_incoming_data_body self = Except.ok (Flow.again, t) ∧
      t.incoming_buffer_.length < self.incoming_buffer_.length ∧
      ∀ e, process_incoming_data_body (extend self e) = Except.ok (Flow.again, extend t e)) ∨
    (process_incoming_data_body self = Except.error (Fault.buffer_index, self) ∧
      ∀ e, process_incoming_data_body (extend self e) =
        Except.error (Fault.buffer_index, extend self e)) := by
  by_cases h8 : self.incoming_buffer_.length ≥ 8
  · obtain ⟨b0, b1, b2, b3, b4, b5, u, b7, tl, hbuf⟩ := list_eight _ h8
    have hlen : self.incoming_buffer_.length = tl.length + 8 := by rw [hbuf]; rfl
    have h8e : ∀ e, (extend self e).incoming_buffer_.length ≥ 8 := by
      intro e
      simp only [extend, List.length_append]
      omega
    by_cases hproto : ((b2 <<< 8) ||| b3) % 65536 = 0
    · by_cases hshort : self.incoming_buffer_.length < 6 + ((b4 <<< 8) ||| b5) % 65536
      · exact Or.inl (pbody_wait self b0 b1 b2 b3 b4 b5 _ hbuf h8 hproto hshort)
      · by_cases hzero : ((b4 <<< 8) ||| b5) % 65536 = 0
        · refine Or.inr (Or.inr ⟨pbody_fault self b0 b1 b2 b3 b4 b5 u _ hbuf h8 hproto hzero,
            fun e => ?_⟩)
          have hbe : (extend self e).incoming_buffer_ =
              b0 :: b1 :: b2 :: b3 :: b4 :: b5 :: u :: (b7 :: tl ++ e) := by
            simp only [extend, hbuf, List.cons_append]
          exact pbody_fault (extend self e) b0 b1 b2 b3 b4 b5 u _ hbe (h8e e) hproto hzero
        · generalize hLdef : ((b4 <<< 8) ||| b5) % 65536 = L at hshort hzero
          have hpl : ((b7 :: tl).take (L - 1)).length = L - 1 := by
            rw [List.length_take, List.length_cons]; omega
          have hL : L = ((b7 :: tl).take (L - 1)).length + 1 := by omega
          have hbuf2 : self.incoming_buffer_ = b0 :: b1 :: b2 :: b3 :: b4 :: b5 :: u ::
              ((b7 :: tl).take (L - 1) ++ (b7 :: tl).drop (L - 1)) := by
            rw [List.take_append_drop]; exact hbuf
          have hb := pbody_frame self b0 b1 b2 b3 b4 b5 u _ _ hbuf2 h8 hproto (hLdef.trans hL)
          refine Or.inr (Or.inl ⟨_, hb, ?_, fun e => ?_⟩)
          · show ((b7 :: tl).drop (L - 1)).length < self.incoming_buffer_.length
            rw [List.length_drop, List.length_cons]; omega
          · have hbe : (extend self e).incoming_buffer_ = b0 :: b1 :: b2 :: b3 :: b4 :: b5 :: u ::
                ((b7 :: tl).take (L - 1) ++ ((b7 :: tl).drop (L - 1) ++ e)) := by
              rw [← List.append_assoc, List.take_append_drop]
              simp only [extend, hbuf, List.cons_append]
            exact pbody_frame (extend self e) b0 b1 b2 b3 b4 b5 u _ _ hbe (h8e e) hproto
              (hLdef.trans hL)
    · refine Or.inr (Or.inl ⟨_, pbody_resync self b0 b1 b2 b3 b4 b5 _ hbuf h8 hproto, ?_,
        fun e => ?_⟩)
      · show (self.incoming_buffer_.drop 1).length < self.incoming_buffer_.length
        rw [List.length_drop]; omega
      · have hbe : (extend self e).incoming_buffer_ =
            b0 :: b1 :: b2 :: b3 :: b4 :: b5 :: (u :: b7 :: tl ++ e) := by
          simp only [extend, hbuf, List.cons_append]
        rw [pbody_resync (extend self e) b0 b1 b2 b3 b4 b5 _ hbe (h8e e) hproto]
        simp only [extend, hbuf, List.cons_append, List.drop_succ_cons, List.drop_zero]
  · exact Or.inl (pbody_short self (by omega))

theorem ploop_fuel (fuel1 : Nat) :
    ∀ (fuel2 : Nat) (self : ModbusTCP), self.incoming_buffer_.length < fuel1 →
      self.incoming_buffer_.length < fuel2 →
      process_incoming_data_loop fuel1 self = process_incoming_data_loop fuel2 self ∧
      (process_incoming_data_loop fuel1 self).1 ≠ Status.out_of_fuel := by
  induction fuel1 with
  | zero => intro fuel2 self h1; omega
  | succ k ih =>
    intro fuel2 self h1 h2
    obtain ⟨j, rfl⟩ : ∃ j, fuel2 = j + 1 := ⟨fuel2 - 1, by omega⟩
    rw [process_incoming_data_loop, process_incoming_data_loop]
    rcases pbody_outcome self with hb | ⟨t, hb, hlt, _⟩ | ⟨hb, _⟩
    · rw [hb]
      exact ⟨rfl, fun h => Status.noConfusion h⟩
    · rw [hb]
      exact ih j t (by omega) (by omega)
    · rw [hb]
      exact ⟨rfl, fun h => Status.noConfusion h⟩

theorem run_done (self t : ModbusTCP)
    (hb : process_incoming_data_body self = Except.ok (Flow.done, t)) :
    process_incoming_data_ self = (Status.returned, t) := by
  unfold process_incoming_data_
  rw [process_incoming_data_loop, hb]

theorem run_fault (self t : ModbusTCP) (f : Fault)
    (hb : process_incoming_data_body self = Except.error (f, t)) :
    process_incoming_data_ self = (Status.faulted f, t) := by
  unfold process_incoming_data_
  rw [process_incoming_data_loop, hb]

theorem run_again (self t : ModbusTCP)
    (hb : process_incoming_data_body self = Except.ok (Flow.again, t))
    (hlt : t.incoming_buffer_.length < self.incoming_buffer_.length) :
    process_incoming_data_ self = process_incoming_data_ t := by
  unfold process_incoming_data_
  rw [process_incoming_data_loop, hb]
  exact (ploop_fuel _ _ t hlt (by omega)).1

theorem run_not_out_of_fuel (self : ModbusTCP) :
    (process_incoming_data_ self).1 ≠ Status.out_of_fuel :=
  (ploop_fuel _ (self.incoming_buffer_.length + 1) self (by omega) (by omega)).2

/-- Appending bytes behind the buffer: a pass that completes on the shorter buffer is a
prefix of the pass on the longer one; a pass that faults does so on the longer one too. -/
theorem run_append (e : List Nat) (n : Nat) :
    ∀ self : ModbusTCP, self.incoming_buffer_.length ≤ n →
      (∀ t, process_incoming_data_ self = (Status.returned, t) →
        process_incoming_data_ (extend self e) = process_incoming_data_ (extend t e)) ∧
      (∀ f t, process_incoming_data_ self = (Status.faulted f, t) →
        process_incoming_data_ (extend self e) = (Status.faulted f, extend t e)) := by
  induction n with
  | zero =>
    intro self hn
    have hb := pbody_short self (by omega)
    rw [run_done self self hb]
    refine ⟨fun t ht => ?_, fun f t ht => ?_⟩
    · rw [← (Prod.mk.inj ht).2]
    · exact absurd (Prod.mk.inj ht).1 (fun h => Status.noConfusion h)
  | succ k ih =>
    intro self hn
    rcases pbody_outcome self with hb | ⟨t1, hb, hlt, hext⟩ | ⟨hb, hext⟩
    · rw [run_done self self hb]
      refine ⟨fun t ht => ?_, fun f t ht => ?_⟩
      · rw [← (Prod.mk.inj ht).2]
      · exact absurd (Prod.mk.inj ht).1 (fun h => Status.noConfusion h)
    · have hlt2 : (extend t1 e).incoming_buffer_.length < (extend self e).incoming_buffer_.length := by
        simp only [extend, List.length_append]; omega
      rw [run_again self t1 hb hlt, run_again (extend self e) (extend t1 e) (hext e) hlt2]
      exact ih t1 (by omega)
    · rw [run_fault self self _ hb, run_fault (extend self e) (extend self e) _ (hext e)]
      refine ⟨fun t ht => ?_, fun f t ht => ?_⟩
      · exact absurd (Prod.mk.inj ht).1 (fun h => Status.noConfusion h)
      · obtain ⟨h1, h2⟩ := Prod.mk.inj ht
        rw [← h2, ← Status.faulted.inj h1]

theorem push_byte (self : ModbusTCP) (byte : Nat) (h : byte < 256) :
    { self with incoming_buffer_ := push_back self.incoming_buffer_ byte } = extend self [byte] := by
  simp only [push_back, extend, Nat.mod_eq_of_lt h]

theorem extend_extend (self : ModbusTCP) (a b : List Nat) :
    extend (extend self a) b = extend self (a ++ b) := by
  simp only [extend, List.append_assoc]

theorem agree_refl (r : Status × ModbusTCP) : agree r r := ⟨rfl, rfl, fun _ => rfl⟩

theorem loop_connected_agree (s : List Nat) :
    ∀ self : ModbusTCP, s ≠ [] → (∀ b ∈ s, b < 256) →
      agree (loop_connected self s) (process_incoming_data_ (extend self s)) := by
  induction s with
  | nil => intro self h; exact absurd rfl h
  | cons x rest ih =>
    intro self _ hb
    have hx : x < 256 := hb x (List.mem_cons_self x rest)
    have hrest : ∀ b ∈ rest, b < 256 := fun b h => hb b (List.mem_cons_of_mem x h)
    have hfuel := run_not_out_of_fuel (extend self [x])
    cases rest with
    | nil =>
      rw [loop_connected, push_byte self x hx]
      generalize process_incoming_data_ (extend self [x]) = r at hfuel
      obtain ⟨st, t⟩ := r
      cases st with
      | returned => exact agree_refl _
      | faulted f => exact agree_refl _
      | out_of_fuel => exact agree_refl _
    | cons y more =>
      have happ := run_append (y :: more) (extend self [x]).incoming_buffer_.length
        (extend self [x]) (Nat.le_refl _)
      rw [extend_extend, List.singleton_append] at happ
      rw [loop_connected, push_byte self x hx]
      generalize process_incoming_data_ (extend self [x]) = r at hfuel happ
      obtain ⟨st, t⟩ := r
      cases st with
      | returned =>
        show agree (loop_connected t (y :: more)) _
        rw [happ.1 t rfl]
        exact ih t (List.cons_ne_nil y more) hrest
      | faulted f =>
        show agree (Status.faulted f, t) _
        rw [happ.2 f t rfl]
        exact ⟨rfl, rfl, fun h => Status.noConfusion h⟩
      | out_of_fuel => exact absurd rfl hfuel

/-- From a state that a completed pass left behind, reading any bytes one at a time agrees
with one pass over all of them: same status, same frames, and the same component whenever
the single pass completes. -/
theorem loop_connected_settled (self : ModbusTCP)
    (hs : process_incoming_data_ self = (Status.returned, self)) (s : List Nat)
    (hb : ∀ b ∈ s, b < 256) :
    agree (loop_connected self s) (process_incoming_data_ (extend self s)) := by
  cases s with
  | nil =>
    have e : extend self [] = self := by simp only [extend, List.append_nil]
    rw [e, hs]
    exact agree_refl _
  | cons x rest => exact loop_connected_agree (x :: rest) self (List.cons_ne_nil x rest) hb

/-- C15, the code at a header with length field 0 followed by one more byte, on an empty
receive buffer: read byte by byte through `loop`, the pass after the eighth byte stops at
the PDU slice with eight bytes buffered and the ninth byte unread; with all nine bytes
appended first, the single pass stops at the same slice with nine bytes buffered.  Neither
run ends, and the buffers at the stop differ. -/
theorem fragmentation_stops_at_length_zero :
    loop_connected (demo_client [] 0)
        [0x00, 0x01, 0x00, 0x00, 0x00, 0x00, 0x01, 0x03, 0x09] =
      (Status.faulted Fault.buffer_index,
        demo_client [0x00, 0x01, 0x00, 0x00, 0x00, 0x00, 0x01, 0x03] 0) ∧
    process_incoming_data_ (extend (demo_client [] 0)
        [0x00, 0x01, 0x00, 0x00, 0x00, 0x00, 0x01, 0x03, 0x09]) =
      (Status.faulted Fault.buffer_index,
        demo_client [0x00, 0x01, 0x00, 0x00, 0x00, 0x00, 0x01, 0x03, 0x09] 0) := by
  decide

theorem adu_head (self : ModbusTCP) (frame : ModbusFrame) (rest : List Nat)
    (hwf : well_formed frame) :
    process_incoming_data_body { self with incoming_buffer_ := adu_bytes frame ++ rest } =
      Except.ok (Flow.again,
        { self with incoming_buffer_ := rest, received := self.received ++ [frame] }) := by
  obtain ⟨ht, hu, hp, h1, hl⟩ := hwf
  have hbuf : ({ self with incoming_buffer_ := adu_bytes frame ++ rest } : ModbusTCP).incoming_buffer_ =
      frame.transaction_id_ / 256 :: frame.transaction_id_ % 256 :: 0 :: 0 ::
        (1 + frame.data_.length) / 256 :: (1 + frame.data_.length) % 256 :: frame.address_ ::
        (frame.data_ ++ rest) := by
    simp only [adu_bytes, List.cons_append, List.nil_append]
  have h8 : ({ self with incoming_buffer_ := adu_bytes frame ++ rest } : ModbusTCP).incoming_buffer_.length
      ≥ 8 := by
    rw [hbuf]; simp only [List.length_cons, List.length_append]; omega
  have hL : (((1 + frame.data_.length) / 256) <<< 8 ||| (1 + frame.data_.length) % 256) % 65536 =
      frame.data_.length + 1 := by
    rw [word_bytes _ _ (by omega) (by omega)]; omega
  have hT : ((frame.transaction_id_ / 256) <<< 8 ||| frame.transaction_id_ % 256) % 65536 =
      frame.transaction_id_ := by
    rw [word_bytes _ _ (by omega) (by omega)]; omega
  rw [pbody_frame _ _ _ _ _ _ _ _ _ _ hbuf h8 rfl hL, hT]

theorem adu_length (frame : ModbusFrame) : (adu_bytes frame).length = 7 + frame.data_.length := by
  simp only [adu_bytes, List.length_append, List.length_cons, List.length_nil]

theorem run_adus (frames : List ModbusFrame) :
    ∀ self : ModbusTCP, (∀ f ∈ frames, well_formed f) →
      process_incoming_data_ { self with incoming_buffer_ := frames.flatMap adu_bytes } =
        (Status.returned,
          { self with incoming_buffer_ := [], received := self.received ++ frames }) := by
  induction frames with
  | nil =>
    intro self _
    rw [run_done _ _ (pbody_short _ (by simp))]
    simp
  | cons f fs ih =>
    intro self hwf
    have hf : well_formed f := hwf f (List.mem_cons_self f fs)
    have hfs : ∀ g ∈ fs, well_formed g := fun g h => hwf g (List.mem_cons_of_mem f h)
    have hb := adu_head self f (fs.flatMap adu_bytes) hf
    rw [List.flatMap_cons]
    rw [run_again _ _ hb (by
      simp only [List.length_append, adu_length]; omega)]
    have := ih { self with received := self.received ++ [f] } hfs
    simp only [List.append_assoc, List.singleton_append] at this
    exact this

/-- C16. Pipelined frames: for every list of `N` well-formed ADUs (protocol id
0x0000, length field `1 + len(pdu)`, `len(pdu) ≥ 1`, fields of wire width), one call of
`process_incoming_data_` on a buffer holding their concatenation returns, delivers
exactly those `N` frames to `on_data`, in order, each with the transaction id, unit id
and PDU of its ADU, and leaves the buffer empty. -/
theorem pipelined_frames (self : ModbusTCP) (frames : List ModbusFrame)
    (hwf : ∀ f ∈ frames, well_formed f) :
    process_incoming_data_ { self with incoming_buffer_ := frames.flatMap adu_bytes } =
      (Status.returned,
        { self with incoming_buffer_ := [], received := self.received ++ frames }) :=
  run_adus frames self hwf

/-- Witness of C16: two ADUs back to back. -/
theorem pipelined_frames_witness :
    process_incoming_data_ (demo_client
        [0x00, 0x01, 0x00, 0x00, 0x00, 0x02, 0x01, 0x03,
         0x00, 0x02, 0x00, 0x00, 0x00, 0x03, 0x09, 0x04, 0x05] 0) =
      (Status.returned,
        { demo_client [] 0 with
          received := [{ transaction_id_ := 1, address_ := 1, data_ := [0x03] },
                       { transaction_id_ := 2, address_ := 9, data_ := [0x04, 0x05] }] }) :=
  pipelined_frames (demo_client [] 0)
    [{ transaction_id_ := 1, address_ := 1, data_ := [0x03] },
     { transaction_id_ := 2, address_ := 9, data_ := [0x04, 0x05] }]
    (by decide)

theorem foldl_push_back_map (data acc : List Nat) :
    data.foldl push_back acc = acc ++ data.map (fun b => b % 256) := by
  induction data generalizing acc with
  | nil => simp
  | cons x xs ih =>
    rw [List.foldl_cons, ih]
    simp only [push_back, List.map_cons, List.append_assoc, List.singleton_append]

theorem send_never_tid_zero (sender : ModbusTCP) (frame : ModbusFrame) (u : Nat)
    (tail : List Nat) :
    (send sender frame).1.client_ ≠ sender.client_ ++ (0 :: 0 :: u :: tail) := by
  unfold send
  by_cases hc : sender.connected = true
  · have hr := new_id_range sender
    have hcl : (get_new_transaction_id_ sender).2.client_ = sender.client_ := rfl
    generalize get_new_transaction_id_ sender = r at hr hcl
    simp only [hc, not_true_eq_false, if_false, foldl_push_back_map, push_back, hcl,
      List.nil_append, List.cons_append, List.append_assoc]
    intro h
    have h2 := List.append_cancel_left h
    simp only [List.cons.injEq] at h2
    obtain ⟨e1, e2, _⟩ := h2
    rw [Nat.shiftRight_eq_div_pow] at e1
    rw [lo_byte] at e2
    omega
  · simp only [hc, Bool.false_eq_true, not_false_eq_true, if_true]
    intro h
    have := congrArg List.length h
    simp only [List.length_append, List.length_cons] at this
    omega

/-- C14 fails on the code for an ADU with transaction id 0: the pass decodes
`00 00 00 00 00 02 01 03` into the frame (0, 1, [03]) and empties the buffer, but no
client, in any state, makes `send` write those bytes back for that frame, since `send`
never issues transaction id 0. -/
theorem codec_round_trip_tid_zero :
    process_incoming_data_ (demo_client [0x00, 0x00, 0x00, 0x00, 0x00, 0x02, 0x01, 0x03] 0) =
      (Status.returned,
        { demo_client [] 0 with
          received := [{ transaction_id_ := 0, address_ := 1, data_ := [0x03] }] }) ∧
    (∀ sender : ModbusTCP,
      (send sender { transaction_id_ := 0, address_ := 1, data_ := [0x03] }).1.client_ ≠
        sender.client_ ++ [0x00, 0x00, 0x00, 0x00, 0x00, 0x02, 0x01, 0x03]) :=
  ⟨by decide, fun sender => send_never_tid_zero sender _ _ _⟩

/-- C14 as the code has it: for every well-formed ADU `x` (protocol id 0x0000, length
field `len(x) - 6`, at least a function code) whose transaction id `t` is not 0,
`process_incoming_data_` on a buffer holding exactly `x` returns, delivers exactly the
one frame `(t, u, p)` and empties the buffer; and `send`, on a connected client whose
configured unit id is `u` and whose stored counter is `t - 1` (so that it issues `t`),
writes for the PDU `p` exactly `x` again. -/
theorem codec_round_trip (self sender : ModbusTCP) (frame : ModbusFrame)
    (hwf : well_formed frame) (ht : frame.transaction_id_ ≠ 0)
    (hconn : sender.connected = true) (hunit : sender.unit_id_ = frame.address_)
    (hcounter : sender.transaction_id_counter_ = frame.transaction_id_ - 1) :
    process_incoming_data_ { self with incoming_buffer_ := adu_bytes frame } =
      (Status.returned,
        { self with incoming_buffer_ := [], received := self.received ++ [frame] }) ∧
    (send sender frame).1.client_ = sender.client_ ++ adu_bytes frame := by
  constructor
  · have h := run_adus [frame] self (fun f hf => by
      rw [List.mem_singleton] at hf; rw [hf]; exact hwf)
    simp only [List.flatMap_cons, List.flatMap_nil, List.append_nil] at h
    exact h
  · obtain ⟨ht16, hu, hp, h1, hl⟩ := hwf
    have hid : (get_new_transaction_id_ sender).1 = frame.transaction_id_ := by
      rw [new_id_value, hcounter]
      split <;> omega
    rw [send_connected sender frame hconn (by omega) hp hl, hid, hunit]
    simp only [adu_bytes, Nat.shiftRight_eq_div_pow, lo_byte]

/-- Witness of C14 as amended: transaction 0x1234, unit 1, PDU 03. -/
theorem codec_round_trip_witness :
    process_incoming_data_ (demo_client [0x12, 0x34, 0x00, 0x00, 0x00, 0x02, 0x01, 0x03] 0) =
      (Status.returned,
        { demo_client [] 0 with
          received := [{ transaction_id_ := 0x1234, address_ := 1, data_ := [0x03] }] }) ∧
    (send (demo_client [] 0x1233) { transaction_id_ := 0x1234, address_ := 1, data_ := [0x03] }
      ).1.client_ = [0x12, 0x34, 0x00, 0x00, 0x00, 0x02, 0x01, 0x03] :=
  codec_round_trip (demo_client [] 0) (demo_client [] 0x1233)
    { transaction_id_ := 0x1234, address_ := 1, data_ := [0x03] }
    (by decide) (by decide) rfl rfl rfl

/-- One round on a buffer of at least 8 bytes (each below 256) whose bytes 2 and 3 are not
both zero drops the first byte and delivers nothing. -/
theorem pbody_resync_bytes (self : ModbusTCP)
    (hb : ∀ b ∈ self.incoming_buffer_, b < 256)
    (h8 : 8 ≤ self.incoming_buffer_.length)
    (hbad : self.incoming_buffer_.getD 2 0 ≠ 0 ∨ self.incoming_buffer_.getD 3 0 ≠ 0) :
    process_incoming_data_body self =
      Except.ok (Flow.again, { self with incoming_buffer_ := self.incoming_buffer_.drop 1 }) := by
  obtain ⟨b0, b1, b2, b3, b4, b5, b6, b7, tl, hbuf⟩ := list_eight _ h8
  rw [hbuf] at hbad hb
  simp only [List.getD_cons_succ, List.getD_cons_zero] at hbad
  have h2 : b2 < 256 := hb b2 (by simp)
  have h3 : b3 < 256 := hb b3 (by simp)
  have hproto : ((b2 <<< 8) ||| b3) % 65536 ≠ 0 := by
    rw [word_bytes b2 b3 h2 h3]; omega
  exact pbody_resync self b0 b1 b2 b3 b4 b5 _ hbuf h8 hproto

/-- While the header at each of the offsets 0..n-1 is complete and has a non-zero protocol id,
n rounds of the loop drop n bytes, and the pass continues from the shortened buffer. -/
theorem resync_rounds (n : Nat) :
    ∀ self : ModbusTCP, (∀ b ∈ self.incoming_buffer_, b < 256) →
      (∀ i, i < n → i + 8 ≤ self.incoming_buffer_.length ∧
        (self.incoming_buffer_.getD (i + 2) 0 ≠ 0 ∨ self.incoming_buffer_.getD (i + 3) 0 ≠ 0)) →
      process_incoming_data_loop n self =
        (Status.out_of_fuel, { self with incoming_buffer_ := self.incoming_buffer_.drop n }) ∧
      process_incoming_data_ self =
        process_incoming_data_ { self with incoming_buffer_ := self.incoming_buffer_.drop n } := by
  induction n with
  | zero =>
    intro self _ _
    exact ⟨rfl, rfl⟩
  | succ k ih =>
    intro self hb hbad
    obtain ⟨h8, h0⟩ := hbad 0 (by omega)
    have hstep := pbody_resync_bytes self hb h8 h0
    have hb1 : ∀ b ∈ self.incoming_buffer_.drop 1, b < 256 :=
      fun b h => hb b (List.mem_of_mem_drop h)
    have hbad1 : ∀ i, i < k → i + 8 ≤ (self.incoming_buffer_.drop 1).length ∧
        ((self.incoming_buffer_.drop 1).getD (i + 2) 0 ≠ 0 ∨
          (self.incoming_buffer_.drop 1).getD (i + 3) 0 ≠ 0) := by
      intro i hi
      obtain ⟨hl, hp⟩ := hbad (i + 1) (by omega)
      refine ⟨by rw [List.length_drop]; omega, ?_⟩
      have e2 : (self.incoming_buffer_.drop 1).getD (i + 2) 0 =
          self.incoming_buffer_.getD (i + 1 + 2) 0 := by
        simp only [List.getD_eq_getElem?_getD, List.getElem?_drop]
        congr 2; omega
      have e3 : (self.incoming_buffer_.drop 1).getD (i + 3) 0 =
          self.incoming_buffer_.getD (i + 1 + 3) 0 := by
        simp only [List.getD_eq_getElem?_getD, List.getElem?_drop]
        congr 2; omega
      rw [e2, e3]
      exact hp
    obtain ⟨i1, i2⟩ := ih { self with incoming_buffer_ := self.incoming_buffer_.drop 1 } hb1 hbad1
    simp only [List.drop_drop] at i1 i2
    have e : 1 + k = k + 1 := by omega
    rw [e] at i1 i2
    refine ⟨?_, ?_⟩
    · rw [process_incoming_data_loop, hstep]
      exact i1
    · rw [run_again self _ hstep (by show (self.incoming_buffer_.drop 1).length < _
                                     rw [List.length_drop]; omega)]
      exact i2

/-- C17 fails on the code where it says the discarding goes on until the buffer is empty: on
eight bytes 0x01 the pass discards one byte and returns with seven bytes left, whose bytes 2
and 3 are still not 0x0000; `process_incoming_data_` stops as soon as fewer than 8 bytes
remain. -/
theorem resync_stops_at_seven_bytes :
    process_incoming_data_ (demo_client [0x01, 0x01, 0x01, 0x01, 0x01, 0x01, 0x01, 0x01] 0) =
      (Status.returned, demo_client [0x01, 0x01, 0x01, 0x01, 0x01, 0x01, 0x01] 0) := by
  decide

/-- C17 as the code has it: on a buffer of bytes whose header at each of the offsets 0..n-1 is
complete (8 bytes available) with a protocol id other than 0x0000, one iteration of the
`process_incoming_data_` loop removes exactly the first byte, keeps the rest in order and
delivers no frame; n iterations remove exactly the first n bytes and deliver no frame; the
pass goes on from the shortened buffer, and it returns with that buffer, not emptied, as soon
as fewer than 8 bytes remain. -/
theorem resync_step (self : ModbusTCP) (n : Nat)
    (hb : ∀ b ∈ self.incoming_buffer_, b < 256)
    (hbad : ∀ i, i < n → i + 8 ≤ self.incoming_buffer_.length ∧
      (self.incoming_buffer_.getD (i + 2) 0 ≠ 0 ∨ self.incoming_buffer_.getD (i + 3) 0 ≠ 0)) :
    (0 < n → process_incoming_data_body self =
      Except.ok (Flow.again, { self with incoming_buffer_ := self.incoming_buffer_.drop 1 })) ∧
    process_incoming_data_loop n self =
      (Status.out_of_fuel, { self with incoming_buffer_ := self.incoming_buffer_.drop n }) ∧
    process_incoming_data_ self =
      process_incoming_data_ { self with incoming_buffer_ := self.incoming_buffer_.drop n } ∧
    ((self.incoming_buffer_.drop n).length < 8 →
      process_incoming_data_ self =
        (Status.returned, { self with incoming_buffer_ := self.incoming_buffer_.drop n })) := by
  obtain ⟨r1, r2⟩ := resync_rounds n self hb hbad
  refine ⟨fun hn => ?_, r1, r2, fun hlt => ?_⟩
  · obtain ⟨h8, h0⟩ := hbad 0 hn
    exact pbody_resync_bytes self hb h8 h0
  · rw [r2]
    exact run_done _ _ (pbody_short _ hlt)

/-- Witness of C17 as amended: nine bytes 0x01, two resynchronization steps, seven bytes
left. -/
theorem resync_step_witness :
    process_incoming_data_ (demo_client [0x01, 0x01, 0x01, 0x01, 0x01, 0x01, 0x01, 0x01, 0x01] 0) =
      (Status.returned, demo_client [0x01, 0x01, 0x01, 0x01, 0x01, 0x01, 0x01] 0) :=
  (resync_step (demo_client [0x01, 0x01, 0x01, 0x01, 0x01, 0x01, 0x01, 0x01, 0x01] 0) 2
    (by decide) (by decide)).2.2.2 (by decide)

/-- C21, the code at an ADU whose length field is 1 (transaction 1, unit 1, no PDU byte),
followed by one more byte: `process_incoming_data_` delivers the frame with an empty
`data_` and removes seven bytes, in a single pass and when the bytes arrive one at a time
through `loop`; the client has no test of the length field against 2. -/
theorem client_delivers_empty_pdu :
    process_incoming_data_ (demo_client [0x00, 0x01, 0x00, 0x00, 0x00, 0x01, 0x01, 0x03] 0) =
      (Status.returned,
        { demo_client [0x03] 0 with
          received := [{ transaction_id_ := 1, address_ := 1, data_ := [] }] }) ∧
    loop_connected (demo_client [] 0) [0x00, 0x01, 0x00, 0x00, 0x00, 0x01, 0x01, 0x03] =
      (Status.returned,
        { demo_client [0x03] 0 with
          received := [{ transaction_id_ := 1, address_ := 1, data_ := [] }] }) := by
  decide

/-- C22, the code at a header with protocol id 0x0000 and length field 0: `length_field - 1`
wraps, the PDU range ends before it starts, and the pass stops at that slice instead of
waiting, discarding or delivering; the same happens when the eight bytes arrive one at a
time through `loop`. -/
theorem client_length_zero_faults :
    process_incoming_data_ (demo_client [0x00, 0x01, 0x00, 0x00, 0x00, 0x00, 0x01, 0x03] 0) =
      (Status.faulted Fault.buffer_index,
        demo_client [0x00, 0x01, 0x00, 0x00, 0x00, 0x00, 0x01, 0x03] 0) ∧
    loop_connected (demo_client [] 0) [0x00, 0x01, 0x00, 0x00, 0x00, 0x00, 0x01, 0x03] =
      (Status.faulted Fault.buffer_index,
        demo_client [0x00, 0x01, 0x00, 0x00, 0x00, 0x00, 0x01, 0x03] 0) := by
  decide

/-- C23, the code at Write Multiple Coils (quantity 1, byte count 1) and Write Multiple
Registers (quantity 1, byte count 2) requests whose payload ends after the byte count: the
validation passes and the write loop reads `request[5]`, past the five payload bytes; seen
from `handle_incoming_packet_` the frame ends in that read, not in an error reply. -/
theorem write_multiple_reads_past_request :
    handle_write_multiple_coils_ demo_comp 0x0F [0x00, 0x00, 0x00, 0x01, 0x01]
        [0x00, 0x01, 0x00, 0x00, 0x00, 0x00, 0x01, 0x0F] =
      Except.error (Fault.request_index, demo_comp) ∧
    handle_write_multiple_registers_ demo_comp 0x10 [0x00, 0x00, 0x00, 0x01, 0x02]
        [0x00, 0x01, 0x00, 0x00, 0x00, 0x00, 0x01, 0x10] =
      Except.error (Fault.request_index, demo_comp) ∧
    (handle_incoming_packet_ (demo_server
        [0x00, 0x01, 0x00, 0x00, 0x00, 0x07, 0x01, 0x0F, 0x00, 0x00, 0x00, 0x01, 0x01])).1 =
      Status.faulted Fault.request_index ∧
    (handle_incoming_packet_ (demo_server
        [0x00, 0x01, 0x00, 0x00, 0x00, 0x07, 0x01, 0x10, 0x00, 0x00, 0x00, 0x01, 0x02])).1 =
      Status.faulted Fault.request_index :=
  ⟨rfl, rfl, by decide, by decide⟩

/-- C24, the code at two frames a handler rejects, Write Single Register at address 0x0040
and Read Holding Registers without payload: the handler clears the response, and the loop
then writes `response[4]` of the empty vector; nothing reaches the connection, and
`response.size() - 6` is 65530 after the narrowing to 16 bits. -/
theorem length_patch_on_cleared_response :
    (handle_incoming_packet_ (demo_server
        [0x00, 0x01, 0x00, 0x00, 0x00, 0x06, 0x01, 0x06, 0x00, 0x40, 0x00, 0x07])).1 =
      Status.faulted Fault.response_index ∧
    (handle_incoming_packet_ (demo_server
        [0x00, 0x01, 0x00, 0x00, 0x00, 0x06, 0x01, 0x06, 0x00, 0x40, 0x00, 0x07])).2.cb.client = [] ∧
    (handle_incoming_packet_ (demo_server
        [0x00, 0x01, 0x00, 0x00, 0x00, 0x02, 0x01, 0x03])).1 =
      Status.faulted Fault.response_index ∧
    (∃ h, dispatch demo_comp 0x06 [0x00, 0x40, 0x00, 0x07]
        [0x00, 0x01, 0x00, 0x00, 0x00, 0x00, 0x01, 0x06] = some (Except.ok h) ∧
      h.response = [] ∧ (h.response.length + (65536 - 6)) % 65536 = 65530) :=
  ⟨by decide, by decide, by decide, ⟨_, rfl, rfl, rfl⟩⟩

/-- Write Single Coil with a short payload or an address of 64 or more takes the error exit. -/
theorem handle_write_single_coil_rejects (comp : ModbusTCPComponent) (function : Nat)
    (request response : List Nat)
    (h : request.length < 4 ∨
      MAKEWORD (request.getD 0 0) (request.getD 1 0) % 65536 ≥ MAX_COILS) :
    ∃ code, handle_write_single_coil_ comp function request response =
      Except.ok (reject comp function code) := by
  by_cases hlen : request.length < 4
  · exact ⟨0x03, handle_write_single_coil_short comp function request response hlen⟩
  · obtain ⟨r0, r1, r2, r3, rest, rfl⟩ := list_four request hlen
    have hchk : MAKEWORD r0 r1 % 65536 ≥ MAX_COILS := by
      rcases h with h | h
      · exact absurd h hlen
      · exact h
    refine ⟨0x02, ?_⟩
    unfold handle_write_single_coil_
    simp only [bind, Except.bind, vec_at, List.length_cons]
    simp only [List.getElem?_cons_zero, List.getElem?_cons_succ]
    have hlen2 : ¬ (rest.length + 1 + 1 + 1 + 1 < 4) := by omega
    simp only [hlen2, if_false]
    exact if_pos hchk

/-- Write Single Register with a short payload or an address of 64 or more takes the error
exit. -/
theorem handle_write_single_register_rejects (comp : ModbusTCPComponent) (function : Nat)
    (request response : List Nat)
    (h : request.length < 4 ∨
      MAKEWORD (request.getD 0 0) (request.getD 1 0) % 65536 ≥ MAX_HOLDING_REGS) :
    ∃ code, handle_write_single_register_ comp function request response =
      Except.ok (reject comp function code) := by
  by_cases hlen : request.length < 4
  · exact ⟨0x03, handle_write_single_register_short comp function request response hlen⟩
  · obtain ⟨r0, r1, r2, r3, rest, rfl⟩ := list_four request hlen
    have hchk : MAKEWORD r0 r1 % 65536 ≥ MAX_HOLDING_REGS := by
      rcases h with h | h
      · exact absurd h hlen
      · exact h
    refine ⟨0x02, ?_⟩
    unfold handle_write_single_register_
    simp only [bind, Except.bind, vec_at, List.length_cons]
    simp only [List.getElem?_cons_zero, List.getElem?_cons_succ]
    have hlen2 : ¬ (rest.length + 1 + 1 + 1 + 1 < 4) := by omega
    simp only [hlen2, if_false]
    exact if_pos hchk

/-- Write Multiple Coils with a payload below 5 bytes or a failed range, quantity or byte
count test takes the error exit. -/
theorem handle_write_multiple_coils_rejects (comp : ModbusTCPComponent) (function : Nat)
    (request response : List Nat)
    (h : request.length < 5 ∨
      MAKEWORD (request.getD 0 0) (request.getD 1 0) % 65536 +
          MAKEWORD (request.getD 2 0) (request.getD 3 0) % 65536 > MAX_COILS ∨
      MAKEWORD (request.getD 2 0) (request.getD 3 0) % 65536 < 1 ∨
      request.getD 4 0 < (MAKEWORD (request.getD 2 0) (request.getD 3 0) % 65536 + 7) / 8) :
    ∃ code, handle_write_multiple_coils_ comp function request response =
      Except.ok (reject comp function code) := by
  by_cases hlen : request.length < 5
  · exact ⟨0x03, handle_write_multiple_coils_short comp function request response hlen⟩
  · obtain ⟨r0, r1, r2, r3, r4, rest, rfl⟩ := list_five request hlen
    have hchk : MAKEWORD r0 r1 % 65536 + MAKEWORD r2 r3 % 65536 > MAX_COILS ∨
        MAKEWORD r2 r3 % 65536 < 1 ∨ r4 < (MAKEWORD r2 r3 % 65536 + 7) / 8 := by
      rcases h with h | h
      · exact absurd h hlen
      · exact h
    refine ⟨0x02, ?_⟩
    unfold handle_write_multiple_coils_
    simp only [bind, Except.bind, vec_at, List.length_cons]
    simp only [List.getElem?_cons_zero, List.getElem?_cons_succ]
    have hlen2 : ¬ (rest.length + 1 + 1 + 1 + 1 + 1 < 5) := by omega
    simp only [hlen2, if_false]
    exact if_pos hchk

/-- Write Multiple Registers with a payload below 5 bytes or a failed range, quantity or
byte count test takes the error exit. -/
theorem handle_write_multiple_registers_rejects (comp : ModbusTCPComponent) (function : Nat)
    (request response : List Nat)
    (h : request.length < 5 ∨
      MAKEWORD (request.getD 0 0) (request.getD 1 0) % 65536 +
          MAKEWORD (request.getD 2 0) (request.getD 3 0) % 65536 > MAX_HOLDING_REGS ∨
      MAKEWORD (request.getD 2 0) (request.getD 3 0) % 65536 < 1 ∨
      request.getD 4 0 ≠ MAKEWORD (request.getD 2 0) (request.getD 3 0) % 65536 * 2) :
    ∃ code, handle_write_multiple_registers_ comp function request response =
      Except.ok (reject comp function code) := by
  by_cases hlen : request.length < 5
  · exact ⟨0x03, handle_write_multiple_registers_short comp function request response hlen⟩
  · obtain ⟨r0, r1, r2, r3, r4, rest, rfl⟩ := list_five request hlen
    have hchk : MAKEWORD r0 r1 % 65536 + MAKEWORD r2 r3 % 65536 > MAX_HOLDING_REGS ∨
        MAKEWORD r2 r3 % 65536 < 1 ∨ r4 ≠ MAKEWORD r2 r3 % 65536 * 2 := by
      rcases h with h | h
      · exact absurd h hlen
      · exact h
    refine ⟨0x02, ?_⟩
    unfold handle_write_multiple_registers_
    simp only [bind, Except.bind, vec_at, List.length_cons]
    simp only [List.getElem?_cons_zero, List.getElem?_cons_succ]
    have hlen2 : ¬ (rest.length + 1 + 1 + 1 + 1 + 1 < 5) := by omega
    simp only [hlen2, if_false]
    exact if_pos hchk

/-- C25. Rejected writes are atomic: for each of the four write handlers, a request that
the handler rejects (payload shorter than 4, resp. 5 bytes; address, or start + quantity,
beyond 64; quantity 0; byte count below `(quantity + 7) / 8`, resp. different from
`2 * quantity`) ends in the error exit with the component, and so all four banks, exactly as
before the call, and with the response cleared. -/
theorem rejected_writes_atomic (comp : ModbusTCPComponent) (function : Nat)
    (request response : List Nat) :
    ((request.length < 4 ∨
        MAKEWORD (request.getD 0 0) (request.getD 1 0) % 65536 ≥ MAX_COILS) →
      ∃ h, handle_write_single_coil_ comp function request response = Except.ok h ∧
        h.comp = comp ∧ h.response = []) ∧
    ((request.length < 4 ∨
        MAKEWORD (request.getD 0 0) (request.getD 1 0) % 65536 ≥ MAX_HOLDING_REGS) →
      ∃ h, handle_write_single_register_ comp function request response = Except.ok h ∧
        h.comp = comp ∧ h.response = []) ∧
    ((request.length < 5 ∨
        MAKEWORD (request.getD 0 0) (request.getD 1 0) % 65536 +
            MAKEWORD (request.getD 2 0) (request.getD 3 0) % 65536 > MAX_COILS ∨
        MAKEWORD (request.getD 2 0) (request.getD 3 0) % 65536 < 1 ∨
        request.getD 4 0 < (MAKEWORD (request.getD 2 0) (request.getD 3 0) % 65536 + 7) / 8) →
      ∃ h, handle_write_multiple_coils_ comp function request response = Except.ok h ∧
        h.comp = comp ∧ h.response = []) ∧
    ((request.length < 5 ∨
        MAKEWORD (request.getD 0 0) (request.getD 1 0) % 65536 +
            MAKEWORD (request.getD 2 0) (request.getD 3 0) % 65536 > MAX_HOLDING_REGS ∨
        MAKEWORD (request.getD 2 0) (request.getD 3 0) % 65536 < 1 ∨
        request.getD 4 0 ≠ MAKEWORD (request.getD 2 0) (request.getD 3 0) % 65536 * 2) →
      ∃ h, handle_write_multiple_registers_ comp function request response = Except.ok h ∧
        h.comp = comp ∧ h.response = []) := by
  refine ⟨fun h => ?_, fun h => ?_, fun h => ?_, fun h => ?_⟩
  · obtain ⟨code, hc⟩ := handle_write_single_coil_rejects comp function request response h
    exact ⟨_, hc, rfl, rfl⟩
  · obtain ⟨code, hc⟩ := handle_write_single_register_rejects comp function request response h
    exact ⟨_, hc, rfl, rfl⟩
  · obtain ⟨code, hc⟩ := handle_write_multiple_coils_rejects comp function request response h
    exact ⟨_, hc, rfl, rfl⟩
  · obtain ⟨code, hc⟩ := handle_write_multiple_registers_rejects comp function request response h
    exact ⟨_, hc, rfl, rfl⟩

/-- Witness of C25: Write Multiple Registers at 0x003F with quantity 2 (one register past
the bank) and Write Single Coil at 0x0040 are rejected and leave the component as it was. -/
theorem rejected_writes_atomic_witness :
    (∃ h, handle_write_multiple_registers_ demo_comp 0x10
        [0x00, 0x3F, 0x00, 0x02, 0x04, 0x00, 0x01, 0x00, 0x02]
        [0x00, 0x01, 0x00, 0x00, 0x00, 0x00, 0x01, 0x10] = Except.ok h ∧
      h.comp = demo_comp ∧ h.response = []) ∧
    (∃ h, handle_write_single_coil_ demo_comp 0x05 [0x00, 0x40, 0xFF, 0x00]
        [0x00, 0x01, 0x00, 0x00, 0x00, 0x00, 0x01, 0x05] = Except.ok h ∧
      h.comp = demo_comp ∧ h.response = []) :=
  ⟨(rejected_writes_atomic demo_comp 0x10 [0x00, 0x3F, 0x00, 0x02, 0x04, 0x00, 0x01, 0x00, 0x02]
      [0x00, 0x01, 0x00, 0x00, 0x00, 0x00, 0x01, 0x10]).2.2.2 (Or.inr (Or.inl (by decide))),
   (rejected_writes_atomic demo_comp 0x05 [0x00, 0x40, 0xFF, 0x00]
      [0x00, 0x01, 0x00, 0x00, 0x00, 0x00, 0x01, 0x05]).1 (Or.inr (by decide))⟩

/-- Every loop round of the server either returns with the state untouched or, whether it
goes on or stops, has removed exactly the first `6 + length` bytes of the buffer. -/
theorem body_exact (s : Server) :
    handle_incoming_packet_body s = Except.ok (Flow.done, s) ∨
    (8 ≤ s.cb.buffer.length ∧
      6 + MAKEWORD (s.cb.buffer.getD 4 0) (s.cb.buffer.getD 5 0) % 65536 ≤ s.cb.buffer.length ∧
      ((∃ t, handle_incoming_packet_body s = Except.ok (Flow.again, t) ∧
          t.cb.buffer = s.cb.buffer.drop
            (6 + MAKEWORD (s.cb.buffer.getD 4 0) (s.cb.buffer.getD 5 0) % 65536)) ∨
       (∃ f t, handle_incoming_packet_body s = Except.error (f, t) ∧
          t.cb.buffer = s.cb.buffer.drop
            (6 + MAKEWORD (s.cb.buffer.getD 4 0) (s.cb.buffer.getD 5 0) % 65536)))) := by
  by_cases h8 : s.cb.buffer.length ≥ 8
  · obtain ⟨b0, b1, b2, b3, b4, b5, b6, b7, tl, hbuf⟩ := list_eight s.cb.buffer h8
    have hlen : s.cb.buffer.length = tl.length + 8 := by rw [hbuf]; rfl
    have h4 : s.cb.buffer.getD 4 0 = b4 := by rw [hbuf]; rfl
    have h5 : s.cb.buffer.getD 5 0 = b5 := by rw [hbuf]; rfl
    rw [h4, h5]
    by_cases hshort : s.cb.buffer.length < 6 + MAKEWORD b4 b5 % 65536
    · exact Or.inl (body_incomplete s b0 b1 b2 b3 b4 b5 _ hbuf h8 hshort)
    · refine Or.inr ⟨h8, by omega, ?_⟩
      by_cases htiny : MAKEWORD b4 b5 % 65536 < 2
      · exact Or.inl ⟨_, body_tiny s b0 b1 b2 b3 b4 b5 _ hbuf h8 hshort htiny, rfl⟩
      · have hpl : (tl.take (MAKEWORD b4 b5 % 65536 - 2)).length = MAKEWORD b4 b5 % 65536 - 2 := by
          rw [List.length_take]; omega
        have hbuf2 : s.cb.buffer = b0 :: b1 :: b2 :: b3 :: b4 :: b5 :: b6 :: b7 ::
            (tl.take (MAKEWORD b4 b5 % 65536 - 2) ++ tl.drop (MAKEWORD b4 b5 % 65536 - 2)) := by
          rw [List.take_append_drop]; exact hbuf
        have hL : MAKEWORD b4 b5 % 65536 = (tl.take (MAKEWORD b4 b5 % 65536 - 2)).length + 2 := by
          omega
        have hdrop : tl.drop (MAKEWORD b4 b5 % 65536 - 2) =
            s.cb.buffer.drop (6 + MAKEWORD b4 b5 % 65536) := by
          have e : s.cb.buffer.drop (6 + MAKEWORD b4 b5 % 65536) =
              s.cb.buffer.drop (6 + ((tl.take (MAKEWORD b4 b5 % 65536 - 2)).length + 2)) := by
            rw [← hL]
          rw [e, hbuf2, drop_frame]
        by_cases hu : b6 = s.comp.unit_id_
        · have hb := body_dispatch s b0 b1 b2 b3 b4 b5 b6 b7 _ _ hbuf2 hL hu
          cases hd : dispatch s.comp b7 (tl.take (MAKEWORD b4 b5 % 65536 - 2))
              [b0 % 256, b1 % 256, b2 % 256, b3 % 256, 0, 0, b6 % 256, b7 % 256] with
          | none =>
            rw [hd] at hb
            exact Or.inl ⟨_, hb, hdrop⟩
          | some r =>
            rw [hd] at hb
            cases r with
            | error e =>
              obtain ⟨f, c⟩ := e
              exact Or.inr ⟨f, _, hb, hdrop⟩
            | ok h =>
              rcases finish_response_cases
                { comp := h.comp
                  cb := { client := s.cb.client, buffer := tl.drop (MAKEWORD b4 b5 % 65536 - 2) }
                  stray := s.stray ++ h.stray } h.response with ⟨sent, hfin⟩ | hfin
              · exact Or.inl ⟨_, hb.trans hfin, hdrop⟩
              · exact Or.inr ⟨_, _, hb.trans hfin, hdrop⟩
        · exact Or.inl ⟨_, body_mismatch s b0 b1 b2 b3 b4 b5 b6 b7 _ _ hbuf2 hL hu, hdrop⟩
  · exact Or.inl (body_short s (by omega))

/-- More fuel than the buffer has bytes changes nothing: the server loop ends the same way
for every such fuel, and never by running out of it. -/
theorem loop_fuel (fuel1 : Nat) :
    ∀ (fuel2 : Nat) (s : Server), s.cb.buffer.length < fuel1 → s.cb.buffer.length < fuel2 →
      handle_incoming_packet_loop fuel1 s = handle_incoming_packet_loop fuel2 s ∧
      (handle_incoming_packet_loop fuel1 s).1 ≠ Status.out_of_fuel := by
  induction fuel1 with
  | zero => intro fuel2 s h1; omega
  | succ k ih =>
    intro fuel2 s h1 h2
    obtain ⟨j, rfl⟩ : ∃ j, fuel2 = j + 1 := ⟨fuel2 - 1, by omega⟩
    rw [handle_incoming_packet_loop, handle_incoming_packet_loop]
    rcases body_outcome s with hb | ⟨t, hb, _, n, hn6, hnl, hbuf⟩ | ⟨f, t, hb, _, _⟩
    · rw [hb]
      exact ⟨rfl, fun h => Status.noConfusion h⟩
    · rw [hb]
      have hlt : t.cb.buffer.length < s.cb.buffer.length := by
        rw [hbuf, List.length_drop]; omega
      exact ih j t (by omega) (by omega)
    · rw [hb]
      exact ⟨rfl, fun h => Status.noConfusion h⟩

/-- The server loop enters at most as many rounds as the buffer has bytes, whatever the fuel. -/
theorem rounds_le (fuel : Nat) :
    ∀ s : Server, handle_incoming_packet_rounds fuel s ≤ s.cb.buffer.length := by
  induction fuel with
  | zero => intro s; exact Nat.zero_le _
  | succ k ih =>
    intro s
    rw [handle_incoming_packet_rounds]
    by_cases h8 : s.cb.buffer.length ≥ 8
    · simp only [h8, if_true]
      rcases body_outcome s with hb | ⟨t, hb, _, n, hn6, hnl, hbuf⟩ | ⟨f, t, hb, _, _⟩
      · rw [hb]
        show 1 ≤ s.cb.buffer.length
        omega
      · rw [hb]
        have hlt : t.cb.buffer.length + 6 ≤ s.cb.buffer.length := by
          rw [hbuf, List.length_drop]; omega
        have := ih t
        show 1 + handle_incoming_packet_rounds k t ≤ s.cb.buffer.length
        omega
      · rw [hb]
        show 1 ≤ s.cb.buffer.length
        omega
    · simp only [h8, if_false]
      exact Nat.zero_le _

/-- Every loop round of the client either returns with the state untouched, or drops
exactly one byte (protocol id not 0), or drops exactly the `6 + length` bytes of the frame
it delivers, or stops at the PDU slice of a length field 0. -/
theorem pbody_exact (self : ModbusTCP) :
    process_incoming_data_body self = Except.ok (Flow.done, self) ∨
    (8 ≤ self.incoming_buffer_.length ∧
      ((self.incoming_buffer_.getD 2 0 <<< 8) ||| self.incoming_buffer_.getD 3 0) % 65536 ≠ 0 ∧
      process_incoming_data_body self =
        Except.ok (Flow.again, { self with incoming_buffer_ := self.incoming_buffer_.drop 1 })) ∨
    (8 ≤ self.incoming_buffer_.length ∧
      ((self.incoming_buffer_.getD 2 0 <<< 8) ||| self.incoming_buffer_.getD 3 0) % 65536 = 0 ∧
      6 + ((self.incoming_buffer_.getD 4 0 <<< 8) ||| self.incoming_buffer_.getD 5 0) % 65536 ≤
        self.incoming_buffer_.length ∧
      ∃ t, process_incoming_data_body self = Except.ok (Flow.again, t) ∧
        t.incoming_buffer_ = self.incoming_buffer_.drop
          (6 + ((self.incoming_buffer_.getD 4 0 <<< 8) ||| self.incoming_buffer_.getD 5 0) % 65536)) ∨
    (8 ≤ self.incoming_buffer_.length ∧
      ((self.incoming_buffer_.getD 2 0 <<< 8) ||| self.incoming_buffer_.getD 3 0) % 65536 = 0 ∧
      ((self.incoming_buffer_.getD 4 0 <<< 8) ||| self.incoming_buffer_.getD 5 0) % 65536 = 0 ∧
      process_incoming_data_body self = Except.error (Fault.buffer_index, self)) := by
  by_cases h8 : self.incoming_buffer_.length ≥ 8
  · obtain ⟨b0, b1, b2, b3, b4, b5, u, b7, tl, hbuf⟩ := list_eight _ h8
    have hlen : self.incoming_buffer_.length = tl.length + 8 := by rw [hbuf]; rfl
    have h2 : self.incoming_buffer_.getD 2 0 = b2 := by rw [hbuf]; rfl
    have h3 : self.incoming_buffer_.getD 3 0 = b3 := by rw [hbuf]; rfl
    have h4 : self.incoming_buffer_.getD 4 0 = b4 := by rw [hbuf]; rfl
    have h5 : self.incoming_buffer_.getD 5 0 = b5 := by rw [hbuf]; rfl
    rw [h2, h3, h4, h5]
    by_cases hproto : ((b2 <<< 8) ||| b3) % 65536 = 0
    · by_cases hshort : self.incoming_buffer_.length < 6 + ((b4 <<< 8) ||| b5) % 65536
      · exact Or.inl (pbody_wait self b0 b1 b2 b3 b4 b5 _ hbuf h8 hproto hshort)
      · by_cases hzero : ((b4 <<< 8) ||| b5) % 65536 = 0
        · exact Or.inr (Or.inr (Or.inr ⟨h8, hproto, hzero,
            pbody_fault self b0 b1 b2 b3 b4 b5 u _ hbuf h8 hproto hzero⟩))
        · generalize hLdef : ((b4 <<< 8) ||| b5) % 65536 = L at hshort hzero
          have hpl : ((b7 :: tl).take (L - 1)).length = L - 1 := by
            rw [List.length_take, List.length_cons]; omega
          have hL : L = ((b7 :: tl).take (L - 1)).length + 1 := by omega
          have hbuf2 : self.incoming_buffer_ = b0 :: b1 :: b2 :: b3 :: b4 :: b5 :: u ::
              ((b7 :: tl).take (L - 1) ++ (b7 :: tl).drop (L - 1)) := by
            rw [List.take_append_drop]; exact hbuf
          have hb := pbody_frame self b0 b1 b2 b3 b4 b5 u _ _ hbuf2 h8 hproto (hLdef.trans hL)
          refine Or.inr (Or.inr (Or.inl ⟨h8, hproto, by omega, _, hb, ?_⟩))
          show (b7 :: tl).drop (L - 1) = self.incoming_buffer_.drop (6 + L)
          have e : 6 + L = (L - 1) + 7 := by omega
          rw [e, hbuf]
          rfl
    · exact Or.inr (Or.inl ⟨h8, hproto, pbody_resync self b0 b1 b2 b3 b4 b5 _ hbuf h8 hproto⟩)
  · exact Or.inl (pbody_short self (by omega))

/-- The client loop enters at most as many rounds as the buffer has bytes, whatever the
fuel. -/
theorem prounds_le (fuel : Nat) :
    ∀ self : ModbusTCP,
      process_incoming_data_rounds fuel self ≤ self.incoming_buffer_.length := by
  induction fuel with
  | zero => intro self; exact Nat.zero_le _
  | succ k ih =>
    intro self
    rw [process_incoming_data_rounds]
    by_cases h8 : self.incoming_buffer_.length ≥ 8
    · simp only [h8, if_true]
      rcases pbody_outcome self with hb | ⟨t, hb, hlt, _⟩ | ⟨hb, _⟩
      · rw [hb]
        show 1 ≤ self.incoming_buffer_.length
        omega
      · rw [hb]
        have := ih t
        show 1 + process_incoming_data_rounds k t ≤ self.incoming_buffer_.length
        omega
      · rw [hb]
        show 1 ≤ self.incoming_buffer_.length
        omega
    · simp only [h8, if_false]
      exact Nat.zero_le _

/-- What the rounds of the two reassembly loops do to the buffer.  Server: a round of
`handle_incoming_packet_` either returns with the state untouched or has removed exactly the
first `6 + length >= 6` bytes of the buffer.  Client: a round of `process_incoming_data_`
either returns with the state untouched, or removes exactly one byte (protocol id not
0x0000), or removes exactly the `6 + length` bytes of the frame it delivers, or stops at
the PDU slice of a length field 0 with the buffer untouched.  In both, every fuel above the
number of buffered bytes gives the same outcome, which is never "out of fuel", and the
number of loop iterations entered is at most the number of bytes in the buffer. -/
theorem reassembly_rounds :
    (∀ s : Server,
      (handle_incoming_packet_body s = Except.ok (Flow.done, s) ∨
        (8 ≤ s.cb.buffer.length ∧
          6 + MAKEWORD (s.cb.buffer.getD 4 0) (s.cb.buffer.getD 5 0) % 65536 ≤
            s.cb.buffer.length ∧
          ((∃ t, handle_incoming_packet_body s = Except.ok (Flow.again, t) ∧
              t.cb.buffer = s.cb.buffer.drop
                (6 + MAKEWORD (s.cb.buffer.getD 4 0) (s.cb.buffer.getD 5 0) % 65536)) ∨
           (∃ f t, handle_incoming_packet_body s = Except.error (f, t) ∧
              t.cb.buffer = s.cb.buffer.drop
                (6 + MAKEWORD (s.cb.buffer.getD 4 0) (s.cb.buffer.getD 5 0) % 65536))))) ∧
      (∀ fuel, s.cb.buffer.length < fuel →
        handle_incoming_packet_loop fuel s = handle_incoming_packet_ s) ∧
      (handle_incoming_packet_ s).1 ≠ Status.out_of_fuel ∧
      (∀ fuel, handle_incoming_packet_rounds fuel s ≤ s.cb.buffer.length)) ∧
    (∀ self : ModbusTCP,
      (process_incoming_data_body self = Except.ok (Flow.done, self) ∨
        (8 ≤ self.incoming_buffer_.length ∧
          ((self.incoming_buffer_.getD 2 0 <<< 8) ||| self.incoming_buffer_.getD 3 0) % 65536 ≠ 0 ∧
          process_incoming_data_body self =
            Except.ok (Flow.again,
              { self with incoming_buffer_ := self.incoming_buffer_.drop 1 })) ∨
        (8 ≤ self.incoming_buffer_.length ∧
          ((self.incoming_buffer_.getD 2 0 <<< 8) ||| self.incoming_buffer_.getD 3 0) % 65536 = 0 ∧
          6 + ((self.incoming_buffer_.getD 4 0 <<< 8) ||| self.incoming_buffer_.getD 5 0) % 65536 ≤
            self.incoming_buffer_.length ∧
          ∃ t, process_incoming_data_body self = Except.ok (Flow.again, t) ∧
            t.incoming_buffer_ = self.incoming_buffer_.drop
              (6 + ((self.incoming_buffer_.getD 4 0 <<< 8) |||
                self.incoming_buffer_.getD 5 0) % 65536)) ∨
        (8 ≤ self.incoming_buffer_.length ∧
          ((self.incoming_buffer_.getD 2 0 <<< 8) ||| self.incoming_buffer_.getD 3 0) % 65536 = 0 ∧
          ((self.incoming_buffer_.getD 4 0 <<< 8) ||| self.incoming_buffer_.getD 5 0) % 65536 = 0 ∧
          process_incoming_data_body self = Except.error (Fault.buffer_index, self))) ∧
      (∀ fuel, self.incoming_buffer_.length < fuel →
        process_incoming_data_loop fuel self = process_incoming_data_ self) ∧
      (process_incoming_data_ self).1 ≠ Status.out_of_fuel ∧
      (∀ fuel, process_incoming_data_rounds fuel self ≤ self.incoming_buffer_.length)) := by
  constructor
  · intro s
    exact ⟨body_exact s,
      fun fuel h => (loop_fuel fuel (s.cb.buffer.length + 1) s h (by omega)).1,
      (loop_fuel (s.cb.buffer.length + 1) (s.cb.buffer.length + 1) s (by omega) (by omega)).2,
      fun fuel => rounds_le fuel s⟩
  · intro self
    exact ⟨pbody_exact self,
      fun fuel h => (ploop_fuel fuel (self.incoming_buffer_.length + 1) self h (by omega)).1,
      run_not_out_of_fuel self,
      fun fuel => prounds_le fuel self⟩

/-- C26, the code at a client buffer holding a header with protocol id 0x0000 and length
field 0: the loop iteration neither returns nor shortens the buffer; it stops at the PDU
slice, whose range ends before it starts, with all eight bytes still buffered. -/
theorem client_round_stops_at_length_zero :
    process_incoming_data_body
        (demo_client [0x00, 0x01, 0x00, 0x00, 0x00, 0x00, 0x01, 0x03] 0) =
      Except.error (Fault.buffer_index,
        demo_client [0x00, 0x01, 0x00, 0x00, 0x00, 0x00, 0x01, 0x03] 0) ∧
    process_incoming_data_rounds 9
        (demo_client [0x00, 0x01, 0x00, 0x00, 0x00, 0x00, 0x01, 0x03] 0) = 1 :=
  ⟨rfl, by decide⟩

end modbus_tcp
